import Mathlib

/-
Verification of the archon archetype-based ECS storage engine.

The development shallowly embeds the core of the C++ sources
(include/archon/ecs.impl.h and src/ecs.cpp, namespace ecs / ecs::detail):

* component values are modelled as natural numbers (the engine treats them
  as opaque payloads; memcpy, move-construction and copy-construction all
  transport the value unchanged);
* `ComponentArray` (one column of a single component type) is a `List ℕ`;
* `std::unordered_map` becomes `AList` over `ℕ` keys (iteration order of an
  unordered map is unspecified, so the deterministic association-list order
  is a legitimate refinement);
* a `ComponentMask` (`std::bitset<32>`) is a natural number below 2^32,
  manipulated through `Nat` bitwise operations;
* the C++ `Archetype &` references held in `entity_to_archetype_` are
  represented by the referenced archetype's mask, which is its unique pinned
  key in `component_mask_to_archetypes_`;
* failing a debug `assert` or calling `.at` on a missing key aborts the
  whole operation: such an operation returns `none` and produces no
  post-state.
-/

namespace ecs

/-- Helper modelling an entry-preserving value map on the sigma entries of an
association list: every key is kept, its value is rewritten by `f`. -/
def sMapVals {β : Type} (f : ℕ → β → β) :
    List (Sigma (fun _ : ℕ => β)) → List (Sigma (fun _ : ℕ => β))
  | [] => []
  | e :: rest => ⟨e.1, f e.1 e.2⟩ :: sMapVals f rest

/-- Map a function over the values of an association list keyed by `ℕ`,
keeping all keys. -/
def mapVals {β : Type} (f : ℕ → β → β) (m : AList (fun _ : ℕ => β)) :
    AList (fun _ : ℕ => β) :=
  ⟨sMapVals f m.entries, by
    have h : ∀ l : List (Sigma (fun _ : ℕ => β)),
        (sMapVals f l).keys = l.keys := by
      intro l
      induction l with
      | nil => rfl
      | cons en rest ih => simp [sMapVals, List.keys] at ih ⊢; exact ih
    unfold List.NodupKeys
    rw [h]
    exact m.nodupKeys⟩

/-- Option-valued analogue of `sMapVals`: rewriting any value may fail, in
which case the whole traversal fails. -/
def sMapValsM {β : Type} (f : ℕ → β → Option β) :
    List (Sigma (fun _ : ℕ => β)) → Option (List (Sigma (fun _ : ℕ => β)))
  | [] => some []
  | e :: rest => do
    let v ← f e.1 e.2
    let rest2 ← sMapValsM f rest
    some (⟨e.1, v⟩ :: rest2)

/-- Option-valued value map on an `AList`. -/
def mapValsM {β : Type} (f : ℕ → β → Option β) (m : AList (fun _ : ℕ => β)) :
    Option (AList (fun _ : ℕ => β)) :=
  match h : sMapValsM f m.entries with
  | none => none
  | some l2 => some ⟨l2, by
      have hk : ∀ l lb : List (Sigma (fun _ : ℕ => β)),
          sMapValsM f l = some lb → lb.keys = l.keys := by
        intro l
        induction l with
        | nil => intro lb hh; simp [sMapValsM] at hh; simp [hh]
        | cons en rest ih =>
          intro lb hh
          simp only [sMapValsM, Option.bind_eq_bind, Option.bind_eq_some] at hh
          obtain ⟨v, hv, rest2, hrest, hcons⟩ := hh
          cases hcons
          have hk2 := ih _ hrest
          simp only [List.keys] at hk2 ⊢
          simp [hk2]
      unfold List.NodupKeys
      rw [hk _ _ h]
      exact m.nodupKeys⟩

/-- Emplace semantics of `std::unordered_map::emplace`: insert only when the
key is not already present. -/
def alEmplace {β : Type} (m : AList (fun _ : ℕ => β)) (k : ℕ) (v : β) :
    AList (fun _ : ℕ => β) :=
  if k ∈ m then m else m.insert k v

/-- Component mask built by `detail::get_component_mask`: fold `mask.set(id)`
over the component type ids. -/
def maskOfList (cs : List ℕ) : ℕ :=
  cs.foldl (fun m c => m ||| 2 ^ c) 0

/-- Complement of a mask within the 32 bits of `std::bitset<32>`. -/
def maskNot (m : ℕ) : ℕ :=
  (2 ^ 32 - 1) ^^^ m

/-- One type-erased column (`detail::ComponentArray`), reduced to the stored
values. -/
abbrev ComponentArray := List ℕ

/-- Push a value onto a column (`ComponentArray::push`): grow if needed, then
construct the element at the tail. Byte-copy, move-construction and
copy-construction all store the same value. -/
def ComponentArray.push (col : ComponentArray) (v : ℕ) : ComponentArray :=
  col ++ [v]

/-- Swap-and-pop removal (`ComponentArray::remove`): unless the removed index
is the last one, the last element is moved over index `idx`; the tail slot is
then destroyed and the count decremented. -/
def ComponentArray.remove (col : ComponentArray) (idx : ℕ) : ComponentArray :=
  let last_idx := col.length - 1
  let col2 := if idx ≠ last_idx then col.set idx (col.getD last_idx 0) else col
  col2.dropLast

/-- Storage for all entities sharing one exact component set
(`detail::Archetype`). -/
structure Archetype where
  idx_to_entity : List ℕ
  entities_to_idx : AList (fun _ : ℕ => ℕ)
  mask_ : ℕ
  components : AList (fun _ : ℕ => ComponentArray)

namespace Archetype

/-- Archetype construction from a mask: one empty column per set bit of the
mask (`Archetype::Archetype`). -/
def ofMask (mask : ℕ) : Archetype where
  idx_to_entity := []
  entities_to_idx := ∅
  mask_ := mask
  components :=
    (List.range 32).foldl
      (fun m id => if mask.testBit id then m.insert id [] else m) ∅

/-- Membership test (`Archetype::contains`). -/
def contains (A : Archetype) (e : ℕ) : Bool :=
  (A.entities_to_idx.lookup e).isSome

/-- Number of stored entities (`Archetype::entity_count`). -/
def entity_count (A : Archetype) : ℕ :=
  A.idx_to_entity.length

/-- Dense-index to entity-id lookup (`Archetype::get_entity`); the C++ vector
access is unchecked. -/
def get_entity (A : Archetype) (idx : ℕ) : ℕ :=
  A.idx_to_entity.getD idx 0

/-- Entity to dense-index lookup (`Archetype::idx_of`); `unordered_map::at`
faults on a missing key. -/
def idx_of (A : Archetype) (e : ℕ) : Option ℕ :=
  A.entities_to_idx.lookup e

/-- Append an entity (`Archetype::add_entity`): `assert(!contains(entity))`,
then record the two index entries. Columns are not touched. -/
def add_entity (A : Archetype) (e : ℕ) : Option (ℕ × Archetype) :=
  if A.contains e then none
  else
    let newIndex := A.entity_count
    some (newIndex,
      { A with
        idx_to_entity := A.idx_to_entity ++ [e]
        entities_to_idx := A.entities_to_idx.insert e newIndex })

/-- Swap-and-pop removal of an entity (`Archetype::remove_entity`). The
extract of a missing entity returns early; otherwise the last-indexed entity
is moved into the removed slot, the index entries are fixed up, and every
column removes the slot. -/
def remove_entity (A : Archetype) (e : ℕ) : Archetype :=
  match A.entities_to_idx.lookup e with
  | none => A
  | some mid_index =>
    let m1 := A.entities_to_idx.erase e
    let last_index := A.entity_count - 1
    let last_entity := A.idx_to_entity.getD last_index 0
    let m2 := if mid_index ≠ last_index then m1.insert last_entity mid_index
      else m1
    let lst := if mid_index ≠ last_index then
        (A.idx_to_entity.set mid_index last_entity).set last_index
          (A.idx_to_entity.getD mid_index 0)
      else A.idx_to_entity
    { A with
      idx_to_entity := lst.dropLast
      entities_to_idx := m2
      components := mapVals (fun _ col => col.remove mid_index) A.components }

/-- Bulk clear (`Archetype::clear` in ecs.cpp): both entity indices are
cleared and `components.clear()` empties the column map itself. Only the mask
survives. -/
def clear (A : Archetype) : Archetype :=
  { A with idx_to_entity := [], entities_to_idx := ∅, components := ∅ }

/-- Predicate-based removal (`Archetype::remove_if`): on a non-empty
archetype, fetch the queried columns (`data_arrays`, `.at` faults on a
missing column), collect the entities whose `(entity, components...)` tuple
satisfies the predicate, then remove them one by one. -/
def remove_if (A : Archetype) (ids : List ℕ) (p : ℕ → List ℕ → Bool) :
    Option Archetype :=
  if A.entity_count = 0 then some A
  else do
    let arrays ← ids.mapM (fun id => A.components.lookup id)
    let toRemove := (List.range A.entity_count).filterMap (fun i =>
      let e := A.idx_to_entity.getD i 0
      if p e (arrays.map (fun col => col.getD i 0)) then some e else none)
    some (toRemove.foldl Archetype.remove_entity A)

/-- Shorthand for the id stored at the last dense index. -/
def last_ent (A : Archetype) : ℕ :=
  A.idx_to_entity.getD (A.idx_to_entity.length - 1) 0

/-- Observable value of component `c` for entity `e` inside an archetype. -/
def valueOf (A : Archetype) (c e : ℕ) : Option ℕ :=
  match A.idx_of e, A.components.lookup c with
  | some i, some col => col[i]?
  | _, _ => none


/-- Observable values of the queried components of an entity, in the cached
id order; this is what `Archetype::remove_if` hands the predicate. -/
def queryVals (A : Archetype) (ids : List ℕ) (e : ℕ) : List ℕ :=
  ids.map (fun c => (A.valueOf c e).getD 0)

end Archetype

/-- Shared shape of the migration loops in `World::add_components` and
`World::remove_components`: push one value per listed column of the target
archetype (`components.at(id)` faults on a missing column, so pushing into an
absent column aborts). -/
def pushPairs (T0 : Archetype) (ps : List (ℕ × ℕ)) : Option Archetype :=
  ps.foldlM (fun T idv => do
    let col ← T.components.lookup idv.1
    some { T with
      components := T.components.insert idv.1 (col.push idv.2) }) T0

/-- The archetype registry plus the entity index (`ecs::World`). The C++
`entity_to_archetype_` stores stable `Archetype &` references; an archetype is
pinned under its unique mask key, so the reference is represented by that
mask. -/
structure World where
  component_mask_to_archetypes_ : AList (fun _ : ℕ => Archetype)
  entity_to_archetype_ : AList (fun _ : ℕ => ℕ)
  next_entity_id_ : ℕ

namespace World

/-- The default-constructed world. -/
def empty : World where
  component_mask_to_archetypes_ := ∅
  entity_to_archetype_ := ∅
  next_entity_id_ := 0

/-- Find or lazily create the archetype of a mask
(`World::get_or_create_archetype`): `emplace` constructs `Archetype(mask)`
only when the key is absent. -/
def get_or_create_archetype (w : World) (mask : ℕ) : Archetype × World :=
  match w.component_mask_to_archetypes_.lookup mask with
  | some A => (A, w)
  | none =>
    let A := Archetype.ofMask mask
    (A, { w with
      component_mask_to_archetypes_ :=
        w.component_mask_to_archetypes_.insert mask A })

/-- Mint a fresh entity (`World::create_entity`): increment the id counter,
ensure the empty-mask archetype exists, add the entity to it and record the
mapping (`emplace`). -/
def create_entity (w : World) : Option (ℕ × World) :=
  let new_entity := w.next_entity_id_
  let (A, w1) := w.get_or_create_archetype 0
  match A.add_entity new_entity with
  | none => none
  | some (_, A2) =>
    some (new_entity,
      { w1 with
        component_mask_to_archetypes_ :=
          w1.component_mask_to_archetypes_.insert 0 A2
        entity_to_archetype_ :=
          alEmplace w1.entity_to_archetype_ new_entity 0
        next_entity_id_ := new_entity + 1 })

/-- Attach components (`World::add_components`). `newComps` carries one
`(component type id, value)` pair per variadic argument, in declaration
order. Mirrors the source: assert the entity exists, compute the target mask,
`assert(current_mask != target_mask)`, add the entity to the target
archetype, reassign the entity map, push the new component values, carry over
every column of the current archetype at the entity's old index, and finally
compact the current archetype. -/
def add_components (w : World) (e : ℕ) (newComps : List (ℕ × ℕ)) :
    Option World := do
  let current_key ← w.entity_to_archetype_.lookup e
  let current ← w.component_mask_to_archetypes_.lookup current_key
  let current_mask := current.mask_
  let add_mask := maskOfList (newComps.map Prod.fst)
  let target_mask := current_mask ||| add_mask
  if current_mask = target_mask then none
  else do
    let (target, w1) := w.get_or_create_archetype target_mask
    let (_, target1) ← target.add_entity e
    let ent2 := w1.entity_to_archetype_.insert e target_mask
    let target2 ← pushPairs target1 newComps
    let old_index ← current.idx_of e
    let target3 ← pushPairs target2
      (current.components.entries.map (fun en => (en.1, en.2.getD old_index 0)))
    let current2 := current.remove_entity e
    some { w1 with
      component_mask_to_archetypes_ :=
        (w1.component_mask_to_archetypes_.insert target_mask target3).insert
          current_key current2
      entity_to_archetype_ := ent2 }

/-- Detach components (`World::remove_components`). The target mask is
`current & ~bits`; if the target archetype equals the current one the call
returns at once, otherwise the entity migrates carrying exactly the columns
whose bit survives in the target mask. -/
def remove_components (w : World) (e : ℕ) (ids : List ℕ) : Option World := do
  let current_key ← w.entity_to_archetype_.lookup e
  let current ← w.component_mask_to_archetypes_.lookup current_key
  let remove_mask := maskOfList ids
  let target_mask := current.mask_ &&& maskNot remove_mask
  let (target, w1) := w.get_or_create_archetype target_mask
  if target.mask_ = current.mask_ then some w1
  else do
    let old_idx ← current.idx_of e
    let (_, target1) ← target.add_entity e
    let ent2 := w1.entity_to_archetype_.insert e target_mask
    let target2 ← pushPairs target1
      ((current.components.entries.filter
          (fun en => target_mask.testBit en.1)).map
        (fun en => (en.1, en.2.getD old_idx 0)))
    let current2 := current.remove_entity e
    some { w1 with
      component_mask_to_archetypes_ :=
        (w1.component_mask_to_archetypes_.insert target_mask target2).insert
          current_key current2
      entity_to_archetype_ := ent2 }

/-- Component-set test (`World::has_components`): assert the entity exists,
then test `(test_mask & actual_mask) == test_mask`. -/
def has_components (w : World) (e : ℕ) (ids : List ℕ) : Option Bool := do
  let current_key ← w.entity_to_archetype_.lookup e
  let current ← w.component_mask_to_archetypes_.lookup current_key
  let test_mask := maskOfList ids
  some (decide ((test_mask &&& current.mask_) = test_mask))

/-- Observable component value of a live entity, read through the entity map
and the owning archetype's column. -/
def compValue (w : World) (e c : ℕ) : Option ℕ :=
  match w.entity_to_archetype_.lookup e with
  | none => none
  | some m =>
    match w.component_mask_to_archetypes_.lookup m with
    | none => none
    | some A => A.valueOf c e

end World

/-- A compile-time-typed query (`ecs::Query<Cs...>`): the include and exclude
masks plus the cached component type ids of the value components in
declaration order. -/
structure Query where
  include_mask : ℕ
  exclude_mask : ℕ
  component_type_ids : List ℕ

namespace Query

/-- The `Query<Cs...>` constructor: the include mask collects the bit of each
value component, whose ids are cached in declaration order. -/
def ofIds (ids : List ℕ) : Query where
  include_mask := maskOfList ids
  exclude_mask := 0
  component_type_ids := ids

/-- Widen the include mask (`Query::with`). -/
def with_comps (q : Query) (ids : List ℕ) : Query :=
  { q with include_mask := ids.foldl (fun m c => m ||| 2 ^ c) q.include_mask }

/-- Widen the exclude mask (`Query::without`). -/
def without_comps (q : Query) (ids : List ℕ) : Query :=
  { q with exclude_mask := ids.foldl (fun m c => m ||| 2 ^ c) q.exclude_mask }

/-- Mask matching (`Query::matches`):
`(mask & include) == include && (mask & exclude) == 0`. -/
def matchesMask (q : Query) (mask : ℕ) : Bool :=
  decide ((mask &&& q.include_mask) = q.include_mask) &&
    decide ((mask &&& q.exclude_mask) = 0)

/-- Entity count of the query (`Query::size`): sum `entity_count()` over the
archetypes whose key mask matches. -/
def size (q : Query) (w : World) : ℕ :=
  w.component_mask_to_archetypes_.entries.foldl
    (fun total entry =>
      if q.matchesMask entry.1 then total + entry.2.entity_count else total) 0

/-- Bulk clear (`Query::clear`): call `Archetype::clear` on every matching
archetype. The world's entity map is not touched. -/
def clear (q : Query) (w : World) : World :=
  { w with
    component_mask_to_archetypes_ :=
      mapVals (fun m A => if q.matchesMask m then A.clear else A)
        w.component_mask_to_archetypes_ }

/-- Predicate removal (`Query::remove_if`): run `Archetype::remove_if` on
every matching archetype. The world's entity map is not touched. -/
def remove_if (q : Query) (w : World) (p : ℕ → List ℕ → Bool) :
    Option World := do
  let arch2 ← mapValsM
    (fun m A =>
      if q.matchesMask m then A.remove_if q.component_type_ids p else some A)
    w.component_mask_to_archetypes_
  some { w with component_mask_to_archetypes_ := arch2 }

end Query

/-- Modelled from the spec: the operation is missing from the sources in
this snapshot, while the tests call it as `world.remove_entity(e)`.
`World::destroy_entity(e) → bool`: "if unknown, return false. Otherwise
remove from its archetype and erase the mapping. Return true." -/
def World.remove_entity (w : World) (e : ℕ) : Bool × World :=
  match w.entity_to_archetype_.lookup e with
  | none => (false, w)
  | some m =>
    let arch :=
      match w.component_mask_to_archetypes_.lookup m with
      | some A =>
        w.component_mask_to_archetypes_.insert m (A.remove_entity e)
      | none => w.component_mask_to_archetypes_
    (true,
      { w with
        component_mask_to_archetypes_ := arch
        entity_to_archetype_ := w.entity_to_archetype_.erase e })

/-- Well-formedness of an archetype, as maintained by the engine:
`entities_to_idx` is exactly the positional inverse of `idx_to_entity`, every
column stores one element per entity, every column key is a set mask bit, and
a populated archetype owns a column for every mask bit. -/
structure ArchWF (A : Archetype) : Prop where
  lookup_iff : ∀ e i,
    A.entities_to_idx.lookup e = some i ↔ A.idx_to_entity[i]? = some e
  cols_len : ∀ c col,
    A.components.lookup c = some col → col.length = A.idx_to_entity.length
  keys_sub : ∀ c, c ∈ A.components → A.mask_.testBit c = true
  keys_pop : A.idx_to_entity ≠ [] →
    ∀ c, A.mask_.testBit c = true → c ∈ A.components

/-- Unconditional form of the column-coverage property: one column per mask
bit whether or not the archetype is populated. It holds for every archetype
the engine ever creates, but `Archetype.clear` destroys it. -/
def StrongKeys (A : Archetype) : Prop :=
  ∀ c, A.mask_.testBit c = true → c ∈ A.components

/-- The total entity population of the world: sum of `entity_count` over all
archetypes. -/
def World.totalCount (w : World) : ℕ :=
  (w.component_mask_to_archetypes_.entries.map
    (fun en => en.2.entity_count)).sum

/-- Well-formedness of the world that survives every public mutation: every
registered archetype carries its own key as mask, the mask fits in 32 bits,
and the archetype is internally consistent. -/
structure WorldWF (w : World) : Prop where
  arch : ∀ m A, w.component_mask_to_archetypes_.lookup m = some A →
    A.mask_ = m ∧ m < 2 ^ 32 ∧ ArchWF A

/-- The full invariant of a world built from entity creation and component
attach/detach alone (`Query::clear` and `Query::remove_if` break the parts
about the entity map). -/
structure StrongInv (w : World) : Prop where
  wf : WorldWF w
  strong : ∀ m A, w.component_mask_to_archetypes_.lookup m = some A →
    StrongKeys A
  went : ∀ e m, w.entity_to_archetype_.lookup e = some m →
    ∃ A, w.component_mask_to_archetypes_.lookup m = some A ∧
      A.contains e = true
  wrev : ∀ m A, w.component_mask_to_archetypes_.lookup m = some A →
    ∀ e, A.contains e = true → w.entity_to_archetype_.lookup e = some m
  wnext : ∀ e m, w.entity_to_archetype_.lookup e = some m →
    e < w.next_entity_id_
  wcount : w.totalCount = w.entity_to_archetype_.entries.length

/-- One public mutation of the world, with the usage preconditions under
which the engine documents it (attached component sets are disjoint from the
current mask, each component type appears once, and component ids come from
the registry, hence below 32). -/
inductive PublicMutation : World → World → Prop where
  | create (w w2 : World) (e : ℕ) :
      w.create_entity = some (e, w2) → PublicMutation w w2
  | add (w w2 : World) (e : ℕ) (cs : List (ℕ × ℕ)) :
      (cs.map Prod.fst).Nodup → (∀ c ∈ cs.map Prod.fst, c < 32) →
      (∀ mkey A, w.entity_to_archetype_.lookup e = some mkey →
        w.component_mask_to_archetypes_.lookup mkey = some A →
        maskOfList (cs.map Prod.fst) &&& A.mask_ = 0) →
      w.add_components e cs = some w2 → PublicMutation w w2
  | remove (w w2 : World) (e : ℕ) (ids : List ℕ) :
      (∀ c ∈ ids, c < 32) →
      w.remove_components e ids = some w2 → PublicMutation w w2
  | qclear (w : World) (q : Query) : PublicMutation w (q.clear w)
  | qremove_if (w w2 : World) (q : Query) (p : ℕ → List ℕ → Bool) :
      q.remove_if w p = some w2 → PublicMutation w w2

/-- Worlds reachable from the default-constructed world through entity
creation and component attach/detach under valid usage. -/
inductive Reached : World → Prop where
  | init : Reached World.empty
  | create (w w2 : World) (e : ℕ) :
      Reached w → w.create_entity = some (e, w2) → Reached w2
  | add (w w2 : World) (e : ℕ) (cs : List (ℕ × ℕ)) :
      Reached w → (cs.map Prod.fst).Nodup →
      (∀ c ∈ cs.map Prod.fst, c < 32) →
      (∀ mkey A, w.entity_to_archetype_.lookup e = some mkey →
        w.component_mask_to_archetypes_.lookup mkey = some A →
        maskOfList (cs.map Prod.fst) &&& A.mask_ = 0) →
      w.add_components e cs = some w2 → Reached w2
  | remove (w w2 : World) (e : ℕ) (ids : List ℕ) :
      Reached w → (∀ c ∈ ids, c < 32) →
      w.remove_components e ids = some w2 → Reached w2


/-- Example query over component type id 0 (`Query<P>` with P registered
first). -/
def exq0 : Query := Query.ofIds [0]

/-- Example world: one freshly created entity (id 0). -/
def exw1 : World := ((World.empty.create_entity).getD (0, World.empty)).2

/-- Example world: entity 0 carries component 0 with value 5. -/
def exw2 : World := (exw1.add_components 0 [(0, 5)]).getD World.empty

/-- Example world: `Query<P>::remove_if` with an always-true predicate run on
`exw2`. -/
def exw3 : World :=
  (exq0.remove_if exw2 (fun _ _ => true)).getD World.empty

/-- Example world: `Query<P>::clear` run on `exw2`. -/
def exw4 : World := exq0.clear exw2

/-- Example world: the partially overlapping attach `add_components<P, V>`
on an entity that already has P. -/
def exw5 : World := (exw2.add_components 0 [(0, 6), (1, 7)]).getD World.empty

/-- Example world: `exw2` plus a second, component-free entity (id 1). -/
def exw2b : World := ((exw2.create_entity).getD (0, World.empty)).2


/-- The archetype of mask {0} in `exw2` (one entity, component 0 value 5). -/
def exA : Archetype :=
  (exw2.component_mask_to_archetypes_.lookup 1).getD (Archetype.ofMask 0)

/-- The archetype of mask {0,1} in `exw5`, produced by the partially
overlapping attach. -/
def exA5 : Archetype :=
  (exw5.component_mask_to_archetypes_.lookup 3).getD (Archetype.ofMask 0)

theorem maskOfList_foldl_testBit (cs : List ℕ) (m0 : ℕ) (b : ℕ) :
    (cs.foldl (fun m c => m ||| 2 ^ c) m0).testBit b =
      (m0.testBit b || decide (b ∈ cs)) := by
  induction cs generalizing m0 with
  | nil => simp
  | cons c rest ih =>
    simp only [List.foldl_cons, ih, Nat.testBit_or, Nat.testBit_two_pow,
      List.mem_cons]
    by_cases h : b ∈ rest <;> by_cases h2 : c = b <;> simp [h, h2] <;> tauto

theorem maskOfList_testBit (cs : List ℕ) (b : ℕ) :
    (maskOfList cs).testBit b = decide (b ∈ cs) := by
  have := maskOfList_foldl_testBit cs 0 b
  simpa [maskOfList] using this

theorem maskNot_testBit {m : ℕ} (hm : m < 2 ^ 32) (b : ℕ) :
    (maskNot m).testBit b = (decide (b < 32) && !m.testBit b) := by
  unfold maskNot
  rw [Nat.testBit_xor, Nat.testBit_two_pow_sub_one]
  by_cases hb : b < 32
  · simp [hb]
  · simp [hb, Nat.testBit_lt_two_pow (x := m) (i := b)
      (lt_of_lt_of_le hm (Nat.pow_le_pow_right (by norm_num) (by omega)))]

theorem sMapVals_keys {β : Type} (f : ℕ → β → β)
    (l : List (Sigma (fun _ : ℕ => β))) : (sMapVals f l).keys = l.keys := by
  induction l with
  | nil => rfl
  | cons e rest ih => simp [sMapVals, List.keys, ih, List.keys] at ih ⊢; exact ih

theorem sMapVals_dlookup {β : Type} (f : ℕ → β → β)
    (l : List (Sigma (fun _ : ℕ => β))) (k : ℕ) :
    (sMapVals f l).dlookup k = (l.dlookup k).map (f k) := by
  induction l with
  | nil => rfl
  | cons e rest ih =>
    by_cases h : k = e.1
    · subst h; simp [sMapVals, List.dlookup]
    · rw [sMapVals, List.dlookup_cons_ne _ _ (by simpa using h),
        List.dlookup_cons_ne _ _ (by simpa using h), ih]

theorem mapVals_lookup {β : Type} (f : ℕ → β → β)
    (m : AList (fun _ : ℕ => β)) (k : ℕ) :
    (mapVals f m).lookup k = (m.lookup k).map (f k) := by
  show (sMapVals f m.entries).dlookup k = _
  exact sMapVals_dlookup f m.entries k

theorem sMapValsM_keys {β : Type} {f : ℕ → β → Option β}
    {l l2 : List (Sigma (fun _ : ℕ => β))} (h : sMapValsM f l = some l2) :
    l2.keys = l.keys := by
  induction l generalizing l2 with
  | nil => simp [sMapValsM] at h; simp [h]
  | cons e rest ih =>
    simp only [sMapValsM, Option.bind_eq_bind, Option.bind_eq_some] at h
    obtain ⟨v, hv, rest2, hrest, hcons⟩ := h
    cases hcons
    have hk := ih hrest
    simp only [List.keys] at hk ⊢
    simp [hk]

theorem ComponentArray.push_length (col : ComponentArray) (v : ℕ) :
    (col.push v).length = col.length + 1 := by
  simp [ComponentArray.push]

theorem ComponentArray.push_get_lt {col : ComponentArray} {i : ℕ}
    (h : i < col.length) (v : ℕ) : (col.push v)[i]? = col[i]? := by
  unfold ComponentArray.push
  rw [List.getElem?_append_left h]

theorem ComponentArray.push_get_last (col : ComponentArray) (v : ℕ) :
    (col.push v)[col.length]? = some v := by
  unfold ComponentArray.push
  rw [List.getElem?_append_right (le_refl _)]
  simp

theorem pushPairs_nil (T0 : Archetype) : pushPairs T0 [] = some T0 := rfl

theorem pushPairs_cons (T0 : Archetype) (p : ℕ × ℕ) (ps : List (ℕ × ℕ)) :
    pushPairs T0 (p :: ps) =
      match T0.components.lookup p.1 with
      | none => none
      | some col =>
        pushPairs
          { T0 with components := T0.components.insert p.1 (col.push p.2) }
          ps := by
  unfold pushPairs
  cases h : T0.components.lookup p.1 <;> simp [h]

theorem pushPairs_fields (ps : List (ℕ × ℕ)) :
    ∀ (T0 T2 : Archetype), pushPairs T0 ps = some T2 →
      T2.idx_to_entity = T0.idx_to_entity ∧
        T2.entities_to_idx = T0.entities_to_idx ∧ T2.mask_ = T0.mask_ := by
  induction ps with
  | nil => intro T0 T2 h; cases h; exact ⟨rfl, rfl, rfl⟩
  | cons p ps ih =>
    intro T0 T2 h
    rw [pushPairs_cons] at h
    cases hcol : T0.components.lookup p.1 with
    | none => simp [hcol] at h
    | some col =>
      simp only [hcol] at h
      obtain ⟨h1, h2, h3⟩ := ih _ _ h
      exact ⟨h1, h2, h3⟩

theorem pushPairs_mem (ps : List (ℕ × ℕ)) :
    ∀ (T0 T2 : Archetype), pushPairs T0 ps = some T2 →
      ∀ c, (c ∈ T2.components ↔ c ∈ T0.components) := by
  induction ps with
  | nil => intro T0 T2 h c; cases h; exact Iff.rfl
  | cons p ps ih =>
    intro T0 T2 h c
    rw [pushPairs_cons] at h
    cases hcol : T0.components.lookup p.1 with
    | none => simp [hcol] at h
    | some col =>
      simp only [hcol] at h
      have hih := ih _ _ h c
      rw [hih]
      show c ∈ T0.components.insert p.1 (col.push p.2) ↔ _
      rw [AList.mem_insert]
      constructor
      · rintro (hc | hc)
        · subst hc
          exact AList.lookup_isSome.mp (by rw [hcol]; rfl)
        · exact hc
      · intro hc; exact Or.inr hc

theorem pushPairs_isSome_of_mem (ps : List (ℕ × ℕ)) :
    ∀ (T0 : Archetype), (∀ c ∈ ps.map Prod.fst, c ∈ T0.components) →
      (pushPairs T0 ps).isSome := by
  induction ps with
  | nil => intro T0 _; rfl
  | cons p ps ih =>
    intro T0 h
    rw [pushPairs_cons]
    have h1 : p.1 ∈ T0.components := h p.1 (by simp)
    cases hcol : T0.components.lookup p.1 with
    | none =>
      exfalso
      rw [← AList.lookup_isSome, hcol] at h1
      cases h1
    | some col =>
      apply ih
      intro c hc
      show c ∈ T0.components.insert p.1 (col.push p.2)
      rw [AList.mem_insert]
      exact Or.inr (h c (by simp [hc]))

theorem pushPairs_lookup_not_mem (ps : List (ℕ × ℕ)) :
    ∀ (T0 T2 : Archetype), pushPairs T0 ps = some T2 →
      ∀ c, c ∉ ps.map Prod.fst →
        T2.components.lookup c = T0.components.lookup c := by
  induction ps with
  | nil => intro T0 T2 h c _; cases h; rfl
  | cons p ps ih =>
    intro T0 T2 h c hc
    rw [pushPairs_cons] at h
    cases hcol : T0.components.lookup p.1 with
    | none => simp [hcol] at h
    | some col =>
      simp only [hcol] at h
      have hc2 := hc
      simp only [List.map_cons, List.mem_cons, not_or] at hc2
      obtain ⟨hcp, hcr⟩ := hc2
      have hih := ih _ _ h c hcr
      rw [hih]
      show (T0.components.insert p.1 (col.push p.2)).lookup c = _
      rw [AList.lookup_insert_ne hcp]

theorem pushPairs_lookup_mem (ps : List (ℕ × ℕ)) :
    ∀ (T0 T2 : Archetype), pushPairs T0 ps = some T2 →
      (ps.map Prod.fst).Nodup →
      ∀ c v, (c, v) ∈ ps →
        T2.components.lookup c =
          (T0.components.lookup c).map (fun col => col.push v) := by
  induction ps with
  | nil => intro T0 T2 h _ c v hcv; cases hcv
  | cons p ps ih =>
    intro T0 T2 h hnodup c v hcv
    rw [pushPairs_cons] at h
    cases hcol : T0.components.lookup p.1 with
    | none => simp [hcol] at h
    | some col =>
      simp only [hcol] at h
      have hnodup1 : (p.1 :: ps.map Prod.fst).Nodup := by simpa using hnodup
      rcases List.mem_cons.mp hcv with hcv1 | hcv2
      · have hc : c = p.1 := congrArg Prod.fst hcv1
        have hv : v = p.2 := congrArg Prod.snd hcv1
        subst hc; subst hv
        have hnot : p.1 ∉ ps.map Prod.fst := (List.nodup_cons.mp hnodup1).1
        have hnm := pushPairs_lookup_not_mem ps _ _ h p.1 hnot
        rw [hnm]
        show (T0.components.insert p.1 (col.push p.2)).lookup p.1 = _
        rw [AList.lookup_insert, hcol]
        rfl
      · have hnodup2 : (ps.map Prod.fst).Nodup :=
          (List.nodup_cons.mp hnodup1).2
        have hcp : c ≠ p.1 := by
          intro hcon
          have hmem : c ∈ ps.map Prod.fst :=
            List.mem_map.mpr ⟨(c, v), hcv2, rfl⟩
          rw [hcon] at hmem
          exact (List.nodup_cons.mp hnodup1).1 hmem
        have hih := ih _ _ h hnodup2 c v hcv2
        rw [hih]
        show ((T0.components.insert p.1 (col.push p.2)).lookup c).map _ = _
        rw [AList.lookup_insert_ne hcp]

theorem add_entity_eq {A : Archetype} {e : ℕ} {n : ℕ} {A2 : Archetype}
    (h : A.add_entity e = some (n, A2)) :
    A.contains e = false ∧ n = A.entity_count ∧
      A2.idx_to_entity = A.idx_to_entity ++ [e] ∧
      A2.entities_to_idx = A.entities_to_idx.insert e A.entity_count ∧
      A2.mask_ = A.mask_ ∧ A2.components = A.components := by
  unfold Archetype.add_entity at h
  by_cases hc : A.contains e = true
  · rw [if_pos hc] at h; cases h
  · rw [if_neg hc] at h
    cases h
    exact ⟨by simpa using hc, rfl, rfl, rfl, rfl, rfl⟩

theorem add_entity_isSome {A : Archetype} {e : ℕ}
    (h : A.contains e = false) : (A.add_entity e).isSome := by
  unfold Archetype.add_entity
  rw [h]
  rfl


theorem ArchWF.nodup {A : Archetype} (h : ArchWF A) :
    A.idx_to_entity.Nodup := by
  rw [List.nodup_iff_injective_get]
  intro i j hij
  have hi : A.idx_to_entity[i.val]? = some (A.idx_to_entity.get i) := by
    simp [List.getElem?_eq_some_iff]
  have hj : A.idx_to_entity[j.val]? = some (A.idx_to_entity.get j) := by
    simp [List.getElem?_eq_some_iff]
  rw [hij] at hi
  have h1 := (h.lookup_iff (A.idx_to_entity.get j) i.val).mpr hi
  have h2 := (h.lookup_iff (A.idx_to_entity.get j) j.val).mpr hj
  have : i.val = j.val := by
    have := h1.symm.trans h2
    simpa using this
  exact Fin.ext this

theorem ArchWF.mem_iff {A : Archetype} (h : ArchWF A) (e : ℕ) :
    e ∈ A.idx_to_entity ↔ A.contains e = true := by
  rw [List.mem_iff_getElem?, Archetype.contains, Option.isSome_iff_exists]
  constructor
  · rintro ⟨i, hi⟩
    exact ⟨i, (h.lookup_iff e i).mpr hi⟩
  · rintro ⟨i, hi⟩
    exact ⟨i, (h.lookup_iff e i).mp hi⟩

theorem ArchWF.keys_length {A : Archetype} (h : ArchWF A) :
    A.entities_to_idx.keys.length = A.idx_to_entity.length := by
  have hk : A.entities_to_idx.keys.Nodup := A.entities_to_idx.keys_nodup
  have hl : A.idx_to_entity.Nodup := h.nodup
  have hmem : ∀ e, e ∈ A.entities_to_idx.keys ↔ e ∈ A.idx_to_entity := by
    intro e
    rw [← AList.mem_keys, ← AList.lookup_isSome, ← Archetype.contains,
      h.mem_iff e]
  have hfin : A.entities_to_idx.keys.toFinset = A.idx_to_entity.toFinset := by
    ext e
    simp only [List.mem_toFinset]
    exact hmem e
  calc A.entities_to_idx.keys.length
      = A.entities_to_idx.keys.toFinset.card :=
        (List.toFinset_card_of_nodup hk).symm
    _ = A.idx_to_entity.toFinset.card := by rw [hfin]
    _ = A.idx_to_entity.length := List.toFinset_card_of_nodup hl

theorem ArchWF.entries_length {A : Archetype} (h : ArchWF A) :
    A.entities_to_idx.entries.length = A.idx_to_entity.length := by
  have : A.entities_to_idx.entries.length =
      A.entities_to_idx.keys.length := by
    simp [AList.keys, List.keys]
  rw [this, h.keys_length]

theorem ArchWF.idx_lt {A : Archetype} (h : ArchWF A) {e i : ℕ}
    (hl : A.entities_to_idx.lookup e = some i) :
    i < A.idx_to_entity.length := by
  have := (h.lookup_iff e i).mp hl
  exact (List.getElem?_eq_some_iff.mp this).1

theorem foldl_insert_empty_col_mem (l : List ℕ) (P : ℕ → Bool)
    (m0 : AList (fun _ : ℕ => ComponentArray)) (c : ℕ) :
    c ∈ l.foldl (fun acc id => if P id then acc.insert id [] else acc) m0 ↔
      ((c ∈ l ∧ P c = true) ∨ c ∈ m0) := by
  induction l generalizing m0 with
  | nil => simp
  | cons id rest ih =>
    simp only [List.foldl_cons, List.mem_cons]
    by_cases hp : P id = true
    · rw [if_pos hp, ih, AList.mem_insert]
      constructor
      · rintro (⟨hc, hPc⟩ | hc | hc)
        · exact Or.inl ⟨Or.inr hc, hPc⟩
        · exact Or.inl ⟨Or.inl hc, by rw [hc]; exact hp⟩
        · exact Or.inr hc
      · rintro (⟨hc | hc, hPc⟩ | hc)
        · exact Or.inr (Or.inl hc)
        · exact Or.inl ⟨hc, hPc⟩
        · exact Or.inr (Or.inr hc)
    · rw [if_neg hp, ih]
      constructor
      · rintro (⟨hc, hPc⟩ | hc)
        · exact Or.inl ⟨Or.inr hc, hPc⟩
        · exact Or.inr hc
      · rintro (⟨hc | hc, hPc⟩ | hc)
        · exact absurd hPc (by rw [hc]; simpa using hp)
        · exact Or.inl ⟨hc, hPc⟩
        · exact Or.inr hc

theorem foldl_insert_empty_col_lookup (l : List ℕ) (P : ℕ → Bool)
    (m0 : AList (fun _ : ℕ => ComponentArray)) (c : ℕ) :
    (l.foldl (fun acc id => if P id then acc.insert id [] else acc)
      m0).lookup c =
      if c ∈ l ∧ P c = true then some [] else m0.lookup c := by
  induction l generalizing m0 with
  | nil => simp
  | cons id rest ih =>
    simp only [List.foldl_cons, List.mem_cons]
    by_cases hp : P id = true
    · rw [if_pos hp, ih]
      by_cases hc : c ∈ rest ∧ P c = true
      · simp [hc]
      · by_cases hcid : c = id
        · subst hcid
          simp [hc, hp, AList.lookup_insert]
        · rw [AList.lookup_insert_ne hcid]
          have hn : ¬((c = id ∨ c ∈ rest) ∧ P c = true) := by
            rintro ⟨hc1 | hc2, hPc⟩
            · exact hcid hc1
            · exact hc ⟨hc2, hPc⟩
          simp [hc, hn]
    · rw [if_neg hp, ih]
      have heq : (c ∈ rest ∧ P c = true) ↔
          ((c = id ∨ c ∈ rest) ∧ P c = true) := by
        constructor
        · rintro ⟨hc, hPc⟩; exact ⟨Or.inr hc, hPc⟩
        · rintro ⟨hc1 | hc2, hPc⟩
          · exact absurd hPc (by rw [hc1]; simpa using hp)
          · exact ⟨hc2, hPc⟩
      by_cases hc : c ∈ rest ∧ P c = true
      · simp [hc, heq.mp hc]
      · rw [if_neg hc, if_neg (fun h => hc (heq.mpr h))]

theorem Archetype.ofMask_components_mem (mask c : ℕ) :
    c ∈ (Archetype.ofMask mask).components ↔
      (c < 32 ∧ mask.testBit c = true) := by
  unfold Archetype.ofMask
  rw [foldl_insert_empty_col_mem]
  simp [List.mem_range]

theorem Archetype.ofMask_components_lookup (mask c : ℕ) :
    (Archetype.ofMask mask).components.lookup c =
      if c < 32 ∧ mask.testBit c = true then some [] else none := by
  unfold Archetype.ofMask
  rw [foldl_insert_empty_col_lookup]
  simp [List.mem_range]

theorem Archetype.ofMask_wf (mask : ℕ) :
    ArchWF (Archetype.ofMask mask) := by
  constructor
  · intro e i
    simp [Archetype.ofMask]
  · intro c col hc
    rw [Archetype.ofMask_components_lookup] at hc
    split at hc
    · cases hc; simp [Archetype.ofMask]
    · cases hc
  · intro c hc
    exact ((Archetype.ofMask_components_mem mask c).mp hc).2
  · intro hne
    exact absurd rfl hne

theorem Archetype.ofMask_strong {mask : ℕ} (hm : mask < 2 ^ 32) :
    StrongKeys (Archetype.ofMask mask) := by
  intro c hc
  have hc2 : mask.testBit c = true := hc
  rw [Archetype.ofMask_components_mem]
  refine ⟨?_, hc2⟩
  by_contra hge
  have hlt : mask < 2 ^ c :=
    lt_of_lt_of_le hm (Nat.pow_le_pow_right (by norm_num) (by omega))
  rw [Nat.testBit_lt_two_pow hlt] at hc2
  cases hc2

theorem ComponentArray.remove_length (col : ComponentArray) (idx : ℕ) :
    (col.remove idx).length = col.length - 1 := by
  unfold ComponentArray.remove
  by_cases hil : idx ≠ col.length - 1 <;> simp [hil]

theorem ComponentArray.remove_get_ne {col : ComponentArray} {idx j : ℕ}
    (hj : j < col.length - 1) (hne : j ≠ idx) :
    (col.remove idx)[j]? = col[j]? := by
  unfold ComponentArray.remove
  show ((if idx ≠ col.length - 1 then
      col.set idx (col.getD (col.length - 1) 0) else col).dropLast)[j]? = _
  by_cases hil : idx ≠ col.length - 1
  · rw [if_pos hil, List.getElem?_dropLast, List.length_set, if_pos hj,
      List.getElem?_set_ne (by omega)]
  · rw [if_neg hil, List.getElem?_dropLast, if_pos hj]

theorem ComponentArray.remove_get_at {col : ComponentArray} {idx : ℕ}
    (hidx : idx < col.length - 1) :
    (col.remove idx)[idx]? = col[col.length - 1]? := by
  unfold ComponentArray.remove
  show ((if idx ≠ col.length - 1 then
      col.set idx (col.getD (col.length - 1) 0) else col).dropLast)[idx]? = _
  have hne : idx ≠ col.length - 1 := by omega
  rw [if_pos hne, List.getElem?_dropLast, List.length_set, if_pos hidx,
    List.getElem?_set_self (by omega), List.getD_eq_getElem?_getD,
    List.getElem?_eq_getElem (show col.length - 1 < col.length by omega)]
  simp

namespace Archetype

theorem remove_entity_of_not_mem {A : Archetype} {e : ℕ}
    (h : A.entities_to_idx.lookup e = none) : A.remove_entity e = A := by
  unfold Archetype.remove_entity
  rw [h]

theorem remove_entity_mask {A : Archetype} (e : ℕ) :
    (A.remove_entity e).mask_ = A.mask_ := by
  unfold Archetype.remove_entity
  cases A.entities_to_idx.lookup e <;> rfl

theorem remove_entity_components_mem {A : Archetype} (e c : ℕ) :
    c ∈ (A.remove_entity e).components ↔ c ∈ A.components := by
  unfold Archetype.remove_entity
  cases h : A.entities_to_idx.lookup e
  · exact Iff.rfl
  · show c ∈ mapVals _ A.components ↔ _
    rw [AList.mem_keys, AList.mem_keys]
    show c ∈ (sMapVals _ A.components.entries).keys ↔ _
    rw [sMapVals_keys]
    exact Iff.rfl

theorem remove_entity_components_lookup {A : Archetype} {e mid : ℕ}
    (h : A.entities_to_idx.lookup e = some mid) (c : ℕ) :
    (A.remove_entity e).components.lookup c =
      (A.components.lookup c).map (fun col => col.remove mid) := by
  unfold Archetype.remove_entity
  rw [h]
  exact mapVals_lookup _ A.components c

theorem remove_entity_map_lookup {A : Archetype} {e mid : ℕ}
    (hA : ArchWF A) (h : A.entities_to_idx.lookup e = some mid) (e2 : ℕ) :
    (A.remove_entity e).entities_to_idx.lookup e2 =
      if e2 = e then none
      else if mid ≠ A.idx_to_entity.length - 1 ∧ e2 = A.last_ent then some mid
      else A.entities_to_idx.lookup e2 := by
  have hmid : mid < A.idx_to_entity.length := hA.idx_lt h
  have hle : A.idx_to_entity[mid]? = some e := (hA.lookup_iff e mid).mp h
  unfold Archetype.remove_entity
  rw [h]
  show (if mid ≠ A.idx_to_entity.length - 1 then
      (A.entities_to_idx.erase e).insert A.last_ent mid
    else A.entities_to_idx.erase e).lookup e2 = _
  by_cases hml : mid ≠ A.idx_to_entity.length - 1
  · rw [if_pos hml]
    have hw : A.idx_to_entity[A.idx_to_entity.length - 1]? =
        some A.last_ent := by
      unfold Archetype.last_ent
      rw [List.getD_eq_getElem?_getD,
        List.getElem?_eq_getElem (by omega : A.idx_to_entity.length - 1 <
          A.idx_to_entity.length)]
      simp
    have hlw : A.entities_to_idx.lookup A.last_ent =
        some (A.idx_to_entity.length - 1) := (hA.lookup_iff _ _).mpr hw
    have hwe : A.last_ent ≠ e := by
      intro hcon
      rw [hcon, h] at hlw
      exact hml (Option.some.inj hlw)
    by_cases h2 : e2 = e
    · subst h2
      rw [AList.lookup_insert_ne (Ne.symm hwe), AList.lookup_erase]
      simp
    · by_cases h3 : e2 = A.last_ent
      · subst h3
        rw [AList.lookup_insert]
        simp [h2, hml]
      · rw [AList.lookup_insert_ne h3, AList.lookup_erase_ne h2]
        simp [h2, h3, hml]
  · rw [if_neg hml]
    push_neg at hml
    have hwe : A.last_ent = e := by
      unfold Archetype.last_ent
      rw [← hml, List.getD_eq_getElem?_getD, hle]
      rfl
    by_cases h2 : e2 = e
    · subst h2
      rw [AList.lookup_erase]
      simp
    · rw [AList.lookup_erase_ne h2]
      simp [h2, hml]

theorem remove_entity_list_get {A : Archetype} {e mid : ℕ}
    (hA : ArchWF A) (h : A.entities_to_idx.lookup e = some mid) (i : ℕ) :
    (A.remove_entity e).idx_to_entity[i]? =
      if i < A.idx_to_entity.length - 1 then
        (if i = mid then some A.last_ent else A.idx_to_entity[i]?)
      else none := by
  have hmid : mid < A.idx_to_entity.length := hA.idx_lt h
  unfold Archetype.remove_entity
  rw [h]
  show (if mid ≠ A.idx_to_entity.length - 1 then
      ((A.idx_to_entity.set mid A.last_ent).set
        (A.idx_to_entity.length - 1) (A.idx_to_entity.getD mid 0))
    else A.idx_to_entity).dropLast[i]? = _
  by_cases hml : mid ≠ A.idx_to_entity.length - 1
  · rw [if_pos hml, List.getElem?_dropLast]
    simp only [List.length_set]
    by_cases hi : i < A.idx_to_entity.length - 1
    · rw [if_pos hi, if_pos hi]
      rw [List.getElem?_set_ne (by omega)]
      by_cases him : i = mid
      · subst him
        rw [List.getElem?_set_self (by omega)]
        simp
      · rw [List.getElem?_set_ne (by omega), if_neg him]
    · rw [if_neg hi, if_neg hi]
  · rw [if_neg hml, List.getElem?_dropLast]
    push_neg at hml
    by_cases hi : i < A.idx_to_entity.length - 1
    · rw [if_pos hi, if_pos hi, if_neg (by omega)]
    · rw [if_neg hi, if_neg hi]

theorem remove_entity_count {A : Archetype} {e mid : ℕ}
    (h : A.entities_to_idx.lookup e = some mid) :
    (A.remove_entity e).idx_to_entity.length =
      A.idx_to_entity.length - 1 := by
  unfold Archetype.remove_entity
  rw [h]
  show (if mid ≠ A.idx_to_entity.length - 1 then
      ((A.idx_to_entity.set mid A.last_ent).set
        (A.idx_to_entity.length - 1) (A.idx_to_entity.getD mid 0))
    else A.idx_to_entity).dropLast.length = _
  by_cases hml : mid ≠ A.idx_to_entity.length - 1 <;> simp [hml]

theorem wf_get_lookup {A : Archetype} (hA : ArchWF A) {i x : ℕ}
    (h : A.idx_to_entity[i]? = some x) :
    A.entities_to_idx.lookup x = some i :=
  (hA.lookup_iff x i).mpr h

theorem wf_get_inj {A : Archetype} (hA : ArchWF A) {i j x : ℕ}
    (hi : A.idx_to_entity[i]? = some x) (hj : A.idx_to_entity[j]? = some x) :
    i = j := by
  have h1 := wf_get_lookup hA hi
  have h2 := wf_get_lookup hA hj
  rw [h1] at h2
  exact Option.some.inj h2

theorem remove_entity_wf {A : Archetype} (hA : ArchWF A) (e : ℕ) :
    ArchWF (A.remove_entity e) := by
  cases h : A.entities_to_idx.lookup e with
  | none => rw [Archetype.remove_entity_of_not_mem h]; exact hA
  | some mid =>
    have hmid : mid < A.idx_to_entity.length := hA.idx_lt h
    have hle : A.idx_to_entity[mid]? = some e := (hA.lookup_iff e mid).mp h
    have hn1 : A.idx_to_entity.length - 1 < A.idx_to_entity.length := by omega
    have hw : A.idx_to_entity[A.idx_to_entity.length - 1]? =
        some A.last_ent := by
      unfold Archetype.last_ent
      rw [List.getD_eq_getElem?_getD, List.getElem?_eq_getElem hn1]
      simp
    have hlw : A.entities_to_idx.lookup A.last_ent =
        some (A.idx_to_entity.length - 1) := wf_get_lookup hA hw
    constructor
    · intro e2 i
      rw [Archetype.remove_entity_map_lookup hA h e2,
        Archetype.remove_entity_list_get hA h i]
      by_cases h2 : e2 = e
      · subst h2
        simp only [if_pos rfl]
        constructor
        · intro hcon; cases hcon
        · intro hcon
          split at hcon
          · split at hcon
            · rename_i hi him
              exfalso
              have : A.last_ent = e2 := Option.some.inj hcon
              rw [← this] at h
              rw [h] at hlw
              have : mid = A.idx_to_entity.length - 1 :=
                Option.some.inj hlw
              omega
            · rename_i hi him
              have := wf_get_inj hA hcon hle
              exact absurd this him
          · cases hcon
      · rw [if_neg h2]
        by_cases h3 : mid ≠ A.idx_to_entity.length - 1 ∧ e2 = A.last_ent
        · rw [if_pos h3]
          obtain ⟨hml, hw2⟩ := h3
          subst hw2
          constructor
          · intro hcon
            have hi : i = mid := (Option.some.inj hcon).symm
            subst hi
            rw [if_pos (by omega), if_pos rfl]
          · intro hcon
            split at hcon
            · split at hcon
              · rename_i hi him
                rw [him]
              · rename_i hi him
                exfalso
                have := wf_get_inj hA hcon hw
                omega
            · cases hcon
        · rw [if_neg h3]
          constructor
          · intro hcon
            have hi : A.idx_to_entity[i]? = some e2 :=
              (hA.lookup_iff e2 i).mp hcon
            have hiu : i < A.idx_to_entity.length :=
              (List.getElem?_eq_some_iff.mp hi).1
            have hine : i ≠ mid := by
              intro hc; subst hc
              rw [hi] at hle
              exact h2 (Option.some.inj hle)
            have hinl : i ≠ A.idx_to_entity.length - 1 := by
              intro hc; subst hc
              rw [hi] at hw
              exact h3 ⟨by omega, Option.some.inj hw⟩
            rw [if_pos (by omega), if_neg hine]
            exact hi
          · intro hcon
            split at hcon
            · split at hcon
              · rename_i hi him
                exact absurd (Option.some.inj hcon).symm
                  (fun hc => h3 ⟨by omega, hc⟩)
              · rename_i hi him
                exact (hA.lookup_iff e2 i).mpr hcon
            · cases hcon
    · intro c col hcol
      rw [Archetype.remove_entity_components_lookup h c] at hcol
      rw [remove_entity_count h]
      obtain ⟨col0, hcol0, hrem⟩ := Option.map_eq_some'.mp hcol
      rw [← hrem, ComponentArray.remove_length, hA.cols_len c col0 hcol0]
    · intro c hc
      rw [Archetype.remove_entity_mask]
      exact hA.keys_sub c ((Archetype.remove_entity_components_mem e c).mp hc)
    · intro hne c hc
      rw [Archetype.remove_entity_mask] at hc
      rw [Archetype.remove_entity_components_mem]
      refine hA.keys_pop ?_ c hc
      intro hcon
      have : A.idx_to_entity.length = 0 := by rw [hcon]; rfl
      omega

theorem remove_entity_contains_self {A : Archetype} (hA : ArchWF A) (e : ℕ) :
    (A.remove_entity e).contains e = false := by
  cases h : A.entities_to_idx.lookup e with
  | none =>
    rw [Archetype.remove_entity_of_not_mem h]
    simp [Archetype.contains, h]
  | some mid =>
    rw [Archetype.contains, Archetype.remove_entity_map_lookup hA h e]
    simp

theorem remove_entity_contains_other {A : Archetype} (hA : ArchWF A)
    {e e2 : ℕ} (hne : e2 ≠ e) :
    (A.remove_entity e).contains e2 = A.contains e2 := by
  cases h : A.entities_to_idx.lookup e with
  | none => rw [Archetype.remove_entity_of_not_mem h]
  | some mid =>
    rw [Archetype.contains, Archetype.contains,
      Archetype.remove_entity_map_lookup hA h e2, if_neg hne]
    by_cases h3 : mid ≠ A.idx_to_entity.length - 1 ∧ e2 = A.last_ent
    · rw [if_pos h3]
      obtain ⟨hml, hw2⟩ := h3
      subst hw2
      have hn1 : A.idx_to_entity.length - 1 < A.idx_to_entity.length := by
        have := hA.idx_lt h; omega
      have hw : A.idx_to_entity[A.idx_to_entity.length - 1]? =
          some A.last_ent := by
        unfold Archetype.last_ent
        rw [List.getD_eq_getElem?_getD, List.getElem?_eq_getElem hn1]
        simp
      rw [wf_get_lookup hA hw]
      rfl
    · rw [if_neg h3]

theorem remove_entity_valueOf {A : Archetype} (hA : ArchWF A)
    {e e2 : ℕ} (hne : e2 ≠ e) (c : ℕ) :
    (A.remove_entity e).valueOf c e2 = A.valueOf c e2 := by
  cases h : A.entities_to_idx.lookup e with
  | none => rw [Archetype.remove_entity_of_not_mem h]
  | some mid =>
    have hmid : mid < A.idx_to_entity.length := hA.idx_lt h
    have hle : A.idx_to_entity[mid]? = some e := (hA.lookup_iff e mid).mp h
    have hn1 : A.idx_to_entity.length - 1 < A.idx_to_entity.length := by omega
    have hw : A.idx_to_entity[A.idx_to_entity.length - 1]? =
        some A.last_ent := by
      unfold Archetype.last_ent
      rw [List.getD_eq_getElem?_getD, List.getElem?_eq_getElem hn1]
      simp
    have hlw : A.entities_to_idx.lookup A.last_ent =
        some (A.idx_to_entity.length - 1) := wf_get_lookup hA hw
    unfold Archetype.valueOf Archetype.idx_of
    rw [Archetype.remove_entity_map_lookup hA h e2,
      Archetype.remove_entity_components_lookup h c, if_neg hne]
    by_cases h3 : mid ≠ A.idx_to_entity.length - 1 ∧ e2 = A.last_ent
    · rw [if_pos h3]
      obtain ⟨hml, hw2⟩ := h3
      subst hw2
      rw [hlw]
      cases hcol : A.components.lookup c with
      | none => rfl
      | some col =>
        have hclen : col.length = A.idx_to_entity.length :=
          hA.cols_len c col hcol
        show (col.remove mid)[mid]? = col[A.idx_to_entity.length - 1]?
        rw [ComponentArray.remove_get_at (by omega), hclen]
    · rw [if_neg h3]
      cases hl2 : A.entities_to_idx.lookup e2 with
      | none => rfl
      | some i =>
        cases hcol : A.components.lookup c with
        | none => rfl
        | some col =>
          have hclen : col.length = A.idx_to_entity.length :=
            hA.cols_len c col hcol
          have hi : A.idx_to_entity[i]? = some e2 :=
            (hA.lookup_iff e2 i).mp hl2
          have hiu : i < A.idx_to_entity.length :=
            (List.getElem?_eq_some_iff.mp hi).1
          have hine : i ≠ mid := by
            intro hc; subst hc
            rw [hi] at hle
            exact hne (Option.some.inj hle)
          have hinl : i ≠ A.idx_to_entity.length - 1 := by
            intro hc; subst hc
            rw [hi] at hw
            exact h3 ⟨by omega, Option.some.inj hw⟩
          show (col.remove mid)[i]? = col[i]?
          exact ComponentArray.remove_get_ne (by omega) hine

end Archetype

theorem add_entity_lookup_iff {A : Archetype} (hA : ArchWF A) {e n : ℕ}
    {A2 : Archetype} (h : A.add_entity e = some (n, A2)) (e2 i : ℕ) :
    A2.entities_to_idx.lookup e2 = some i ↔ A2.idx_to_entity[i]? = some e2 := by
  obtain ⟨hcf, hn, hl, hm, hmask, hcomp⟩ := add_entity_eq h
  rw [hl, hm]
  simp only [Archetype.entity_count]
  by_cases h2 : e2 = e
  · subst h2
    rw [AList.lookup_insert]
    constructor
    · intro hcon
      have hi : i = A.idx_to_entity.length := (Option.some.inj hcon).symm
      subst hi
      rw [List.getElem?_append_right (le_refl _)]
      simp
    · intro hcon
      rcases Nat.lt_or_ge i A.idx_to_entity.length with hi | hi
      · exfalso
        rw [List.getElem?_append_left hi] at hcon
        have := Archetype.wf_get_lookup hA hcon
        rw [Archetype.contains, this] at hcf
        cases hcf
      · rw [List.getElem?_append_right hi] at hcon
        have hiu : i - A.idx_to_entity.length < 1 :=
          (List.getElem?_eq_some_iff.mp hcon).1
        have : i = A.idx_to_entity.length := by omega
        rw [this]
  · rw [AList.lookup_insert_ne h2]
    constructor
    · intro hcon
      have hi : A.idx_to_entity[i]? = some e2 := (hA.lookup_iff e2 i).mp hcon
      rw [List.getElem?_append_left (List.getElem?_eq_some_iff.mp hi).1]
      exact hi
    · intro hcon
      rcases Nat.lt_or_ge i A.idx_to_entity.length with hi | hi
      · rw [List.getElem?_append_left hi] at hcon
        exact (hA.lookup_iff e2 i).mpr hcon
      · exfalso
        rw [List.getElem?_append_right hi] at hcon
        have hiu : i - A.idx_to_entity.length < 1 :=
          (List.getElem?_eq_some_iff.mp hcon).1
        have h0 : i - A.idx_to_entity.length = 0 := by omega
        rw [h0] at hcon
        simp at hcon
        exact h2 hcon.symm


theorem sMapValsM_dlookup_none {β : Type} {f : ℕ → β → Option β}
    {l l2 : List (Sigma (fun _ : ℕ => β))} (h : sMapValsM f l = some l2)
    {k : ℕ} (hk : l.dlookup k = none) : l2.dlookup k = none := by
  induction l generalizing l2 with
  | nil => simp [sMapValsM] at h; simp [h]
  | cons en rest ih =>
    simp only [sMapValsM, Option.bind_eq_bind, Option.bind_eq_some] at h
    obtain ⟨v, hv, rest2, hrest, hcons⟩ := h
    cases hcons
    by_cases hke : k = en.1
    · subst hke
      rw [List.dlookup_cons_eq] at hk
      cases hk
    · rw [List.dlookup_cons_ne _ _ (by simpa using hke)] at hk
      rw [List.dlookup_cons_ne _ _ (by simpa using hke)]
      exact ih hrest hk

theorem sMapValsM_dlookup_some {β : Type} {f : ℕ → β → Option β}
    {l l2 : List (Sigma (fun _ : ℕ => β))} (h : sMapValsM f l = some l2)
    {k : ℕ} {v : β} (hk : l.dlookup k = some v) :
    ∃ v2, f k v = some v2 ∧ l2.dlookup k = some v2 := by
  induction l generalizing l2 with
  | nil => cases hk
  | cons en rest ih =>
    simp only [sMapValsM, Option.bind_eq_bind, Option.bind_eq_some] at h
    obtain ⟨v1, hv1, rest2, hrest, hcons⟩ := h
    cases hcons
    by_cases hke : k = en.1
    · subst hke
      rw [List.dlookup_cons_eq] at hk
      cases hk
      exact ⟨v1, hv1, List.dlookup_cons_eq _ _ _⟩
    · rw [List.dlookup_cons_ne _ _ (by simpa using hke)] at hk
      obtain ⟨v2, hv2, hl2⟩ := ih hrest hk
      exact ⟨v2, hv2, by
        rw [List.dlookup_cons_ne _ _ (by simpa using hke)]
        exact hl2⟩

theorem mapValsM_lookup_rev {β : Type} {f : ℕ → β → Option β}
    {m m2 : AList (fun _ : ℕ => β)} (h : mapValsM f m = some m2)
    {k : ℕ} {v2 : β} (hk : m2.lookup k = some v2) :
    ∃ v, m.lookup k = some v ∧ f k v = some v2 := by
  unfold mapValsM at h
  split at h
  · cases h
  · rename_i l2 hl2
    cases h
    cases hv : m.lookup k with
    | none =>
      exfalso
      have hnone := sMapValsM_dlookup_none hl2 (k := k) hv
      have hk2 : l2.dlookup k = some v2 := hk
      rw [hnone] at hk2
      cases hk2
    | some v =>
      obtain ⟨v2b, hv2b, hl2b⟩ := sMapValsM_dlookup_some hl2 (k := k) hv
      refine ⟨v, rfl, ?_⟩
      have hk2 : l2.dlookup k = some v2 := hk
      rw [hl2b] at hk2
      cases hk2
      exact hv2b

theorem mapValsM_lookup_fwd {β : Type} {f : ℕ → β → Option β}
    {m m2 : AList (fun _ : ℕ => β)} (h : mapValsM f m = some m2)
    {k : ℕ} {v : β} (hk : m.lookup k = some v) :
    ∃ v2, f k v = some v2 ∧ m2.lookup k = some v2 := by
  unfold mapValsM at h
  split at h
  · cases h
  · rename_i l2 hl2
    cases h
    exact sMapValsM_dlookup_some hl2 hk

theorem clear_wf (A : Archetype) : ArchWF A.clear := by
  constructor
  · intro e i; simp [Archetype.clear]
  · intro c col hc; simp [Archetype.clear] at hc
  · intro c hc
    exfalso
    rw [AList.mem_keys] at hc
    simp [Archetype.clear, AList.keys] at hc
  · intro hne
    exact absurd rfl hne

theorem clear_mask (A : Archetype) : A.clear.mask_ = A.mask_ := rfl

theorem rfold_mask (L : List ℕ) (A : Archetype) :
    (L.foldl Archetype.remove_entity A).mask_ = A.mask_ := by
  induction L generalizing A with
  | nil => rfl
  | cons x L ih =>
    rw [List.foldl_cons, ih, Archetype.remove_entity_mask]

theorem rfold_mem (L : List ℕ) (A : Archetype) (c : ℕ) :
    (c ∈ (L.foldl Archetype.remove_entity A).components) ↔
      c ∈ A.components := by
  induction L generalizing A with
  | nil => exact Iff.rfl
  | cons x L ih =>
    rw [List.foldl_cons, ih, Archetype.remove_entity_components_mem]

theorem rfold_wf {A : Archetype} (hA : ArchWF A) (L : List ℕ) :
    ArchWF (L.foldl Archetype.remove_entity A) := by
  induction L generalizing A with
  | nil => exact hA
  | cons x L ih =>
    rw [List.foldl_cons]
    exact ih (Archetype.remove_entity_wf hA x)

theorem rfold_contains {A : Archetype} (hA : ArchWF A) (L : List ℕ)
    (e2 : ℕ) :
    (L.foldl Archetype.remove_entity A).contains e2 =
      if e2 ∈ L then false else A.contains e2 := by
  induction L generalizing A with
  | nil => simp
  | cons x L ih =>
    rw [List.foldl_cons, ih (Archetype.remove_entity_wf hA x)]
    by_cases hx : e2 = x
    · subst hx
      by_cases hmem : e2 ∈ L
      · simp [hmem]
      · simp [hmem, Archetype.remove_entity_contains_self hA e2]
    · by_cases hmem : e2 ∈ L
      · simp [hmem, hx]
      · simp [hmem, hx, Archetype.remove_entity_contains_other hA hx]

theorem rfold_valueOf {A : Archetype} (hA : ArchWF A) (L : List ℕ)
    {e2 : ℕ} (he2 : e2 ∉ L) (c : ℕ) :
    (L.foldl Archetype.remove_entity A).valueOf c e2 = A.valueOf c e2 := by
  induction L generalizing A with
  | nil => rfl
  | cons x L ih =>
    rw [List.foldl_cons]
    have hne : e2 ≠ x := by intro hc; exact he2 (by simp [hc])
    rw [ih (Archetype.remove_entity_wf hA x) (by
        intro hc; exact he2 (by simp [hc])),
      Archetype.remove_entity_valueOf hA hne c]

theorem remove_if_of_empty {A : Archetype} (h : A.entity_count = 0)
    (ids : List ℕ) (p : ℕ → List ℕ → Bool) : A.remove_if ids p = some A := by
  unfold Archetype.remove_if
  rw [if_pos h]

theorem remove_if_some_cases {A A2 : Archetype} {ids : List ℕ}
    {p : ℕ → List ℕ → Bool} (h : A.remove_if ids p = some A2) :
    (A.entity_count = 0 ∧ A2 = A) ∨
      (A.entity_count ≠ 0 ∧ ∃ arrays,
        ids.mapM (fun id => A.components.lookup id) = some arrays ∧
        A2 = ((List.range A.entity_count).filterMap (fun i =>
          let e := A.idx_to_entity.getD i 0
          if p e (arrays.map (fun col => col.getD i 0)) then some e
          else none)).foldl Archetype.remove_entity A) := by
  unfold Archetype.remove_if at h
  by_cases h0 : A.entity_count = 0
  · rw [if_pos h0] at h
    exact Or.inl ⟨h0, (Option.some.inj h).symm⟩
  · rw [if_neg h0] at h
    cases harr : ids.mapM (fun id => A.components.lookup id) with
    | none => rw [harr] at h; cases h
    | some arrays =>
      rw [harr] at h
      refine Or.inr ⟨h0, arrays, rfl, ?_⟩
      exact (Option.some.inj h).symm

theorem remove_if_wf {A A2 : Archetype} {ids : List ℕ}
    {p : ℕ → List ℕ → Bool} (hA : ArchWF A)
    (h : A.remove_if ids p = some A2) : ArchWF A2 := by
  rcases remove_if_some_cases h with ⟨_, rfl⟩ | ⟨_, arrays, _, rfl⟩
  · exact hA
  · exact rfold_wf hA _

theorem remove_if_mask {A A2 : Archetype} {ids : List ℕ}
    {p : ℕ → List ℕ → Bool} (h : A.remove_if ids p = some A2) :
    A2.mask_ = A.mask_ := by
  rcases remove_if_some_cases h with ⟨_, rfl⟩ | ⟨_, arrays, _, rfl⟩
  · rfl
  · exact rfold_mask _ _

theorem clear_preserves_wf (q : Query) {w : World} (hW : WorldWF w) :
    WorldWF (q.clear w) := by
  constructor
  intro m A2 hl
  have hl2 : (mapVals
      (fun m A => if q.matchesMask m = true then A.clear else A)
      w.component_mask_to_archetypes_).lookup m = some A2 := hl
  rw [mapVals_lookup] at hl2
  obtain ⟨A, hA, hmap⟩ := Option.map_eq_some'.mp hl2
  obtain ⟨hmask, hlt, hwf⟩ := hW.arch m A hA
  by_cases hm : q.matchesMask m = true
  · rw [if_pos hm] at hmap
    subst hmap
    exact ⟨hmask, hlt, clear_wf A⟩
  · rw [if_neg hm] at hmap
    subst hmap
    exact ⟨hmask, hlt, hwf⟩

theorem remove_if_preserves_wf {q : Query} {w w2 : World}
    {p : ℕ → List ℕ → Bool} (hW : WorldWF w)
    (h : q.remove_if w p = some w2) : WorldWF w2 := by
  unfold Query.remove_if at h
  cases harch : mapValsM
      (fun m A =>
        if q.matchesMask m = true then A.remove_if q.component_type_ids p
        else some A)
      w.component_mask_to_archetypes_ with
  | none => rw [harch] at h; cases h
  | some arch2 =>
    rw [harch] at h
    cases h
    constructor
    intro m A2 hl
    obtain ⟨A, hA, hf⟩ := mapValsM_lookup_rev harch hl
    obtain ⟨hmask, hlt, hwf⟩ := hW.arch m A hA
    by_cases hm : q.matchesMask m = true
    · rw [if_pos hm] at hf
      exact ⟨by rw [remove_if_mask hf, hmask], hlt, remove_if_wf hwf hf⟩
    · rw [if_neg hm] at hf
      cases hf
      exact ⟨hmask, hlt, hwf⟩



theorem goc_hit {w : World} {mask : ℕ} {A : Archetype}
    (h : w.component_mask_to_archetypes_.lookup mask = some A) :
    w.get_or_create_archetype mask = (A, w) := by
  unfold World.get_or_create_archetype
  rw [h]

theorem goc_miss {w : World} {mask : ℕ}
    (h : w.component_mask_to_archetypes_.lookup mask = none) :
    w.get_or_create_archetype mask =
      (Archetype.ofMask mask,
        { w with
          component_mask_to_archetypes_ :=
            w.component_mask_to_archetypes_.insert mask
              (Archetype.ofMask mask) }) := by
  unfold World.get_or_create_archetype
  rw [h]

theorem dlookup_sum_split {β : Type} (f : ℕ → β → ℕ) :
    ∀ (l : List (Sigma (fun _ : ℕ => β))) {k : ℕ} {v : β},
      l.dlookup k = some v →
      (l.map (fun en => f en.1 en.2)).sum =
        f k v + ((List.kerase k l).map (fun en => f en.1 en.2)).sum := by
  intro l
  induction l with
  | nil => intro k v h; cases h
  | cons en rest ih =>
    intro k v h
    by_cases hk : k = en.1
    · subst hk
      rw [List.dlookup_cons_eq] at h
      cases h
      rw [List.kerase_cons_eq rfl]
      simp
    · rw [List.dlookup_cons_ne _ _ (by simpa using hk)] at h
      rw [List.kerase_cons_ne (by simpa using hk)]
      simp only [List.map_cons, List.sum_cons, ih h]
      omega

theorem sumCounts_insert {m : AList (fun _ : ℕ => Archetype)} {k : ℕ}
    {A B : Archetype} (h : m.lookup k = some A) :
    (((m.insert k B).entries.map (fun en => en.2.entity_count)).sum +
        A.entity_count) =
      ((m.entries.map (fun en => en.2.entity_count)).sum +
        B.entity_count) := by
  rw [AList.insert_entries]
  simp only [List.map_cons, List.sum_cons]
  rw [dlookup_sum_split (fun _ A => A.entity_count) m.entries h]
  omega

theorem sumCounts_insert_new {m : AList (fun _ : ℕ => Archetype)} {k : ℕ}
    {B : Archetype} (h : m.lookup k = none) :
    ((m.insert k B).entries.map (fun en => en.2.entity_count)).sum =
      ((m.entries.map (fun en => en.2.entity_count)).sum +
        B.entity_count) := by
  have hmem : k ∉ m := AList.lookup_eq_none.mp h
  rw [AList.insert_entries_of_neg hmem]
  simp only [List.map_cons, List.sum_cons]
  omega

theorem entries_length_insert_mem {β : Type} {m : AList (fun _ : ℕ => β)}
    {k : ℕ} (h : k ∈ m) (v : β) :
    (m.insert k v).entries.length = m.entries.length := by
  have h1 : (m.insert k v).entries.length = (m.insert k v).keys.length := by
    simp [AList.keys, List.keys]
  have h2 : m.entries.length = m.keys.length := by
    simp [AList.keys, List.keys]
  rw [h1, h2, AList.keys_insert]
  have hk : k ∈ m.keys := AList.mem_keys.mp h
  rw [List.length_cons, List.length_erase_of_mem hk]
  have : 0 < m.keys.length := List.length_pos_of_mem hk
  omega

theorem entries_length_insert_new {β : Type} {m : AList (fun _ : ℕ => β)}
    {k : ℕ} (h : k ∉ m) (v : β) :
    (m.insert k v).entries.length = m.entries.length + 1 := by
  rw [AList.insert_entries_of_neg h]
  rfl

theorem alEmplace_lookup {β : Type} (m : AList (fun _ : ℕ => β)) (k : ℕ)
    (v : β) (k2 : ℕ) :
    (alEmplace m k v).lookup k2 =
      if k2 = k ∧ k ∉ m then some v else m.lookup k2 := by
  unfold alEmplace
  by_cases hm : k ∈ m
  · rw [if_pos hm]
    have : ¬(k2 = k ∧ k ∉ m) := fun hc => hc.2 hm
    rw [if_neg this]
  · rw [if_neg hm]
    by_cases hk : k2 = k
    · subst hk
      rw [AList.lookup_insert, if_pos ⟨rfl, hm⟩]
    · rw [AList.lookup_insert_ne hk, if_neg (fun hc => hk hc.1)]

theorem create_entity_eq {w : World} {e : ℕ} {w2 : World}
    (h : w.create_entity = some (e, w2)) :
    e = w.next_entity_id_ ∧
      ∃ A w1, w.get_or_create_archetype 0 = (A, w1) ∧
        ∃ n A2, A.add_entity e = some (n, A2) ∧
          w2 = { w1 with
            component_mask_to_archetypes_ :=
              w1.component_mask_to_archetypes_.insert 0 A2
            entity_to_archetype_ :=
              alEmplace w1.entity_to_archetype_ e 0
            next_entity_id_ := e + 1 } := by
  unfold World.create_entity at h
  rcases hgoc : w.get_or_create_archetype 0 with ⟨A, w1⟩
  rw [hgoc] at h
  dsimp only at h
  cases hadd : A.add_entity w.next_entity_id_ with
  | none =>
    rw [hadd] at h
    cases h
  | some pr =>
    obtain ⟨n, A2⟩ := pr
    rw [hadd] at h
    cases h
    exact ⟨rfl, A, w1, rfl, n, A2, hadd, rfl⟩

theorem mask_zero_archwf_components {A : Archetype} (hmask : A.mask_ = 0)
    (hA : ArchWF A) {c : ℕ} (hc : c ∈ A.components) : False := by
  have := hA.keys_sub c hc
  rw [hmask] at this
  simp at this

theorem add_entity_archwf_zero {A : Archetype} (hmask : A.mask_ = 0)
    (hA : ArchWF A) {e n : ℕ} {A2 : Archetype}
    (h : A.add_entity e = some (n, A2)) : ArchWF A2 := by
  obtain ⟨hcf, hn, hl, hm, hmask2, hcomp⟩ := add_entity_eq h
  constructor
  · exact add_entity_lookup_iff hA h
  · intro c col hcol
    exfalso
    rw [hcomp] at hcol
    exact mask_zero_archwf_components hmask hA
      (AList.lookup_isSome.mp (by rw [hcol]; rfl))
  · intro c hc
    rw [hcomp] at hc
    exact absurd (mask_zero_archwf_components hmask hA hc) (fun h => h)
  · intro hne c hc
    rw [hmask2, hmask] at hc
    simp at hc

theorem create_preserves_wf {w : World} {e : ℕ} {w2 : World}
    (hW : WorldWF w) (h : w.create_entity = some (e, w2)) : WorldWF w2 := by
  obtain ⟨he, A, w1, hgoc, n, A2, hadd, hw2⟩ := create_entity_eq h
  cases hlook : w.component_mask_to_archetypes_.lookup 0 with
  | some A0 =>
    rw [goc_hit hlook] at hgoc
    cases hgoc
    subst hw2
    obtain ⟨hmask0, hlt0, hwf0⟩ := hW.arch 0 A hlook
    constructor
    intro m A3 hl3
    dsimp only at hl3
    by_cases hm : m = 0
    · subst hm
      rw [AList.lookup_insert] at hl3
      cases hl3
      obtain ⟨hcf, hn, hll, hmm, hmask2, hcomp⟩ := add_entity_eq hadd
      exact ⟨by rw [hmask2, hmask0], hlt0,
        add_entity_archwf_zero hmask0 hwf0 hadd⟩
    · rw [AList.lookup_insert_ne hm] at hl3
      exact hW.arch m A3 hl3
  | none =>
    rw [goc_miss hlook] at hgoc
    cases hgoc
    subst hw2
    constructor
    intro m A3 hl3
    dsimp only at hl3
    by_cases hm : m = 0
    · subst hm
      rw [AList.lookup_insert] at hl3
      cases hl3
      obtain ⟨hcf, hn, hll, hmm, hmask2, hcomp⟩ := add_entity_eq hadd
      refine ⟨by rw [hmask2]; rfl, by norm_num, ?_⟩
      exact add_entity_archwf_zero rfl (Archetype.ofMask_wf 0) hadd
    · rw [AList.lookup_insert_ne hm, AList.lookup_insert_ne hm] at hl3
      exact hW.arch m A3 hl3


theorem strongInv_empty : StrongInv World.empty := by
  constructor
  · constructor
    intro m A h
    cases h
  · intro m A h; cases h
  · intro e m h; cases h
  · intro m A h; cases h
  · intro e m h; cases h
  · rfl

theorem wnext_lookup_next {w : World} (hS : StrongInv w) :
    w.entity_to_archetype_.lookup w.next_entity_id_ = none := by
  cases hl : w.entity_to_archetype_.lookup w.next_entity_id_ with
  | none => rfl
  | some m =>
    have := hS.wnext _ _ hl
    omega

theorem create_preserves_strong {w : World} {e : ℕ} {w2 : World}
    (hS : StrongInv w) (h : w.create_entity = some (e, w2)) :
    StrongInv w2 := by
  have hwf2 := create_preserves_wf hS.wf h
  obtain ⟨he, A, w1, hgoc, n, A2, hadd, hw2⟩ := create_entity_eq h
  have hegeq : w.entity_to_archetype_.lookup e = none := by
    rw [he]; exact wnext_lookup_next hS
  have hemem : e ∉ w.entity_to_archetype_ :=
    AList.lookup_eq_none.mp hegeq
  obtain ⟨hcf, hn, hll, hmm, hmask2, hcomp⟩ := add_entity_eq hadd
  have hcount2 : A2.entity_count = A.entity_count + 1 := by
    unfold Archetype.entity_count
    rw [hll]
    simp
  have hcontains2 : ∀ e2, A2.contains e2 =
      (if e2 = e then true else A.contains e2) := by
    intro e2
    unfold Archetype.contains
    rw [hmm]
    by_cases h2 : e2 = e
    · subst h2
      rw [AList.lookup_insert, if_pos rfl]
      rfl
    · rw [AList.lookup_insert_ne h2, if_neg h2]
  cases hlook : w.component_mask_to_archetypes_.lookup 0 with
  | some A0 =>
    rw [goc_hit hlook] at hgoc
    cases hgoc
    subst hw2
    refine ⟨hwf2, ?_, ?_, ?_, ?_, ?_⟩
    · intro m A3 hl3
      dsimp only at hl3
      by_cases hm : m = 0
      · subst hm
        rw [AList.lookup_insert] at hl3
        cases hl3
        intro c hc
        rw [hmask2, (hS.wf.arch 0 A hlook).1] at hc
        simp at hc
      · rw [AList.lookup_insert_ne hm] at hl3
        exact hS.strong m A3 hl3
    · intro e2 m hl2
      dsimp only at hl2 ⊢
      rw [alEmplace_lookup] at hl2
      by_cases h2 : e2 = e ∧ e ∉ w.entity_to_archetype_
      · rw [if_pos h2] at hl2
        cases hl2
        refine ⟨A2, by rw [AList.lookup_insert], ?_⟩
        rw [hcontains2, if_pos h2.1]
      · rw [if_neg h2] at hl2
        obtain ⟨A3, hA3, hc3⟩ := hS.went e2 m hl2
        by_cases hm : m = 0
        · subst hm
          rw [hlook] at hA3
          cases hA3
          refine ⟨A2, by rw [AList.lookup_insert], ?_⟩
          rw [hcontains2]
          by_cases h4 : e2 = e
          · rw [if_pos h4]
          · rw [if_neg h4]; exact hc3
        · exact ⟨A3, by rw [AList.lookup_insert_ne hm]; exact hA3, hc3⟩
    · intro m A3 hl3 e2 hc3
      dsimp only at hl3 ⊢
      rw [alEmplace_lookup]
      by_cases hm : m = 0
      · subst hm
        rw [AList.lookup_insert] at hl3
        cases hl3
        rw [hcontains2] at hc3
        by_cases h4 : e2 = e
        · subst h4
          rw [if_pos ⟨rfl, hemem⟩]
        · rw [if_neg h4] at hc3
          have := hS.wrev 0 A hlook e2 hc3
          rw [if_neg (fun hc => h4 hc.1)]
          exact this
      · rw [AList.lookup_insert_ne hm] at hl3
        have := hS.wrev m A3 hl3 e2 hc3
        have h4 : e2 ≠ e := by
          intro hc
          subst hc
          have := hS.wnext e2 m this
          omega
        rw [if_neg (fun hc => h4 hc.1)]
        exact this
    · intro e2 m hl2
      dsimp only at hl2 ⊢
      rw [alEmplace_lookup] at hl2
      by_cases h2 : e2 = e ∧ e ∉ w.entity_to_archetype_
      · rw [if_pos h2] at hl2
        rw [h2.1]
        omega
      · rw [if_neg h2] at hl2
        have := hS.wnext e2 m hl2
        omega
    · show World.totalCount _ = _
      unfold World.totalCount
      dsimp only
      have hsum := sumCounts_insert (B := A2) hlook
      have hent : (alEmplace w.entity_to_archetype_ e 0).entries.length =
          w.entity_to_archetype_.entries.length + 1 := by
        unfold alEmplace
        rw [if_neg hemem]
        exact entries_length_insert_new hemem 0
      have hold := hS.wcount
      unfold World.totalCount at hold
      rw [hent]
      simp only [Archetype.entity_count] at hsum hcount2 hold ⊢
      omega
  | none =>
    rw [goc_miss hlook] at hgoc
    cases hgoc
    subst hw2
    have hl1 : (w.component_mask_to_archetypes_.insert 0
        (Archetype.ofMask 0)).lookup 0 = some (Archetype.ofMask 0) :=
      AList.lookup_insert _
    refine ⟨hwf2, ?_, ?_, ?_, ?_, ?_⟩
    · intro m A3 hl3
      dsimp only at hl3
      by_cases hm : m = 0
      · subst hm
        rw [AList.lookup_insert] at hl3
        cases hl3
        intro c hc
        rw [hmask2] at hc
        have : (Archetype.ofMask 0).mask_ = 0 := rfl
        rw [this] at hc
        simp at hc
      · rw [AList.lookup_insert_ne hm, AList.lookup_insert_ne hm] at hl3
        exact hS.strong m A3 hl3
    · intro e2 m hl2
      dsimp only at hl2 ⊢
      rw [alEmplace_lookup] at hl2
      by_cases h2 : e2 = e ∧ e ∉ w.entity_to_archetype_
      · rw [if_pos h2] at hl2
        cases hl2
        refine ⟨A2, by rw [AList.lookup_insert], ?_⟩
        rw [hcontains2, if_pos h2.1]
      · rw [if_neg h2] at hl2
        obtain ⟨A3, hA3, hc3⟩ := hS.went e2 m hl2
        by_cases hm : m = 0
        · subst hm
          rw [hlook] at hA3
          cases hA3
        · exact ⟨A3, by
            rw [AList.lookup_insert_ne hm, AList.lookup_insert_ne hm]
            exact hA3, hc3⟩
    · intro m A3 hl3 e2 hc3
      dsimp only at hl3 ⊢
      rw [alEmplace_lookup]
      by_cases hm : m = 0
      · subst hm
        rw [AList.lookup_insert] at hl3
        cases hl3
        rw [hcontains2] at hc3
        by_cases h4 : e2 = e
        · subst h4
          rw [if_pos ⟨rfl, hemem⟩]
        · rw [if_neg h4] at hc3
          exfalso
          have : (Archetype.ofMask 0).contains e2 = false := by
            unfold Archetype.contains Archetype.ofMask
            rfl
          rw [this] at hc3
          cases hc3
      · rw [AList.lookup_insert_ne hm, AList.lookup_insert_ne hm] at hl3
        have := hS.wrev m A3 hl3 e2 hc3
        have h4 : e2 ≠ e := by
          intro hc
          subst hc
          have := hS.wnext e2 m this
          omega
        rw [if_neg (fun hc => h4 hc.1)]
        exact this
    · intro e2 m hl2
      dsimp only at hl2 ⊢
      rw [alEmplace_lookup] at hl2
      by_cases h2 : e2 = e ∧ e ∉ w.entity_to_archetype_
      · rw [if_pos h2] at hl2
        rw [h2.1]
        omega
      · rw [if_neg h2] at hl2
        have := hS.wnext e2 m hl2
        omega
    · show World.totalCount _ = _
      unfold World.totalCount
      dsimp only
      have hsum1 := sumCounts_insert_new (B := Archetype.ofMask 0) hlook
      have hsum2 := sumCounts_insert (B := A2) hl1
      have hent : (alEmplace w.entity_to_archetype_ e 0).entries.length =
          w.entity_to_archetype_.entries.length + 1 := by
        unfold alEmplace
        rw [if_neg hemem]
        exact entries_length_insert_new hemem 0
      have hold := hS.wcount
      unfold World.totalCount at hold
      rw [hent]
      have hc0 : (Archetype.ofMask 0).entity_count = 0 := rfl
      simp only [Archetype.entity_count] at hsum1 hsum2 hcount2 hc0 hold ⊢
      omega



theorem pushPairs_append (T0 : Archetype) (ps1 ps2 : List (ℕ × ℕ)) :
    pushPairs T0 (ps1 ++ ps2) =
      (pushPairs T0 ps1).bind (fun T1 => pushPairs T1 ps2) := by
  unfold pushPairs
  rw [List.foldlM_append]
  rfl

theorem pushPairs_some_mem_req (ps : List (ℕ × ℕ)) :
    ∀ (T0 T2 : Archetype), pushPairs T0 ps = some T2 →
      ∀ c ∈ ps.map Prod.fst, c ∈ T0.components := by
  induction ps with
  | nil => intro T0 T2 _ c hc; cases hc
  | cons p ps ih =>
    intro T0 T2 h c hc
    rw [pushPairs_cons] at h
    cases hcol : T0.components.lookup p.1 with
    | none => simp [hcol] at h
    | some col =>
      simp only [hcol] at h
      rw [List.map_cons] at hc
      rcases List.mem_cons.mp hc with hc1 | hc2
      · subst hc1
        exact AList.lookup_isSome.mp (by rw [hcol]; rfl)
      · have := ih _ _ h c hc2
        rcases (AList.mem_insert _).mp this with hcp | hcm
        · subst hcp
          exact AList.lookup_isSome.mp (by rw [hcol]; rfl)
        · exact hcm

theorem migrate_spec {B : Archetype} (hB : ArchWF B) {e n : ℕ}
    {B1 B3 : Archetype} (hadd : B.add_entity e = some (n, B1))
    {ps : List (ℕ × ℕ)} (hps : pushPairs B1 ps = some B3)
    (hnodup : (ps.map Prod.fst).Nodup)
    (hcover : ∀ c, c ∈ B.components → c ∈ ps.map Prod.fst)
    (hfull : ∀ c, B.mask_.testBit c = true → c ∈ B.components) :
    ArchWF B3 ∧ B3.mask_ = B.mask_ ∧
      (∀ c, c ∈ B3.components ↔ c ∈ B.components) ∧
      B3.entity_count = B.entity_count + 1 ∧
      (∀ e2, B3.contains e2 = (if e2 = e then true else B.contains e2)) ∧
      B3.idx_of e = some B.entity_count ∧
      (∀ c v, (c, v) ∈ ps → c ∈ B.components → B3.valueOf c e = some v) ∧
      (∀ e2, e2 ≠ e → ∀ c, B3.valueOf c e2 = B.valueOf c e2) ∧
      StrongKeys B3 := by
  obtain ⟨hcf, hn, hl1, hm1, hmask1, hcomp1⟩ := add_entity_eq hadd
  obtain ⟨hfl, hfm, hfmask⟩ := pushPairs_fields ps B1 B3 hps
  have hreq := pushPairs_some_mem_req ps B1 B3 hps
  have hkeys : ∀ c, c ∈ B3.components ↔ c ∈ B.components := by
    intro c
    rw [pushPairs_mem ps B1 B3 hps c, hcomp1]
  have hcount3 : B3.idx_to_entity.length = B.idx_to_entity.length + 1 := by
    rw [hfl, hl1]
    simp
  have hmask3 : B3.mask_ = B.mask_ := by rw [hfmask, hmask1]
  have hwf1 : ∀ e2 i, B1.entities_to_idx.lookup e2 = some i ↔
      B1.idx_to_entity[i]? = some e2 := add_entity_lookup_iff hB hadd
  -- column description of B3
  have hcols : ∀ c, c ∈ B.components →
      ∃ v col, (c, v) ∈ ps ∧ B.components.lookup c = some col ∧
        B3.components.lookup c = some (col.push v) := by
    intro c hc
    have hcps : c ∈ ps.map Prod.fst := hcover c hc
    obtain ⟨pv, hpv, hpc⟩ := List.mem_map.mp hcps
    obtain ⟨col, hcol⟩ := Option.isSome_iff_exists.mp
      (AList.lookup_isSome.mpr hc)
    refine ⟨pv.2, col, ?_, hcol, ?_⟩
    · have hpveq : pv = (c, pv.2) := by
        cases pv
        simp at hpc ⊢
        exact hpc
      rw [← hpveq]
      exact hpv
    · have := pushPairs_lookup_mem ps B1 B3 hps hnodup c pv.2 (by
        have hpveq : pv = (c, pv.2) := by
          cases pv
          simp at hpc ⊢
          exact hpc
        rw [← hpveq]
        exact hpv)
      rw [this, hcomp1, hcol]
      rfl
  have hcols_none : ∀ c, c ∉ B.components →
      B3.components.lookup c = none := by
    intro c hc
    rw [AList.lookup_eq_none]
    intro hmem
    exact hc ((hkeys c).mp hmem)
  have hwf3 : ArchWF B3 := by
    constructor
    · intro e2 i
      rw [hfm, hfl]
      exact hwf1 e2 i
    · intro c col3 hcol3
      have hcm : c ∈ B3.components :=
        AList.lookup_isSome.mp (by rw [hcol3]; rfl)
      obtain ⟨v, col, hvps, hcol, hcol3b⟩ := hcols c ((hkeys c).mp hcm)
      rw [hcol3] at hcol3b
      cases hcol3b
      rw [hcount3, ComponentArray.push_length, hB.cols_len c col hcol]
    · intro c hc
      rw [hmask3]
      exact hB.keys_sub c ((hkeys c).mp hc)
    · intro _ c hc
      rw [hmask3] at hc
      exact (hkeys c).mpr (hfull c hc)
  have hcontains : ∀ e2, B3.contains e2 =
      (if e2 = e then true else B.contains e2) := by
    intro e2
    unfold Archetype.contains
    rw [hfm, hm1]
    by_cases h2 : e2 = e
    · subst h2
      rw [AList.lookup_insert, if_pos rfl]
      rfl
    · rw [AList.lookup_insert_ne h2, if_neg h2]
  have hidxe : B3.idx_of e = some B.entity_count := by
    unfold Archetype.idx_of
    rw [hfm, hm1, AList.lookup_insert]
  refine ⟨hwf3, hmask3, hkeys, by
      unfold Archetype.entity_count
      rw [hcount3], hcontains, hidxe, ?_, ?_, ?_⟩
  · intro c v hcv hc
    unfold Archetype.valueOf
    rw [hidxe]
    have hc3 := pushPairs_lookup_mem ps B1 B3 hps hnodup c v hcv
    obtain ⟨col, hcol⟩ := Option.isSome_iff_exists.mp
      (AList.lookup_isSome.mpr hc)
    rw [hcomp1, hcol] at hc3
    rw [hc3]
    show ((col.push v)[B.entity_count]? = some v)
    have : col.length = B.entity_count := hB.cols_len c col hcol
    rw [← this]
    exact ComponentArray.push_get_last col v
  · intro e2 he2 c
    unfold Archetype.valueOf Archetype.idx_of
    rw [hfm, hm1, AList.lookup_insert_ne he2]
    cases hl2 : B.entities_to_idx.lookup e2 with
    | none => rfl
    | some i =>
      cases hcol : B.components.lookup c with
      | none =>
        have hnc : c ∉ B.components := AList.lookup_eq_none.mp hcol
        rw [hcols_none c hnc]
      | some col =>
        have hcm : c ∈ B.components :=
          AList.lookup_isSome.mp (by rw [hcol]; rfl)
        obtain ⟨v, col2, hvps, hcol2, hcol3⟩ := hcols c hcm
        rw [hcol] at hcol2
        cases hcol2
        rw [hcol3]
        have hi : i < col.length := by
          rw [hB.cols_len c col hcol]
          exact hB.idx_lt hl2
        show (col.push v)[i]? = col[i]?
        exact ComponentArray.push_get_lt hi v
  · intro c hc
    rw [hmask3] at hc
    exact (hkeys c).mpr (hfull c hc)



theorem add_components_eq {w : World} {e : ℕ} {cs : List (ℕ × ℕ)}
    {w2 : World} (h : w.add_components e cs = some w2) :
    ∃ mkey current,
      w.entity_to_archetype_.lookup e = some mkey ∧
      w.component_mask_to_archetypes_.lookup mkey = some current ∧
      current.mask_ ≠ current.mask_ ||| maskOfList (cs.map Prod.fst) ∧
      ∃ target w1,
        w.get_or_create_archetype
          (current.mask_ ||| maskOfList (cs.map Prod.fst)) = (target, w1) ∧
        ∃ n target1, target.add_entity e = some (n, target1) ∧
        ∃ target2, pushPairs target1 cs = some target2 ∧
        ∃ old_index, current.idx_of e = some old_index ∧
        ∃ target3,
          pushPairs target2
            (current.components.entries.map
              (fun en => (en.1, en.2.getD old_index 0))) = some target3 ∧
          w2 = { w1 with
            component_mask_to_archetypes_ :=
              (w1.component_mask_to_archetypes_.insert
                (current.mask_ ||| maskOfList (cs.map Prod.fst))
                target3).insert mkey (current.remove_entity e)
            entity_to_archetype_ :=
              w1.entity_to_archetype_.insert e
                (current.mask_ ||| maskOfList (cs.map Prod.fst)) } := by
  unfold World.add_components at h
  cases hent : w.entity_to_archetype_.lookup e with
  | none => rw [hent] at h; cases h
  | some mkey =>
    rw [hent] at h
    simp only [Option.bind_eq_bind, Option.some_bind] at h
    cases hcur : w.component_mask_to_archetypes_.lookup mkey with
    | none => rw [hcur] at h; cases h
    | some current =>
      rw [hcur] at h
      simp only [Option.bind_eq_bind, Option.some_bind] at h
      by_cases hmask : current.mask_ =
          current.mask_ ||| maskOfList (cs.map Prod.fst)
      · rw [if_pos hmask] at h
        cases h
      · rw [if_neg hmask] at h
        refine ⟨mkey, current, rfl, hcur, hmask, ?_⟩
        rcases hgoc : w.get_or_create_archetype
            (current.mask_ ||| maskOfList (cs.map Prod.fst)) with ⟨target, w1⟩
        rw [hgoc] at h
        dsimp only at h
        refine ⟨target, w1, rfl, ?_⟩
        cases hadd : target.add_entity e with
        | none => rw [hadd] at h; cases h
        | some pr =>
          obtain ⟨n, target1⟩ := pr
          rw [hadd] at h
          simp only [Option.bind_eq_bind, Option.some_bind] at h
          refine ⟨n, target1, rfl, ?_⟩
          cases hps1 : pushPairs target1 cs with
          | none => rw [hps1] at h; cases h
          | some target2 =>
            rw [hps1] at h
            simp only [Option.bind_eq_bind, Option.some_bind] at h
            refine ⟨target2, rfl, ?_⟩
            cases hidx : current.idx_of e with
            | none => rw [hidx] at h; cases h
            | some old_index =>
              rw [hidx] at h
              simp only [Option.bind_eq_bind, Option.some_bind] at h
              refine ⟨old_index, rfl, ?_⟩
              cases hps2 : pushPairs target2
                  (current.components.entries.map
                    (fun en => (en.1, en.2.getD old_index 0))) with
              | none => rw [hps2] at h; cases h
              | some target3 =>
                rw [hps2] at h
                simp only [Option.bind_eq_bind, Option.some_bind] at h
                cases h
                exact ⟨target3, rfl, rfl⟩



theorem maskOfList_lt32 {ids : List ℕ} (hlt : ∀ c ∈ ids, c < 32) :
    maskOfList ids < 2 ^ 32 := by
  unfold maskOfList
  have h : ∀ m0, m0 < 2 ^ 32 →
      ids.foldl (fun m c => m ||| 2 ^ c) m0 < 2 ^ 32 := by
    induction ids with
    | nil => intro m0 h0; exact h0
    | cons c rest ih =>
      intro m0 h0
      rw [List.foldl_cons]
      refine ih (fun c2 hc2 => hlt c2 (by simp [hc2])) _
        (Nat.or_lt_two_pow h0 ?_)
      exact Nat.pow_lt_pow_right (by norm_num) (hlt c (by simp))
  exact h 0 (by norm_num)

theorem land_eq_zero_testBit {a b : ℕ} (h : a &&& b = 0) (c : ℕ) :
    a.testBit c = false ∨ b.testBit c = false := by
  by_contra hc
  push_neg at hc
  obtain ⟨ha, hb⟩ := hc
  have ha2 : a.testBit c = true := by
    cases h2 : a.testBit c
    · exact absurd h2 ha
    · rfl
  have hb2 : b.testBit c = true := by
    cases h2 : b.testBit c
    · exact absurd h2 hb
    · rfl
  have : (a &&& b).testBit c = true := by
    rw [Nat.testBit_and, ha2, hb2]
    rfl
  rw [h] at this
  simp at this

theorem add_preserves_wf {w : World} {e : ℕ} {cs : List (ℕ × ℕ)} {w2 : World}
    (hW : WorldWF w)
    (hnodup : (cs.map Prod.fst).Nodup)
    (hlt : ∀ c ∈ cs.map Prod.fst, c < 32)
    (hdisjall : ∀ mkey A, w.entity_to_archetype_.lookup e = some mkey →
      w.component_mask_to_archetypes_.lookup mkey = some A →
      maskOfList (cs.map Prod.fst) &&& A.mask_ = 0)
    (hsucc : w.add_components e cs = some w2) : WorldWF w2 := by
  obtain ⟨mkey, current, hent, hcur, hneq, target, w1, hgoc, n, target1,
    hadd, target2, hps1, old_index, hidx, target3, hps2, hw2⟩ :=
    add_components_eq hsucc
  have hdisj := hdisjall mkey current hent hcur
  obtain ⟨hmkey, hmlt, hcwf⟩ := hW.arch mkey current hcur
  have hTlt : current.mask_ ||| maskOfList (cs.map Prod.fst) < 2 ^ 32 :=
    Nat.or_lt_two_pow (hmkey ▸ hmlt) (maskOfList_lt32 hlt)
  have hmkeyT : mkey ≠ current.mask_ ||| maskOfList (cs.map Prod.fst) := by
    rw [← hmkey]
    exact hneq
  have hfacts : ArchWF target ∧
      target.mask_ = current.mask_ ||| maskOfList (cs.map Prod.fst) ∧
      w1.entity_to_archetype_ = w.entity_to_archetype_ ∧
      w1.next_entity_id_ = w.next_entity_id_ ∧
      (∀ m, m ≠ current.mask_ ||| maskOfList (cs.map Prod.fst) →
        w1.component_mask_to_archetypes_.lookup m =
          w.component_mask_to_archetypes_.lookup m) ∧
      w1.component_mask_to_archetypes_.lookup
        (current.mask_ ||| maskOfList (cs.map Prod.fst)) = some target := by
    cases hTlook : w.component_mask_to_archetypes_.lookup
        (current.mask_ ||| maskOfList (cs.map Prod.fst)) with
    | some A0 =>
      rw [goc_hit hTlook] at hgoc
      cases hgoc
      obtain ⟨hm0, hl0, hwf0⟩ := hW.arch _ _ hTlook
      exact ⟨hwf0, hm0, rfl, rfl, fun m _ => rfl, hTlook⟩
    | none =>
      rw [goc_miss hTlook] at hgoc
      cases hgoc
      refine ⟨Archetype.ofMask_wf _, rfl, rfl, rfl, ?_, ?_⟩
      · intro m hm
        exact AList.lookup_insert_ne hm
      · exact AList.lookup_insert _
  obtain ⟨htwf, htmask, hw1ent, hw1next, hw1look, hw1lookT⟩ := hfacts
  have hcount0 : current.idx_to_entity.length ≠ 0 := by
    have := hcwf.idx_lt hidx
    omega
  have hcurkeys : ∀ c, current.mask_.testBit c = true →
      c ∈ current.components :=
    hcwf.keys_pop (fun hc => hcount0 (by rw [hc]; rfl))
  have hcsbits : ∀ c, c ∈ cs.map Prod.fst ↔
      (maskOfList (cs.map Prod.fst)).testBit c = true := by
    intro c
    rw [maskOfList_testBit]
    simp
  have hcarryfst : ∀ c,
      (c ∈ (current.components.entries.map
        (fun en => (en.1, en.2.getD old_index 0))).map Prod.fst ↔
        c ∈ current.components) := by
    intro c
    rw [AList.mem_keys]
    show _ ↔ c ∈ current.components.entries.keys
    simp [List.map_map, List.keys, List.mem_map]
  have hcarrynodup : ((current.components.entries.map
      (fun en => (en.1, en.2.getD old_index 0))).map Prod.fst).Nodup := by
    have hk := current.components.keys_nodup
    have heq : (current.components.entries.map
        (fun en => (en.1, en.2.getD old_index 0))).map Prod.fst =
        current.components.entries.keys := by
      simp [List.map_map, List.keys]
    rw [heq]
    exact hk
  have hps : pushPairs target1
      (cs ++ current.components.entries.map
        (fun en => (en.1, en.2.getD old_index 0))) = some target3 := by
    rw [pushPairs_append, hps1]
    exact hps2
  have hdisjmem : ∀ c, c ∈ cs.map Prod.fst → c ∉ current.components := by
    intro c hc hcm
    have h1 : (maskOfList (cs.map Prod.fst)).testBit c = true :=
      (hcsbits c).mp hc
    have h2 : current.mask_.testBit c = true := hcwf.keys_sub c hcm
    rcases land_eq_zero_testBit hdisj c with h3 | h3
    · rw [h1] at h3; cases h3
    · rw [h2] at h3; cases h3
  have hnodup2 : (((cs ++ current.components.entries.map
      (fun en => (en.1, en.2.getD old_index 0))).map Prod.fst)).Nodup := by
    rw [List.map_append]
    refine List.Nodup.append hnodup hcarrynodup ?_
    intro c hc1 hc2
    exact hdisjmem c hc1 ((hcarryfst c).mp hc2)
  have hcover : ∀ c, c ∈ target.components →
      c ∈ ((cs ++ current.components.entries.map
        (fun en => (en.1, en.2.getD old_index 0))).map Prod.fst) := by
    intro c hc
    rw [List.map_append, List.mem_append]
    have := htwf.keys_sub c hc
    rw [htmask, Nat.testBit_or] at this
    rcases Bool.or_eq_true_iff.mp this with h1 | h1
    · exact Or.inr ((hcarryfst c).mpr (hcurkeys c h1))
    · exact Or.inl ((hcsbits c).mpr h1)
  have hfull : ∀ c, target.mask_.testBit c = true →
      c ∈ target.components := by
    intro c hc
    have hreq := pushPairs_some_mem_req _ _ _ hps
    obtain ⟨hcf, hn, hl1, hm1, hmask1, hcomp1⟩ := add_entity_eq hadd
    rw [htmask, Nat.testBit_or] at hc
    have hmem : c ∈ ((cs ++ current.components.entries.map
        (fun en => (en.1, en.2.getD old_index 0))).map Prod.fst) := by
      rw [List.map_append, List.mem_append]
      rcases Bool.or_eq_true_iff.mp hc with h1 | h1
      · exact Or.inr ((hcarryfst c).mpr (hcurkeys c h1))
      · exact Or.inl ((hcsbits c).mpr h1)
    have := hreq c hmem
    rw [hcomp1] at this
    exact this
  obtain ⟨hwf3, hmask3, hkeys3, hcount3, hcontains3, hidx3, hval3,
    hval3o, hstrong3⟩ := migrate_spec htwf hadd hps hnodup2 hcover hfull
  subst hw2
  constructor
  intro m A hl
  dsimp only at hl
  by_cases hm : m = mkey
  · subst hm
    rw [AList.lookup_insert] at hl
    cases hl
    refine ⟨by rw [Archetype.remove_entity_mask, hmkey], hmlt, ?_⟩
    exact Archetype.remove_entity_wf hcwf e
  · rw [AList.lookup_insert_ne hm] at hl
    by_cases hmT : m = current.mask_ ||| maskOfList (cs.map Prod.fst)
    · subst hmT
      rw [AList.lookup_insert] at hl
      cases hl
      exact ⟨by rw [hmask3, htmask], hTlt, hwf3⟩
    · rw [AList.lookup_insert_ne hmT, hw1look m hmT] at hl
      exact hW.arch m A hl



theorem remove_components_eq {w : World} {e : ℕ} {ids : List ℕ} {w2 : World}
    (h : w.remove_components e ids = some w2) :
    ∃ mkey current,
      w.entity_to_archetype_.lookup e = some mkey ∧
      w.component_mask_to_archetypes_.lookup mkey = some current ∧
      ∃ target w1,
        w.get_or_create_archetype
          (current.mask_ &&& maskNot (maskOfList ids)) = (target, w1) ∧
        ((target.mask_ = current.mask_ ∧ w2 = w1) ∨
          (target.mask_ ≠ current.mask_ ∧
            ∃ old_idx, current.idx_of e = some old_idx ∧
            ∃ n target1, target.add_entity e = some (n, target1) ∧
            ∃ target2,
              pushPairs target1
                ((current.components.entries.filter
                    (fun en => (current.mask_ &&&
                      maskNot (maskOfList ids)).testBit en.1)).map
                  (fun en => (en.1, en.2.getD old_idx 0))) = some target2 ∧
              w2 = { w1 with
                component_mask_to_archetypes_ :=
                  (w1.component_mask_to_archetypes_.insert
                    (current.mask_ &&& maskNot (maskOfList ids))
                    target2).insert mkey (current.remove_entity e)
                entity_to_archetype_ :=
                  w1.entity_to_archetype_.insert e
                    (current.mask_ &&& maskNot (maskOfList ids)) })) := by
  unfold World.remove_components at h
  cases hent : w.entity_to_archetype_.lookup e with
  | none => rw [hent] at h; cases h
  | some mkey =>
    rw [hent] at h
    simp only [Option.bind_eq_bind, Option.some_bind] at h
    cases hcur : w.component_mask_to_archetypes_.lookup mkey with
    | none => rw [hcur] at h; cases h
    | some current =>
      rw [hcur] at h
      simp only [Option.bind_eq_bind, Option.some_bind] at h
      refine ⟨mkey, current, rfl, hcur, ?_⟩
      rcases hgoc : w.get_or_create_archetype
          (current.mask_ &&& maskNot (maskOfList ids)) with ⟨target, w1⟩
      rw [hgoc] at h
      dsimp only at h
      refine ⟨target, w1, rfl, ?_⟩
      by_cases hmask : target.mask_ = current.mask_
      · rw [if_pos hmask] at h
        cases h
        exact Or.inl ⟨hmask, rfl⟩
      · rw [if_neg hmask] at h
        refine Or.inr ⟨hmask, ?_⟩
        cases hidx : current.idx_of e with
        | none => rw [hidx] at h; cases h
        | some old_idx =>
          rw [hidx] at h
          simp only [Option.bind_eq_bind, Option.some_bind] at h
          refine ⟨old_idx, rfl, ?_⟩
          cases hadd : target.add_entity e with
          | none => rw [hadd] at h; cases h
          | some pr =>
            obtain ⟨n, target1⟩ := pr
            rw [hadd] at h
            simp only [Option.bind_eq_bind, Option.some_bind] at h
            refine ⟨n, target1, rfl, ?_⟩
            cases hps : pushPairs target1
                ((current.components.entries.filter
                    (fun en => (current.mask_ &&&
                      maskNot (maskOfList ids)).testBit en.1)).map
                  (fun en => (en.1, en.2.getD old_idx 0))) with
            | none => rw [hps] at h; cases h
            | some target2 =>
              rw [hps] at h
              simp only [Option.bind_eq_bind, Option.some_bind] at h
              cases h
              exact ⟨target2, rfl, rfl⟩

theorem filtered_carry_fst_mem (current : Archetype) (T old_idx c : ℕ) :
    c ∈ ((current.components.entries.filter
        (fun en => T.testBit en.1)).map
      (fun en => (en.1, en.2.getD old_idx 0))).map Prod.fst ↔
      (c ∈ current.components ∧ T.testBit c = true) := by
  rw [AList.mem_keys]
  show _ ↔ c ∈ current.components.entries.keys ∧ _
  simp only [List.map_map, List.mem_map, Function.comp, List.mem_filter,
    List.keys, List.mem_map]
  constructor
  · rintro ⟨en, ⟨hen, hT⟩, hc⟩
    exact ⟨⟨en, hen, hc⟩, by rw [← hc]; exact hT⟩
  · rintro ⟨⟨en, hen, hc⟩, hT⟩
    exact ⟨en, ⟨hen, by rw [hc]; exact hT⟩, hc⟩

theorem filtered_carry_fst_nodup (current : Archetype) (T old_idx : ℕ) :
    (((current.components.entries.filter
        (fun en => T.testBit en.1)).map
      (fun en => (en.1, en.2.getD old_idx 0))).map Prod.fst).Nodup := by
  have hk : current.components.entries.keys.Nodup :=
    current.components.keys_nodup
  have heq : ((current.components.entries.filter
      (fun en => T.testBit en.1)).map
      (fun en => (en.1, en.2.getD old_idx 0))).map Prod.fst =
      (current.components.entries.filter
        (fun en => T.testBit en.1)).keys := by
    simp [List.map_map, List.keys]
  rw [heq]
  unfold List.keys
  exact (List.Sublist.map Sigma.fst (List.filter_sublist _)).nodup
    (by unfold List.keys at hk; exact hk)

theorem remove_preserves_wf {w : World} {e : ℕ} {ids : List ℕ} {w2 : World}
    (hW : WorldWF w)
    (hsucc : w.remove_components e ids = some w2) : WorldWF w2 := by
  obtain ⟨mkey, current, hent, hcur, target, w1, hgoc, hcases⟩ :=
    remove_components_eq hsucc
  obtain ⟨hmkey, hmlt, hcwf⟩ := hW.arch mkey current hcur
  have hTle : current.mask_ &&& maskNot (maskOfList ids) ≤ current.mask_ :=
    Nat.and_le_left
  have hTlt : current.mask_ &&& maskNot (maskOfList ids) < 2 ^ 32 :=
    lt_of_le_of_lt hTle (hmkey ▸ hmlt)
  have hfacts : ArchWF target ∧
      target.mask_ = current.mask_ &&& maskNot (maskOfList ids) ∧
      w1.entity_to_archetype_ = w.entity_to_archetype_ ∧
      w1.next_entity_id_ = w.next_entity_id_ ∧
      (∀ m, m ≠ current.mask_ &&& maskNot (maskOfList ids) →
        w1.component_mask_to_archetypes_.lookup m =
          w.component_mask_to_archetypes_.lookup m) ∧
      w1.component_mask_to_archetypes_.lookup
        (current.mask_ &&& maskNot (maskOfList ids)) = some target ∧
      WorldWF w1 := by
    cases hTlook : w.component_mask_to_archetypes_.lookup
        (current.mask_ &&& maskNot (maskOfList ids)) with
    | some A0 =>
      rw [goc_hit hTlook] at hgoc
      cases hgoc
      obtain ⟨hm0, hl0, hwf0⟩ := hW.arch _ _ hTlook
      exact ⟨hwf0, hm0, rfl, rfl, fun m _ => rfl, hTlook, hW⟩
    | none =>
      rw [goc_miss hTlook] at hgoc
      cases hgoc
      refine ⟨Archetype.ofMask_wf _, rfl, rfl, rfl, ?_, ?_, ?_⟩
      · intro m hm
        exact AList.lookup_insert_ne hm
      · exact AList.lookup_insert _
      · constructor
        intro m A hl
        dsimp only at hl
        by_cases hm : m = current.mask_ &&& maskNot (maskOfList ids)
        · subst hm
          rw [AList.lookup_insert] at hl
          cases hl
          exact ⟨rfl, hTlt, Archetype.ofMask_wf _⟩
        · rw [AList.lookup_insert_ne hm] at hl
          exact hW.arch m A hl
  obtain ⟨htwf, htmask, hw1ent, hw1next, hw1look, hw1lookT, hw1wf⟩ := hfacts
  rcases hcases with ⟨heq, hw2⟩ | ⟨hneq, old_idx, hidx, n, target1, hadd,
      target2, hps, hw2⟩
  · subst hw2
    exact hw1wf
  · have hcount0 : current.idx_to_entity.length ≠ 0 := by
      have := hcwf.idx_lt hidx
      omega
    have hcurkeys : ∀ c, current.mask_.testBit c = true →
        c ∈ current.components :=
      hcwf.keys_pop (fun hc => hcount0 (by rw [hc]; rfl))
    have hTbit : ∀ c, (current.mask_ &&& maskNot (maskOfList ids)).testBit c =
        true → current.mask_.testBit c = true := by
      intro c hc
      rw [Nat.testBit_and] at hc
      exact (Bool.and_eq_true_iff.mp hc).1
    have hcover : ∀ c, c ∈ target.components →
        c ∈ ((current.components.entries.filter
            (fun en => (current.mask_ &&&
              maskNot (maskOfList ids)).testBit en.1)).map
          (fun en => (en.1, en.2.getD old_idx 0))).map Prod.fst := by
      intro c hc
      rw [filtered_carry_fst_mem]
      have hbit := htwf.keys_sub c hc
      rw [htmask] at hbit
      exact ⟨hcurkeys c (hTbit c hbit), hbit⟩
    have hfull : ∀ c, target.mask_.testBit c = true →
        c ∈ target.components := by
      intro c hc
      rw [htmask] at hc
      have hreq := pushPairs_some_mem_req _ _ _ hps
      obtain ⟨hcf, hn, hl1, hm1, hmask1, hcomp1⟩ := add_entity_eq hadd
      have hmem := hreq c (by
        rw [filtered_carry_fst_mem]
        exact ⟨hcurkeys c (hTbit c hc), hc⟩)
      rw [hcomp1] at hmem
      exact hmem
    obtain ⟨hwf3, hmask3, hkeys3, hcount3, hcontains3, hidx3, hval3,
      hval3o, hstrong3⟩ := migrate_spec htwf hadd hps
      (filtered_carry_fst_nodup current _ old_idx) hcover hfull
    have hmkeyT : mkey ≠ current.mask_ &&& maskNot (maskOfList ids) := by
      rw [← hmkey]
      intro hc
      exact hneq (by rw [htmask, ← hc])
    subst hw2
    constructor
    intro m A hl
    dsimp only at hl
    by_cases hm : m = mkey
    · subst hm
      rw [AList.lookup_insert] at hl
      cases hl
      exact ⟨by rw [Archetype.remove_entity_mask, hmkey], hmlt,
        Archetype.remove_entity_wf hcwf e⟩
    · rw [AList.lookup_insert_ne hm] at hl
      by_cases hmT : m = current.mask_ &&& maskNot (maskOfList ids)
      · subst hmT
        rw [AList.lookup_insert] at hl
        cases hl
        exact ⟨by rw [hmask3, htmask], hTlt, hwf3⟩
      · rw [AList.lookup_insert_ne hmT, hw1look m hmT] at hl
        exact hW.arch m A hl



theorem worldWF_empty : WorldWF World.empty := by
  constructor
  intro m A h
  cases h

theorem publicMutation_preserves_wf {w w2 : World} (hW : WorldWF w)
    (hmut : PublicMutation w w2) : WorldWF w2 := by
  cases hmut with
  | create a e h => exact create_preserves_wf hW h
  | add a e cs hnodup hlt hdisj h =>
    exact add_preserves_wf hW hnodup hlt hdisj h
  | remove a e ids hlt h => exact remove_preserves_wf hW h
  | qclear q => exact clear_preserves_wf q hW
  | qremove_if a q p h => exact remove_if_preserves_wf hW h

/-- Claim C8: after every public mutation (entity creation, component
attach and detach under their documented usage preconditions, query clear
and query remove_if), every archetype `A` of the world satisfies the two
universal invariants: the length of `A.idx_to_entity` equals the size of
`A.entities_to_idx` and equals the element count of every column of `A`,
and for every dense index `i` below the entity count,
`A.entities_to_idx[A.idx_to_entity[i]] == i`. -/
theorem claim_C8 {w w2 : World} (hW : WorldWF w)
    (hmut : PublicMutation w w2) :
    ∀ m A, w2.component_mask_to_archetypes_.lookup m = some A →
      (A.entities_to_idx.entries.length = A.idx_to_entity.length ∧
        (∀ c col, A.components.lookup c = some col →
          col.length = A.idx_to_entity.length) ∧
        (∀ i, i < A.idx_to_entity.length →
          A.entities_to_idx.lookup (A.idx_to_entity.getD i 0) = some i)) := by
  have hW2 := publicMutation_preserves_wf hW hmut
  intro m A hl
  obtain ⟨hmask, hlt, hwf⟩ := hW2.arch m A hl
  refine ⟨hwf.entries_length, hwf.cols_len, ?_⟩
  intro i hi
  have hget : A.idx_to_entity[i]? = some (A.idx_to_entity.getD i 0) := by
    rw [List.getD_eq_getElem?_getD, List.getElem?_eq_getElem hi]
    simp
  exact (hwf.lookup_iff _ i).mpr hget

theorem claim_C8_witness :
    ∃ A, exw1.component_mask_to_archetypes_.lookup 0 = some A ∧
      (A.entities_to_idx.entries.length = A.idx_to_entity.length ∧
        (∀ c col, A.components.lookup c = some col →
          col.length = A.idx_to_entity.length) ∧
        (∀ i, i < A.idx_to_entity.length →
          A.entities_to_idx.lookup (A.idx_to_entity.getD i 0) = some i)) := by
  have hmut : PublicMutation World.empty exw1 :=
    PublicMutation.create World.empty exw1 0 (by rfl)
  have h := claim_C8 worldWF_empty hmut
  cases hval : exw1.component_mask_to_archetypes_.lookup 0 with
  | none =>
    exfalso
    have hs : (exw1.component_mask_to_archetypes_.lookup 0).isSome = true :=
      by decide
    rw [hval] at hs
    cases hs
  | some A =>
    exact ⟨A, rfl, h 0 A hval⟩



theorem clear_entity_count (A : Archetype) : A.clear.entity_count = 0 := rfl

/-- Claim C2 counterexample: attach component 0 to entity 0, run
`Query<P>::clear`; the query size drops to 0, but the claim's expectation
`has_components<P> == false` fails: the entity map entry was not erased and
the call still reports `some true`. -/
theorem claim_C2_counterexample :
    exq0.size exw4 = 0 ∧ exw2.has_components 0 [0] = some true ∧
      exw4.has_components 0 [0] = some true ∧
      exw4.has_components 0 [0] ≠ some false := by
  refine ⟨by decide, by decide, by decide, by decide⟩

/-- Claim C2 (amended): `Query::clear` empties every matching archetype, so
the query's size drops to zero, but it leaves the world's entity-to-archetype
map untouched; since clearing preserves every archetype's mask,
`has_components` answers exactly as before the clear for every entity. -/
theorem claim_C2 :
    ∀ (q : Query) (w : World),
      q.size (q.clear w) = 0 ∧
      (q.clear w).entity_to_archetype_ = w.entity_to_archetype_ ∧
      (∀ e cs, (q.clear w).has_components e cs = w.has_components e cs) := by
  intro q w
  refine ⟨?_, rfl, ?_⟩
  · unfold Query.size Query.clear
    show List.foldl _ 0 (sMapVals _ w.component_mask_to_archetypes_.entries)
        = 0
    have h : ∀ (l : List (Sigma (fun _ : ℕ => Archetype))) (acc : ℕ),
        List.foldl
          (fun total en =>
            if q.matchesMask en.1 = true then total + en.2.entity_count
            else total) acc
          (sMapVals (fun m A => if q.matchesMask m = true then A.clear
            else A) l) = acc := by
      intro l
      induction l with
      | nil => intro acc; rfl
      | cons en rest ih =>
        intro acc
        show List.foldl _ _ (⟨en.1, _⟩ ::
          sMapVals (fun m A => if q.matchesMask m = true then A.clear
            else A) rest) = acc
        rw [List.foldl_cons, ih]
        by_cases hm : q.matchesMask en.1 = true
        · simp [hm, clear_entity_count]
        · simp [hm]
    exact h w.component_mask_to_archetypes_.entries 0
  · intro e cs
    unfold World.has_components Query.clear
    cases hent : w.entity_to_archetype_.lookup e with
    | none => rfl
    | some m =>
      simp only [Option.bind_eq_bind, Option.some_bind]
      show ((mapVals _ w.component_mask_to_archetypes_).lookup m).bind _ = _
      rw [mapVals_lookup]
      cases hA : w.component_mask_to_archetypes_.lookup m with
      | none => rfl
      | some A =>
        simp only [Option.map_some', Option.some_bind]
        by_cases hm : q.matchesMask m = true
        · rw [if_pos hm]
          rfl
        · rw [if_neg hm]



/-- Claim C5 counterexample: in `exw2` the archetype of mask {0} holds one
entity and one column for component 0; after `Archetype::clear` the mask
still has bit 0 set, but the column map no longer contains component 0 —
the columns do not remain, refuting the claim that set mask bits stay
exactly the keys of the column map after a clear. -/
theorem claim_C5_counterexample :
    exw2.component_mask_to_archetypes_.lookup 1 = some exA ∧
      exA.mask_ = 1 ∧ exA.entity_count = 1 ∧
      exA.components.lookup 0 = some [5] ∧
      exA.clear.mask_ = 1 ∧
      exA.clear.components.lookup 0 = none ∧
      ¬(0 ∈ exA.clear.components) := by
  refine ⟨rfl, by decide, by decide, by decide, by decide, by decide, ?_⟩
  intro hmem
  have := AList.lookup_isSome.mpr hmem
  rw [show exA.clear.components.lookup 0 = none by decide] at this
  cases this

/-- Claim C5 (amended): `Archetype::clear` (ecs.cpp) destroys every element
of every column and clears both entity index structures, but it also calls
`components.clear()`, emptying the per-type column map itself; only the mask
survives. After a clear the column map is empty, so the mask's set bits are
no longer the keys of the column map. -/
theorem claim_C5 :
    ∀ A : Archetype,
      A.clear.mask_ = A.mask_ ∧ A.clear.idx_to_entity = [] ∧
        A.clear.entities_to_idx = ∅ ∧ A.clear.components = ∅ ∧
        A.clear.entity_count = 0 :=
  fun A => ⟨rfl, rfl, rfl, rfl, rfl⟩

/-- Claim C4: evaluation of the code at the failing input. Entity 0 already
carries component 0 (mask {0}); attaching the overlapping set {0, 1} passes
the `assert(current_mask != target_mask)` check because the target mask
{0, 1} differs from {0}, so no assertion fires; the call completes and
pushes component 0 twice into the target archetype's column (values [6, 5])
while the archetype holds a single entity — the claim that the assertion
fires for every overlap is violated, and the size invariant breaks. -/
theorem claim_C4 :
    exw2.entity_to_archetype_.lookup 0 = some 1 ∧
      maskOfList [0, 1] &&& 1 ≠ 0 ∧
      exw2.add_components 0 [(0, 6), (1, 7)] = some exw5 ∧
      exw5.component_mask_to_archetypes_.lookup 3 = some exA5 ∧
      exA5.entity_count = 1 ∧
      exA5.components.lookup 0 = some [6, 5] ∧
      exA5.components.lookup 1 = some [7] := by
  exact ⟨by decide, by decide, rfl, rfl, by decide, by decide, by decide⟩

/-- Claim C10: for every live entity, `World::has_components` instantiated
with the empty component list returns true (the empty test mask is a subset
of every mask); for an entity id that is not in the world's entity map the
call asserts (modelled as `none`) instead of returning false. -/
theorem claim_C10 :
    (∀ (w : World) (e m : ℕ) (A : Archetype),
        w.entity_to_archetype_.lookup e = some m →
        w.component_mask_to_archetypes_.lookup m = some A →
        w.has_components e [] = some true) ∧
      (∀ (w : World) (e : ℕ) (cs : List ℕ),
        w.entity_to_archetype_.lookup e = none →
        w.has_components e cs = none) := by
  constructor
  · intro w e m A hent hA
    unfold World.has_components
    rw [hent]
    simp only [Option.bind_eq_bind, Option.some_bind]
    rw [hA]
    simp only [Option.some_bind]
    have : maskOfList [] &&& A.mask_ = maskOfList [] := by
      show 0 &&& A.mask_ = 0
      simp
    rw [this]
    simp
  · intro w e cs hent
    unfold World.has_components
    rw [hent]
    rfl

theorem claim_C10_witness :
    exw2.has_components 0 [] = some true ∧
      exw2.has_components 99 [0, 1] = none := by
  constructor
  · exact claim_C10.1 exw2 0 1 exA (by decide) rfl
  · exact claim_C10.2 exw2 99 [0, 1] (by decide)



theorem maskOfList_ne_zero {cs : List (ℕ × ℕ)} (hne : cs ≠ []) :
    maskOfList (cs.map Prod.fst) ≠ 0 := by
  cases cs with
  | nil => exact absurd rfl hne
  | cons p rest =>
    intro hc
    have hb : (maskOfList ((p :: rest).map Prod.fst)).testBit p.1 = true := by
      rw [maskOfList_testBit]
      simp
    rw [hc] at hb
    simp at hb

theorem add_mask_changes {current : Archetype} {cs : List (ℕ × ℕ)}
    (hne : cs ≠ [])
    (hdisj : maskOfList (cs.map Prod.fst) &&& current.mask_ = 0) :
    current.mask_ ≠ current.mask_ ||| maskOfList (cs.map Prod.fst) := by
  cases cs with
  | nil => exact absurd rfl hne
  | cons p rest =>
    intro heq
    have hb : (maskOfList ((p :: rest).map Prod.fst)).testBit p.1 = true := by
      rw [maskOfList_testBit]
      simp
    have hcur : current.mask_.testBit p.1 = true := by
      rw [heq, Nat.testBit_or, hb]
      simp
    rcases land_eq_zero_testBit hdisj p.1 with h1 | h1
    · rw [hb] at h1; cases h1
    · rw [hcur] at h1; cases h1

theorem strongKeys_remove_entity {A : Archetype} (hs : StrongKeys A)
    (e : ℕ) : StrongKeys (A.remove_entity e) := by
  intro c hc
  rw [Archetype.remove_entity_mask] at hc
  rw [Archetype.remove_entity_components_mem]
  exact hs c hc

theorem add_components_isSome {w : World} {e : ℕ} {cs : List (ℕ × ℕ)}
    {mkey : ℕ} {current : Archetype}
    (hS : StrongInv w)
    (hent : w.entity_to_archetype_.lookup e = some mkey)
    (hcur : w.component_mask_to_archetypes_.lookup mkey = some current)
    (hlt : ∀ c ∈ cs.map Prod.fst, c < 32)
    (hdisj : maskOfList (cs.map Prod.fst) &&& current.mask_ = 0)
    (hne : cs ≠ []) :
    ∃ w2, w.add_components e cs = some w2 := by
  obtain ⟨hmkey, hmlt, hcwf⟩ := hS.wf.arch mkey current hcur
  have hTlt : current.mask_ ||| maskOfList (cs.map Prod.fst) < 2 ^ 32 :=
    Nat.or_lt_two_pow (hmkey ▸ hmlt) (maskOfList_lt32 hlt)
  have hneqmask := add_mask_changes hne hdisj
  have hconte : current.contains e = true := by
    obtain ⟨A, hA, hc⟩ := hS.went e mkey hent
    rw [hcur] at hA
    cases hA
    exact hc
  have hidx : ∃ old, current.idx_of e = some old := by
    unfold Archetype.idx_of
    exact Option.isSome_iff_exists.mp hconte
  obtain ⟨old_index, hidxe⟩ := hidx
  -- target archetype facts
  have htarget : ∃ target w1,
      w.get_or_create_archetype
        (current.mask_ ||| maskOfList (cs.map Prod.fst)) = (target, w1) ∧
      target.mask_ = current.mask_ ||| maskOfList (cs.map Prod.fst) ∧
      StrongKeys target ∧ target.contains e = false := by
    cases hTlook : w.component_mask_to_archetypes_.lookup
        (current.mask_ ||| maskOfList (cs.map Prod.fst)) with
    | some A0 =>
      refine ⟨A0, w, goc_hit hTlook, (hS.wf.arch _ _ hTlook).1,
        hS.strong _ _ hTlook, ?_⟩
      cases hc0 : A0.contains e with
      | false => rfl
      | true =>
        exfalso
        have := hS.wrev _ _ hTlook e hc0
        rw [hent] at this
        have hmeq : mkey = current.mask_ ||| maskOfList (cs.map Prod.fst) :=
          Option.some.inj this
        rw [← hmkey] at hmeq
        exact hneqmask hmeq
    | none =>
      refine ⟨Archetype.ofMask _, _, goc_miss hTlook, rfl,
        Archetype.ofMask_strong hTlt, rfl⟩
  obtain ⟨target, w1, hgoc, htmask, htstrong, htnc⟩ := htarget
  obtain ⟨pr, hadd⟩ := Option.isSome_iff_exists.mp (add_entity_isSome htnc)
  obtain ⟨n, target1⟩ := pr
  obtain ⟨hcf, hn, hl1, hm1, hmask1, hcomp1⟩ := add_entity_eq hadd
  have hps1s : ∃ target2, pushPairs target1 cs = some target2 := by
    refine Option.isSome_iff_exists.mp (pushPairs_isSome_of_mem cs target1 ?_)
    intro c hc
    rw [hcomp1]
    refine htstrong c ?_
    rw [htmask, Nat.testBit_or, maskOfList_testBit]
    simp [hc]
  obtain ⟨target2, hps1⟩ := hps1s
  have hps2s : ∃ target3, pushPairs target2
      (current.components.entries.map
        (fun en => (en.1, en.2.getD old_index 0))) = some target3 := by
    refine Option.isSome_iff_exists.mp
      (pushPairs_isSome_of_mem _ target2 ?_)
    intro c hc
    have hcm : c ∈ current.components := by
      have : c ∈ current.components.entries.keys := by
        simp only [List.map_map, List.mem_map, Function.comp] at hc
        obtain ⟨en, hen, hceq⟩ := hc
        rw [List.keys, List.mem_map]
        exact ⟨en, hen, hceq⟩
      rw [AList.mem_keys]
      exact this
    rw [pushPairs_mem cs target1 target2 hps1 c, hcomp1]
    refine htstrong c ?_
    rw [htmask, Nat.testBit_or]
    have := hcwf.keys_sub c hcm
    rw [this]
    rfl
  obtain ⟨target3, hps2⟩ := hps2s
  refine Option.isSome_iff_exists.mp ?_
  unfold World.add_components
  rw [hent]
  simp only [Option.bind_eq_bind, Option.some_bind]
  rw [hcur]
  simp only [Option.some_bind]
  rw [if_neg hneqmask, hgoc]
  dsimp only
  rw [hadd]
  simp only [Option.some_bind]
  rw [hps1]
  simp only [Option.some_bind]
  rw [hidxe]
  simp only [Option.some_bind]
  rw [hps2]
  simp only [Option.some_bind]
  rfl



theorem remove_components_isSome {w : World} {e : ℕ} {ids : List ℕ}
    {mkey : ℕ} {current : Archetype}
    (hS : StrongInv w)
    (hent : w.entity_to_archetype_.lookup e = some mkey)
    (hcur : w.component_mask_to_archetypes_.lookup mkey = some current)
    (hneq : current.mask_ &&& maskNot (maskOfList ids) ≠ current.mask_) :
    ∃ w2, w.remove_components e ids = some w2 := by
  obtain ⟨hmkey, hmlt, hcwf⟩ := hS.wf.arch mkey current hcur
  have hTlt : current.mask_ &&& maskNot (maskOfList ids) < 2 ^ 32 :=
    Nat.lt_of_le_of_lt Nat.and_le_left (hmkey ▸ hmlt)
  have hconte : current.contains e = true := by
    obtain ⟨A, hA, hc⟩ := hS.went e mkey hent
    rw [hcur] at hA
    cases hA
    exact hc
  have hidx : ∃ old, current.idx_of e = some old := by
    unfold Archetype.idx_of
    exact Option.isSome_iff_exists.mp hconte
  obtain ⟨old_idx, hidxe⟩ := hidx
  have htarget : ∃ target w1,
      w.get_or_create_archetype
        (current.mask_ &&& maskNot (maskOfList ids)) = (target, w1) ∧
      target.mask_ = current.mask_ &&& maskNot (maskOfList ids) ∧
      StrongKeys target ∧ target.contains e = false := by
    cases hTlook : w.component_mask_to_archetypes_.lookup
        (current.mask_ &&& maskNot (maskOfList ids)) with
    | some A0 =>
      refine ⟨A0, w, goc_hit hTlook, (hS.wf.arch _ _ hTlook).1,
        hS.strong _ _ hTlook, ?_⟩
      cases hc0 : A0.contains e with
      | false => rfl
      | true =>
        exfalso
        have := hS.wrev _ _ hTlook e hc0
        rw [hent] at this
        have hmeq : mkey = current.mask_ &&& maskNot (maskOfList ids) :=
          Option.some.inj this
        rw [← hmkey] at hmeq
        exact hneq hmeq.symm
    | none =>
      refine ⟨Archetype.ofMask _, _, goc_miss hTlook, rfl,
        Archetype.ofMask_strong hTlt, rfl⟩
  obtain ⟨target, w1, hgoc, htmask, htstrong, htnc⟩ := htarget
  obtain ⟨pr, hadd⟩ := Option.isSome_iff_exists.mp (add_entity_isSome htnc)
  obtain ⟨n, target1⟩ := pr
  obtain ⟨hcf, hn, hl1, hm1, hmask1, hcomp1⟩ := add_entity_eq hadd
  have hps1s : ∃ target2, pushPairs target1
      ((current.components.entries.filter
          (fun en => (current.mask_ &&& maskNot (maskOfList ids)).testBit en.1)).map
        (fun en => (en.1, en.2.getD old_idx 0))) = some target2 := by
    refine Option.isSome_iff_exists.mp (pushPairs_isSome_of_mem _ target1 ?_)
    intro c hc
    rw [hcomp1]
    refine htstrong c ?_
    rw [htmask]
    simp only [List.map_map, List.mem_map, Function.comp] at hc
    obtain ⟨en, hen, hceq⟩ := hc
    rw [List.mem_filter] at hen
    rw [← hceq]
    exact hen.2
  obtain ⟨target2, hps1⟩ := hps1s
  refine Option.isSome_iff_exists.mp ?_
  unfold World.remove_components
  rw [hent]
  simp only [Option.bind_eq_bind, Option.some_bind]
  rw [hcur]
  simp only [Option.some_bind]
  rw [hgoc]
  dsimp only
  rw [if_neg (htmask ▸ hneq)]
  rw [hidxe]
  simp only [Option.some_bind]
  rw [hadd]
  simp only [Option.some_bind]
  rw [hps1]
  simp only [Option.some_bind]
  rfl



theorem compValue_eq {w : World} {e m c : ℕ} {A : Archetype}
    (h1 : w.entity_to_archetype_.lookup e = some m)
    (h2 : w.component_mask_to_archetypes_.lookup m = some A) :
    w.compValue e c = A.valueOf c e := by
  unfold World.compValue
  rw [h1]
  show (match w.component_mask_to_archetypes_.lookup m with
    | none => none
    | some A => A.valueOf c e) = A.valueOf c e
  rw [h2]

theorem compValue_not_ent {w : World} {e : ℕ} (c : ℕ)
    (h : w.entity_to_archetype_.lookup e = none) :
    w.compValue e c = none := by
  unfold World.compValue
  rw [h]

theorem valueOf_eq {A : Archetype} {e i c : ℕ} {col : ComponentArray}
    (h1 : A.idx_of e = some i) (h2 : A.components.lookup c = some col) :
    A.valueOf c e = col[i]? := by
  unfold Archetype.valueOf
  rw [h1, h2]

theorem ofMask_contains (mask e : ℕ) :
    (Archetype.ofMask mask).contains e = false := rfl

theorem ofMask_entity_count (mask : ℕ) :
    (Archetype.ofMask mask).entity_count = 0 := rfl

theorem idx_of_lt_col {A : Archetype} (hA : ArchWF A) {e i c : ℕ}
    {col : ComponentArray} (h1 : A.idx_of e = some i)
    (h2 : A.components.lookup c = some col) :
    col[i]? = some (col.getD i 0) := by
  have hlen : col.length = A.idx_to_entity.length := hA.cols_len c col h2
  have hi : i < A.idx_to_entity.length := hA.idx_lt h1
  rw [List.getD_eq_getElem?_getD, List.getElem?_eq_getElem (by omega)]
  simp


theorem add_preserves_strong {w : World} {e : ℕ} {cs : List (ℕ × ℕ)}
    {w2 : World} {mkey : ℕ} {current : Archetype}
    (hS : StrongInv w)
    (hnodup : (cs.map Prod.fst).Nodup)
    (hlt : ∀ c ∈ cs.map Prod.fst, c < 32)
    (hdisj : maskOfList (cs.map Prod.fst) &&& current.mask_ = 0)
    (hent : w.entity_to_archetype_.lookup e = some mkey)
    (hcur : w.component_mask_to_archetypes_.lookup mkey = some current)
    (hsucc : w.add_components e cs = some w2) :
    StrongInv w2 ∧
      w2.next_entity_id_ = w.next_entity_id_ ∧
      w2.entity_to_archetype_.lookup e =
        some (current.mask_ ||| maskOfList (cs.map Prod.fst)) ∧
      (∀ e2, e2 ≠ e → w2.entity_to_archetype_.lookup e2 =
        w.entity_to_archetype_.lookup e2) ∧
      w2.entity_to_archetype_.entries.length =
        w.entity_to_archetype_.entries.length ∧
      (∀ c v, (c, v) ∈ cs → w2.compValue e c = some v) ∧
      (∀ c, current.mask_.testBit c = true →
        w2.compValue e c = w.compValue e c) ∧
      (∀ e2, e2 ≠ e → ∀ c, w2.compValue e2 c = w.compValue e2 c) := by
  obtain ⟨mkey2, current2x, hent2, hcur2, hneq, target, w1, hgoc, n, target1,
    hadd, target2, hps1, old_index, hidx, target3, hps2, hw2⟩ :=
    add_components_eq hsucc
  rw [hent] at hent2
  have hmk : mkey2 = mkey := (Option.some.inj hent2).symm
  rw [hmk] at hcur2 hw2
  rw [hcur] at hcur2
  have hck : current2x = current := (Option.some.inj hcur2).symm
  rw [hck] at hneq hgoc hidx hps2 hw2
  obtain ⟨hmkey, hmlt, hcwf⟩ := hS.wf.arch mkey current hcur
  have hTlt : current.mask_ ||| maskOfList (cs.map Prod.fst) < 2 ^ 32 :=
    Nat.or_lt_two_pow (hmkey ▸ hmlt) (maskOfList_lt32 hlt)
  have hmkeyT : mkey ≠ current.mask_ ||| maskOfList (cs.map Prod.fst) := by
    rw [← hmkey]
    exact hneq
  have hfacts : ArchWF target ∧
      target.mask_ = current.mask_ ||| maskOfList (cs.map Prod.fst) ∧
      StrongKeys target ∧
      w1.entity_to_archetype_ = w.entity_to_archetype_ ∧
      w1.next_entity_id_ = w.next_entity_id_ ∧
      (∀ m, m ≠ current.mask_ ||| maskOfList (cs.map Prod.fst) →
        w1.component_mask_to_archetypes_.lookup m =
          w.component_mask_to_archetypes_.lookup m) ∧
      w1.component_mask_to_archetypes_.lookup
        (current.mask_ ||| maskOfList (cs.map Prod.fst)) = some target ∧
      World.totalCount w1 = World.totalCount w ∧
      (w.component_mask_to_archetypes_.lookup
          (current.mask_ ||| maskOfList (cs.map Prod.fst)) = some target ∨
        w.component_mask_to_archetypes_.lookup
          (current.mask_ ||| maskOfList (cs.map Prod.fst)) = none) := by
    cases hTlook : w.component_mask_to_archetypes_.lookup
        (current.mask_ ||| maskOfList (cs.map Prod.fst)) with
    | some A0 =>
      rw [goc_hit hTlook] at hgoc
      cases hgoc
      obtain ⟨hm0, hl0, hwf0⟩ := hS.wf.arch _ _ hTlook
      exact ⟨hwf0, hm0, hS.strong _ _ hTlook, rfl, rfl, fun m _ => rfl,
        hTlook, rfl, Or.inl rfl⟩
    | none =>
      rw [goc_miss hTlook] at hgoc
      cases hgoc
      refine ⟨Archetype.ofMask_wf _, rfl, Archetype.ofMask_strong hTlt,
        rfl, rfl, ?_, AList.lookup_insert _, ?_, Or.inr rfl⟩
      · intro m hm
        exact AList.lookup_insert_ne hm
      · show World.totalCount _ = _
        unfold World.totalCount
        dsimp only
        rw [sumCounts_insert_new hTlook]
        have h0 : (Archetype.ofMask
            (current.mask_ ||| maskOfList (cs.map Prod.fst))).entity_count =
            0 := rfl
        simp only [Archetype.entity_count] at h0 ⊢
        omega
  obtain ⟨htwf, htmask, htstrong, hw1ent, hw1next, hw1look, hw1lookT,
    hw1count, hwTorig⟩ := hfacts
  have htnc : target.contains e = false := by
    obtain ⟨hcf, _, _, _, _, _⟩ := add_entity_eq hadd
    exact hcf
  have hcount0 : current.idx_to_entity.length ≠ 0 := by
    have := hcwf.idx_lt hidx
    omega
  have hcurkeys : ∀ c, current.mask_.testBit c = true →
      c ∈ current.components :=
    hcwf.keys_pop (fun hc => hcount0 (by rw [hc]; rfl))
  have hcsbits : ∀ c, c ∈ cs.map Prod.fst ↔
      (maskOfList (cs.map Prod.fst)).testBit c = true := by
    intro c
    rw [maskOfList_testBit]
    simp
  have hcarryfst : ∀ c,
      (c ∈ (current.components.entries.map
        (fun en => (en.1, en.2.getD old_index 0))).map Prod.fst ↔
        c ∈ current.components) := by
    intro c
    rw [AList.mem_keys]
    show _ ↔ c ∈ current.components.entries.keys
    simp [List.map_map, List.keys, List.mem_map]
  have hcarrynodup : ((current.components.entries.map
      (fun en => (en.1, en.2.getD old_index 0))).map Prod.fst).Nodup := by
    have hk := current.components.keys_nodup
    have heq : (current.components.entries.map
        (fun en => (en.1, en.2.getD old_index 0))).map Prod.fst =
        current.components.entries.keys := by
      simp [List.map_map, List.keys]
    rw [heq]
    exact hk
  have hps : pushPairs target1
      (cs ++ current.components.entries.map
        (fun en => (en.1, en.2.getD old_index 0))) = some target3 := by
    rw [pushPairs_append, hps1]
    exact hps2
  have hdisjmem : ∀ c, c ∈ cs.map Prod.fst → c ∉ current.components := by
    intro c hc hcm
    have h1 : (maskOfList (cs.map Prod.fst)).testBit c = true :=
      (hcsbits c).mp hc
    have h2 : current.mask_.testBit c = true := hcwf.keys_sub c hcm
    rcases land_eq_zero_testBit hdisj c with h3 | h3
    · rw [h1] at h3; cases h3
    · rw [h2] at h3; cases h3
  have hnodup2 : (((cs ++ current.components.entries.map
      (fun en => (en.1, en.2.getD old_index 0))).map Prod.fst)).Nodup := by
    rw [List.map_append]
    refine List.Nodup.append hnodup hcarrynodup ?_
    intro c hc1 hc2
    exact hdisjmem c hc1 ((hcarryfst c).mp hc2)
  have hcover : ∀ c, c ∈ target.components →
      c ∈ ((cs ++ current.components.entries.map
        (fun en => (en.1, en.2.getD old_index 0))).map Prod.fst) := by
    intro c hc
    rw [List.map_append, List.mem_append]
    have := htwf.keys_sub c hc
    rw [htmask, Nat.testBit_or] at this
    rcases Bool.or_eq_true_iff.mp this with h1 | h1
    · exact Or.inr ((hcarryfst c).mpr (hcurkeys c h1))
    · exact Or.inl ((hcsbits c).mpr h1)
  have hfull : ∀ c, target.mask_.testBit c = true →
      c ∈ target.components := by
    intro c hc
    rw [htmask] at hc
    refine htstrong c ?_
    rw [htmask]
    exact hc
  obtain ⟨hwf3, hmask3, hkeys3, hcount3, hcontains3, hidx3, hval3,
    hval3o, hstrong3⟩ := migrate_spec htwf hadd hps hnodup2 hcover hfull
  have hdisjall : ∀ mk A, w.entity_to_archetype_.lookup e = some mk →
      w.component_mask_to_archetypes_.lookup mk = some A →
      maskOfList (cs.map Prod.fst) &&& A.mask_ = 0 := by
    intro mk A h1 h2
    rw [hent] at h1
    obtain rfl : mkey = mk := Option.some.inj h1
    rw [hcur] at h2
    obtain rfl : current = A := Option.some.inj h2
    exact hdisj
  have hwf2 : WorldWF w2 := add_preserves_wf hS.wf hnodup hlt hdisjall hsucc
  subst hw2
  have hemem : e ∈ w.entity_to_archetype_ :=
    AList.lookup_isSome.mp (by rw [hent]; rfl)
  -- entity-map facts of the result
  have hente : (w1.entity_to_archetype_.insert e
      (current.mask_ ||| maskOfList (cs.map Prod.fst))).lookup e =
      some (current.mask_ ||| maskOfList (cs.map Prod.fst)) := by
    rw [AList.lookup_insert]
  have hento : ∀ e2, e2 ≠ e → (w1.entity_to_archetype_.insert e
      (current.mask_ ||| maskOfList (cs.map Prod.fst))).lookup e2 =
      w.entity_to_archetype_.lookup e2 := by
    intro e2 he2
    rw [AList.lookup_insert_ne he2, hw1ent]
  have hentlen : (w1.entity_to_archetype_.insert e
      (current.mask_ ||| maskOfList (cs.map Prod.fst))).entries.length =
      w.entity_to_archetype_.entries.length := by
    rw [hw1ent]
    exact entries_length_insert_mem hemem _
  -- archetype-map facts of the result
  have harchmkey : ((w1.component_mask_to_archetypes_.insert
      (current.mask_ ||| maskOfList (cs.map Prod.fst)) target3).insert
      mkey (current.remove_entity e)).lookup mkey =
      some (current.remove_entity e) := AList.lookup_insert _
  have harchT : ((w1.component_mask_to_archetypes_.insert
      (current.mask_ ||| maskOfList (cs.map Prod.fst)) target3).insert
      mkey (current.remove_entity e)).lookup
      (current.mask_ ||| maskOfList (cs.map Prod.fst)) = some target3 := by
    rw [AList.lookup_insert_ne (Ne.symm hmkeyT), AList.lookup_insert]
  have harcho : ∀ m, m ≠ mkey →
      m ≠ current.mask_ ||| maskOfList (cs.map Prod.fst) →
      ((w1.component_mask_to_archetypes_.insert
        (current.mask_ ||| maskOfList (cs.map Prod.fst)) target3).insert
        mkey (current.remove_entity e)).lookup m =
      w.component_mask_to_archetypes_.lookup m := by
    intro m hm hmT
    rw [AList.lookup_insert_ne hm, AList.lookup_insert_ne hmT, hw1look m hmT]
  have hc2other : ∀ e2, e2 ≠ e →
      (current.remove_entity e).contains e2 = current.contains e2 :=
    fun e2 he2 => Archetype.remove_entity_contains_other hcwf he2
  -- value facts
  have hvale : ∀ c v, (c, v) ∈ cs →
      target3.valueOf c e = some v := by
    intro c v hcv
    refine hval3 c v (List.mem_append.mpr (Or.inl hcv)) ?_
    refine hfull c ?_
    rw [htmask, Nat.testBit_or]
    have : (maskOfList (cs.map Prod.fst)).testBit c = true :=
      (hcsbits c).mp (List.mem_map.mpr ⟨(c, v), hcv, rfl⟩)
    rw [this]
    exact Bool.or_true _
  have hvalold : ∀ c, current.mask_.testBit c = true →
      target3.valueOf c e = current.valueOf c e := by
    intro c hbit
    have hcm : c ∈ current.components := hcurkeys c hbit
    obtain ⟨col, hcol⟩ := Option.isSome_iff_exists.mp
      (AList.lookup_isSome.mpr hcm)
    have hget : col[old_index]? = some (col.getD old_index 0) :=
      idx_of_lt_col hcwf hidx hcol
    have hcarrymem : (c, col.getD old_index 0) ∈
        current.components.entries.map
          (fun en => (en.1, en.2.getD old_index 0)) := by
      have hmem : (Sigma.mk c col) ∈ current.components.entries :=
        AList.mem_lookup_iff.mp (by rw [hcol]; rfl)
      exact List.mem_map.mpr ⟨⟨c, col⟩, hmem, rfl⟩
    have h3 := hval3 c (col.getD old_index 0)
      (List.mem_append.mpr (Or.inr hcarrymem))
      (hfull c (by rw [htmask, Nat.testBit_or, hbit]; rfl))
    rw [h3, valueOf_eq hidx hcol, hget]
  refine ⟨?_, hw1next, hente, hento, hentlen, ?_, ?_, ?_⟩
  · -- StrongInv of the result
    refine ⟨hwf2, ?_, ?_, ?_, ?_, ?_⟩
    · -- strong keys
      intro m A hl
      dsimp only at hl
      by_cases hm : m = mkey
      · subst hm
        rw [harchmkey] at hl
        obtain rfl : current.remove_entity e = A := Option.some.inj hl
        exact strongKeys_remove_entity (hS.strong _ _ hcur) e
      · by_cases hmT : m = current.mask_ ||| maskOfList (cs.map Prod.fst)
        · subst hmT
          rw [harchT] at hl
          obtain rfl : target3 = A := Option.some.inj hl
          exact hstrong3
        · rw [harcho m hm hmT] at hl
          exact hS.strong m A hl
    · -- went
      intro e2 m hl2
      dsimp only at hl2 ⊢
      by_cases he2 : e2 = e
      · subst he2
        rw [hente] at hl2
        obtain rfl : current.mask_ ||| maskOfList (cs.map Prod.fst) = m :=
          Option.some.inj hl2
        refine ⟨target3, harchT, ?_⟩
        rw [hcontains3, if_pos rfl]
      · rw [hento e2 he2] at hl2
        obtain ⟨Am, hAm, hcont⟩ := hS.went e2 m hl2
        by_cases hm : m = mkey
        · subst hm
          rw [hcur] at hAm
          obtain rfl : current = Am := Option.some.inj hAm
          exact ⟨current.remove_entity e, harchmkey,
            by rw [hc2other e2 he2]; exact hcont⟩
        · by_cases hmT : m = current.mask_ ||| maskOfList (cs.map Prod.fst)
          · subst hmT
            rcases hwTorig with horig | horig
            · rw [horig] at hAm
              obtain rfl : target = Am := Option.some.inj hAm
              refine ⟨target3, harchT, ?_⟩
              rw [hcontains3, if_neg he2]
              exact hcont
            · rw [horig] at hAm
              cases hAm
          · exact ⟨Am, by rw [harcho m hm hmT]; exact hAm, hcont⟩
    · -- wrev
      intro m A hl e2 hcont
      dsimp only at hl ⊢
      by_cases hm : m = mkey
      · subst hm
        rw [harchmkey] at hl
        obtain rfl : current.remove_entity e = A := Option.some.inj hl
        have he2 : e2 ≠ e := by
          intro hc
          subst hc
          rw [Archetype.remove_entity_contains_self hcwf e2] at hcont
          cases hcont
        rw [hento e2 he2]
        rw [hc2other e2 he2] at hcont
        exact hS.wrev _ _ hcur e2 hcont
      · by_cases hmT : m = current.mask_ ||| maskOfList (cs.map Prod.fst)
        · subst hmT
          rw [harchT] at hl
          obtain rfl : target3 = A := Option.some.inj hl
          rw [hcontains3] at hcont
          by_cases he2 : e2 = e
          · subst he2
            exact hente
          · rw [if_neg he2] at hcont
            rw [hento e2 he2]
            rcases hwTorig with horig | horig
            · exact hS.wrev _ target horig e2 hcont
            · exfalso
              have hgoc2 := hgoc
              rw [goc_miss horig] at hgoc2
              have htof : target = Archetype.ofMask
                  (current.mask_ ||| maskOfList (cs.map Prod.fst)) :=
                ((Prod.mk.injEq _ _ _ _).mp hgoc2.symm).1
              rw [htof, ofMask_contains] at hcont
              cases hcont
        · rw [harcho m hm hmT] at hl
          have := hS.wrev m A hl e2 hcont
          have he2 : e2 ≠ e := by
            intro hc
            subst hc
            rw [hent] at this
            exact hm (Option.some.inj this).symm
          rw [hento e2 he2]
          exact this
    · -- wnext
      intro e2 m hl2
      dsimp only at hl2 ⊢
      rw [hw1next]
      by_cases he2 : e2 = e
      · subst he2
        exact hS.wnext e2 mkey hent
      · rw [hento e2 he2] at hl2
        exact hS.wnext e2 m hl2
    · -- wcount
      show World.totalCount _ = _
      unfold World.totalCount
      dsimp only
      have hlk2 : (w1.component_mask_to_archetypes_.insert
          (current.mask_ ||| maskOfList (cs.map Prod.fst)) target3).lookup
          mkey = some current := by
        rw [AList.lookup_insert_ne hmkeyT, hw1look mkey hmkeyT]
        exact hcur
      have hsum1 := sumCounts_insert (B := target3) hw1lookT
      have hsum2 := sumCounts_insert (B := current.remove_entity e) hlk2
      have hc2count : (current.remove_entity e).idx_to_entity.length =
          current.idx_to_entity.length - 1 := Archetype.remove_entity_count hidx
      have hcold := hS.wcount
      unfold World.totalCount at hcold hw1count
      rw [hentlen, ← hcold]
      simp only [Archetype.entity_count] at hsum1 hsum2 hcount3 hc2count hcold hw1count ⊢
      omega
  · -- new component values
    intro c v hcv
    rw [compValue_eq hente harchT]
    exact hvale c v hcv
  · -- carried component values
    intro c hbit
    rw [compValue_eq hente harchT, compValue_eq hent hcur]
    exact hvalold c hbit
  · -- other entities keep their values
    intro e2 he2 c
    cases hl2 : w.entity_to_archetype_.lookup e2 with
    | none =>
      rw [compValue_not_ent c hl2,
        compValue_not_ent c (by rw [hento e2 he2]; exact hl2)]
    | some m =>
      have hl2b : (w1.entity_to_archetype_.insert e
          (current.mask_ ||| maskOfList (cs.map Prod.fst))).lookup e2 =
          some m := by
        rw [hento e2 he2]
        exact hl2
      by_cases hm : m = mkey
      · subst hm
        rw [compValue_eq hl2b harchmkey, compValue_eq hl2 hcur]
        exact Archetype.remove_entity_valueOf hcwf he2 c
      · by_cases hmT : m = current.mask_ ||| maskOfList (cs.map Prod.fst)
        · subst hmT
          rcases hwTorig with horig | horig
          · rw [compValue_eq hl2b harchT, compValue_eq hl2 horig]
            exact hval3o e2 he2 c
          · exfalso
            obtain ⟨Am, hAm, _⟩ := hS.went e2 _ hl2
            rw [horig] at hAm
            cases hAm
        · cases hAm : w.component_mask_to_archetypes_.lookup m with
          | none =>
            unfold World.compValue
            dsimp only
            rw [hl2b, hl2]
            show (match ((w1.component_mask_to_archetypes_.insert
                (current.mask_ ||| maskOfList (cs.map Prod.fst))
                target3).insert mkey (current.remove_entity e)).lookup m with
              | none => none
              | some A => A.valueOf c e2) =
              (match w.component_mask_to_archetypes_.lookup m with
              | none => none
              | some A => A.valueOf c e2)
            rw [harcho m hm hmT, hAm]
          | some Am =>
            rw [compValue_eq hl2b (by rw [harcho m hm hmT]; exact hAm),
              compValue_eq hl2 hAm]



theorem remove_preserves_strong {w : World} {e : ℕ} {ids : List ℕ}
    {w2 : World} {mkey : ℕ} {current : Archetype}
    (hS : StrongInv w)
    (hent : w.entity_to_archetype_.lookup e = some mkey)
    (hcur : w.component_mask_to_archetypes_.lookup mkey = some current)
    (hsucc : w.remove_components e ids = some w2) :
    StrongInv w2 ∧
      w2.next_entity_id_ = w.next_entity_id_ ∧
      w2.entity_to_archetype_.lookup e =
        some (current.mask_ &&& maskNot (maskOfList ids)) ∧
      (∀ e2, e2 ≠ e → w2.entity_to_archetype_.lookup e2 =
        w.entity_to_archetype_.lookup e2) ∧
      w2.entity_to_archetype_.entries.length =
        w.entity_to_archetype_.entries.length ∧
      (∃ A2, w2.component_mask_to_archetypes_.lookup
          (current.mask_ &&& maskNot (maskOfList ids)) = some A2 ∧
        A2.contains e = true) ∧
      (∀ c, (current.mask_ &&& maskNot (maskOfList ids)).testBit c = true →
        w2.compValue e c = w.compValue e c) ∧
      (∀ e2, e2 ≠ e → ∀ c, w2.compValue e2 c = w.compValue e2 c) := by
  obtain ⟨mkey2, current2x, hent2, hcur2, target, w1, hgoc, hcases⟩ :=
    remove_components_eq hsucc
  rw [hent] at hent2
  have hmk : mkey2 = mkey := (Option.some.inj hent2).symm
  rw [hmk] at hcur2
  rw [hcur] at hcur2
  have hck : current2x = current := (Option.some.inj hcur2).symm
  rw [hck] at hgoc
  rw [hmk, hck] at hcases
  obtain ⟨hmkey, hmlt, hcwf⟩ := hS.wf.arch mkey current hcur
  have hTlt : current.mask_ &&& maskNot (maskOfList ids) < 2 ^ 32 :=
    lt_of_le_of_lt Nat.and_le_left (hmkey ▸ hmlt)
  have hconte : current.contains e = true := by
    obtain ⟨A, hA, hc⟩ := hS.went e mkey hent
    rw [hcur] at hA
    obtain rfl : A = current := Option.some.inj hA.symm
    exact hc
  rcases hcases with ⟨heq, hw2⟩ | ⟨hneq, old_idx, hidx, n, target1, hadd,
      target2, hps, hw2⟩
  · -- the target archetype is the current one: early return, no change
    have hkey : w1 = w ∧
        w.component_mask_to_archetypes_.lookup
          (current.mask_ &&& maskNot (maskOfList ids)) = some target := by
      cases hTlook : w.component_mask_to_archetypes_.lookup
          (current.mask_ &&& maskNot (maskOfList ids)) with
      | some A0 =>
        rw [goc_hit hTlook] at hgoc
        have h1 : A0 = target := ((Prod.mk.injEq _ _ _ _).mp hgoc).1
        have h2 : w = w1 := ((Prod.mk.injEq _ _ _ _).mp hgoc).2
        exact ⟨h2.symm, by rw [h1]⟩
      | none =>
        exfalso
        rw [goc_miss hTlook] at hgoc
        have h1 : Archetype.ofMask
            (current.mask_ &&& maskNot (maskOfList ids)) = target :=
          ((Prod.mk.injEq _ _ _ _).mp hgoc).1
        have h2 : target.mask_ =
            current.mask_ &&& maskNot (maskOfList ids) := by
          rw [← h1]
          rfl
        rw [heq] at h2
        rw [← h2, hmkey, hcur] at hTlook
        cases hTlook
    obtain ⟨hw1w, hTlook⟩ := hkey
    have hTmkey : current.mask_ &&& maskNot (maskOfList ids) = mkey := by
      have harch := (hS.wf.arch _ _ hTlook).1
      rw [heq] at harch
      rw [← harch, hmkey]
    subst hw2
    subst hw1w
    refine ⟨hS, rfl, ?_, fun e2 _ => rfl, rfl, ?_, fun c _ => rfl,
      fun e2 _ c => rfl⟩
    · rw [hTmkey]
      exact hent
    · refine ⟨current, ?_, hconte⟩
      rw [hTmkey]
      exact hcur
  · -- migration to the smaller archetype
    have hfacts : ArchWF target ∧
        target.mask_ = current.mask_ &&& maskNot (maskOfList ids) ∧
        StrongKeys target ∧
        w1.entity_to_archetype_ = w.entity_to_archetype_ ∧
        w1.next_entity_id_ = w.next_entity_id_ ∧
        (∀ m, m ≠ current.mask_ &&& maskNot (maskOfList ids) →
          w1.component_mask_to_archetypes_.lookup m =
            w.component_mask_to_archetypes_.lookup m) ∧
        w1.component_mask_to_archetypes_.lookup
          (current.mask_ &&& maskNot (maskOfList ids)) = some target ∧
        World.totalCount w1 = World.totalCount w ∧
        (w.component_mask_to_archetypes_.lookup
            (current.mask_ &&& maskNot (maskOfList ids)) = some target ∨
          w.component_mask_to_archetypes_.lookup
            (current.mask_ &&& maskNot (maskOfList ids)) = none) := by
      cases hTlook : w.component_mask_to_archetypes_.lookup
          (current.mask_ &&& maskNot (maskOfList ids)) with
      | some A0 =>
        rw [goc_hit hTlook] at hgoc
        cases hgoc
        obtain ⟨hm0, hl0, hwf0⟩ := hS.wf.arch _ _ hTlook
        exact ⟨hwf0, hm0, hS.strong _ _ hTlook, rfl, rfl, fun m _ => rfl,
          hTlook, rfl, Or.inl rfl⟩
      | none =>
        rw [goc_miss hTlook] at hgoc
        cases hgoc
        refine ⟨Archetype.ofMask_wf _, rfl, Archetype.ofMask_strong hTlt,
          rfl, rfl, ?_, AList.lookup_insert _, ?_, Or.inr rfl⟩
        · intro m hm
          exact AList.lookup_insert_ne hm
        · show World.totalCount _ = _
          unfold World.totalCount
          dsimp only
          rw [sumCounts_insert_new hTlook]
          have h0 : (Archetype.ofMask
              (current.mask_ &&& maskNot (maskOfList ids))).entity_count =
              0 := rfl
          simp only [Archetype.entity_count] at h0 ⊢
          omega
    obtain ⟨htwf, htmask, htstrong, hw1ent, hw1next, hw1look, hw1lookT,
      hw1count, hwTorig⟩ := hfacts
    have hmkeyT : mkey ≠ current.mask_ &&& maskNot (maskOfList ids) := by
      rw [← hmkey]
      intro hc
      exact hneq (by rw [htmask, ← hc])
    have hcount0 : current.idx_to_entity.length ≠ 0 := by
      have := hcwf.idx_lt hidx
      omega
    have hcurkeys : ∀ c, current.mask_.testBit c = true →
        c ∈ current.components :=
      hcwf.keys_pop (fun hc => hcount0 (by rw [hc]; rfl))
    have hTbit : ∀ c, (current.mask_ &&&
        maskNot (maskOfList ids)).testBit c = true →
        current.mask_.testBit c = true := by
      intro c hc
      rw [Nat.testBit_and] at hc
      exact (Bool.and_eq_true_iff.mp hc).1
    have hcover : ∀ c, c ∈ target.components →
        c ∈ ((current.components.entries.filter
            (fun en => (current.mask_ &&&
              maskNot (maskOfList ids)).testBit en.1)).map
          (fun en => (en.1, en.2.getD old_idx 0))).map Prod.fst := by
      intro c hc
      rw [filtered_carry_fst_mem]
      have hbit := htwf.keys_sub c hc
      rw [htmask] at hbit
      exact ⟨hcurkeys c (hTbit c hbit), hbit⟩
    have hfull : ∀ c, target.mask_.testBit c = true →
        c ∈ target.components := by
      intro c hc
      exact htstrong c hc
    obtain ⟨hwf3, hmask3, hkeys3, hcount3, hcontains3, hidx3, hval3,
      hval3o, hstrong3⟩ := migrate_spec htwf hadd hps
      (filtered_carry_fst_nodup current _ old_idx) hcover hfull
    have hwf2 : WorldWF w2 := remove_preserves_wf hS.wf hsucc
    subst hw2
    have hemem : e ∈ w.entity_to_archetype_ :=
      AList.lookup_isSome.mp (by rw [hent]; rfl)
    have hente : (w1.entity_to_archetype_.insert e
        (current.mask_ &&& maskNot (maskOfList ids))).lookup e =
        some (current.mask_ &&& maskNot (maskOfList ids)) := by
      rw [AList.lookup_insert]
    have hento : ∀ e2, e2 ≠ e → (w1.entity_to_archetype_.insert e
        (current.mask_ &&& maskNot (maskOfList ids))).lookup e2 =
        w.entity_to_archetype_.lookup e2 := by
      intro e2 he2
      rw [AList.lookup_insert_ne he2, hw1ent]
    have hentlen : (w1.entity_to_archetype_.insert e
        (current.mask_ &&& maskNot (maskOfList ids))).entries.length =
        w.entity_to_archetype_.entries.length := by
      rw [hw1ent]
      exact entries_length_insert_mem hemem _
    have harchmkey : ((w1.component_mask_to_archetypes_.insert
        (current.mask_ &&& maskNot (maskOfList ids)) target2).insert
        mkey (current.remove_entity e)).lookup mkey =
        some (current.remove_entity e) := AList.lookup_insert _
    have harchT : ((w1.component_mask_to_archetypes_.insert
        (current.mask_ &&& maskNot (maskOfList ids)) target2).insert
        mkey (current.remove_entity e)).lookup
        (current.mask_ &&& maskNot (maskOfList ids)) = some target2 := by
      rw [AList.lookup_insert_ne (Ne.symm hmkeyT), AList.lookup_insert]
    have harcho : ∀ m, m ≠ mkey →
        m ≠ current.mask_ &&& maskNot (maskOfList ids) →
        ((w1.component_mask_to_archetypes_.insert
          (current.mask_ &&& maskNot (maskOfList ids)) target2).insert
          mkey (current.remove_entity e)).lookup m =
        w.component_mask_to_archetypes_.lookup m := by
      intro m hm hmT
      rw [AList.lookup_insert_ne hm, AList.lookup_insert_ne hmT,
        hw1look m hmT]
    have hc2other : ∀ e2, e2 ≠ e →
        (current.remove_entity e).contains e2 = current.contains e2 :=
      fun e2 he2 => Archetype.remove_entity_contains_other hcwf he2
    have hvalsur : ∀ c, (current.mask_ &&&
        maskNot (maskOfList ids)).testBit c = true →
        target2.valueOf c e = current.valueOf c e := by
      intro c hc
      have hcm : c ∈ current.components := hcurkeys c (hTbit c hc)
      obtain ⟨col, hcol⟩ := Option.isSome_iff_exists.mp
        (AList.lookup_isSome.mpr hcm)
      have hget : col[old_idx]? = some (col.getD old_idx 0) :=
        idx_of_lt_col hcwf hidx hcol
      have hmem : (Sigma.mk c col) ∈ current.components.entries :=
        AList.mem_lookup_iff.mp (by rw [hcol]; rfl)
      have hcarrymem : (c, col.getD old_idx 0) ∈
          (current.components.entries.filter
            (fun en => (current.mask_ &&&
              maskNot (maskOfList ids)).testBit en.1)).map
            (fun en => (en.1, en.2.getD old_idx 0)) := by
        refine List.mem_map.mpr ⟨⟨c, col⟩, ?_, rfl⟩
        rw [List.mem_filter]
        exact ⟨hmem, by simpa using hc⟩
      have h3 := hval3 c (col.getD old_idx 0) hcarrymem
        (hfull c (by rw [htmask]; exact hc))
      rw [h3, valueOf_eq hidx hcol, hget]
    refine ⟨?_, hw1next, hente, hento, hentlen,
      ⟨target2, harchT, by rw [hcontains3, if_pos rfl]⟩, ?_, ?_⟩
    · refine ⟨hwf2, ?_, ?_, ?_, ?_, ?_⟩
      · intro m A hl
        dsimp only at hl
        by_cases hm : m = mkey
        · subst hm
          rw [harchmkey] at hl
          obtain rfl : current.remove_entity e = A := Option.some.inj hl
          exact strongKeys_remove_entity (hS.strong _ _ hcur) e
        · by_cases hmT : m = current.mask_ &&& maskNot (maskOfList ids)
          · subst hmT
            rw [harchT] at hl
            obtain rfl : target2 = A := Option.some.inj hl
            exact hstrong3
          · rw [harcho m hm hmT] at hl
            exact hS.strong m A hl
      · intro e2 m hl2
        dsimp only at hl2 ⊢
        by_cases he2 : e2 = e
        · subst he2
          rw [hente] at hl2
          obtain rfl : current.mask_ &&& maskNot (maskOfList ids) = m :=
            Option.some.inj hl2
          refine ⟨target2, harchT, ?_⟩
          rw [hcontains3, if_pos rfl]
        · rw [hento e2 he2] at hl2
          obtain ⟨Am, hAm, hcont⟩ := hS.went e2 m hl2
          by_cases hm : m = mkey
          · subst hm
            rw [hcur] at hAm
            obtain rfl : current = Am := Option.some.inj hAm
            exact ⟨current.remove_entity e, harchmkey,
              by rw [hc2other e2 he2]; exact hcont⟩
          · by_cases hmT : m = current.mask_ &&& maskNot (maskOfList ids)
            · subst hmT
              rcases hwTorig with horig | horig
              · rw [horig] at hAm
                obtain rfl : target = Am := Option.some.inj hAm
                refine ⟨target2, harchT, ?_⟩
                rw [hcontains3, if_neg he2]
                exact hcont
              · rw [horig] at hAm
                cases hAm
            · exact ⟨Am, by rw [harcho m hm hmT]; exact hAm, hcont⟩
      · intro m A hl e2 hcont
        dsimp only at hl ⊢
        by_cases hm : m = mkey
        · subst hm
          rw [harchmkey] at hl
          obtain rfl : current.remove_entity e = A := Option.some.inj hl
          have he2 : e2 ≠ e := by
            intro hc
            subst hc
            rw [Archetype.remove_entity_contains_self hcwf e2] at hcont
            cases hcont
          rw [hento e2 he2]
          rw [hc2other e2 he2] at hcont
          exact hS.wrev _ _ hcur e2 hcont
        · by_cases hmT : m = current.mask_ &&& maskNot (maskOfList ids)
          · subst hmT
            rw [harchT] at hl
            obtain rfl : target2 = A := Option.some.inj hl
            rw [hcontains3] at hcont
            by_cases he2 : e2 = e
            · subst he2
              exact hente
            · rw [if_neg he2] at hcont
              rw [hento e2 he2]
              rcases hwTorig with horig | horig
              · exact hS.wrev _ target horig e2 hcont
              · exfalso
                have hgoc2 := hgoc
                rw [goc_miss horig] at hgoc2
                have htof : target = Archetype.ofMask
                    (current.mask_ &&& maskNot (maskOfList ids)) :=
                  ((Prod.mk.injEq _ _ _ _).mp hgoc2.symm).1
                rw [htof, ofMask_contains] at hcont
                cases hcont
          · rw [harcho m hm hmT] at hl
            have := hS.wrev m A hl e2 hcont
            have he2 : e2 ≠ e := by
              intro hc
              subst hc
              rw [hent] at this
              exact hm (Option.some.inj this).symm
            rw [hento e2 he2]
            exact this
      · intro e2 m hl2
        dsimp only at hl2 ⊢
        rw [hw1next]
        by_cases he2 : e2 = e
        · subst he2
          exact hS.wnext e2 mkey hent
        · rw [hento e2 he2] at hl2
          exact hS.wnext e2 m hl2
      · show World.totalCount _ = _
        unfold World.totalCount
        dsimp only
        have hlk2 : (w1.component_mask_to_archetypes_.insert
            (current.mask_ &&& maskNot (maskOfList ids)) target2).lookup
            mkey = some current := by
          rw [AList.lookup_insert_ne hmkeyT, hw1look mkey hmkeyT]
          exact hcur
        have hsum1 := sumCounts_insert (B := target2) hw1lookT
        have hsum2 := sumCounts_insert (B := current.remove_entity e) hlk2
        have hc2count : (current.remove_entity e).idx_to_entity.length =
            current.idx_to_entity.length - 1 :=
          Archetype.remove_entity_count hidx
        have hcold := hS.wcount
        unfold World.totalCount at hcold hw1count
        rw [hentlen, ← hcold]
        simp only [Archetype.entity_count] at hsum1 hsum2 hcount3 hc2count hcold hw1count ⊢
        omega
    · intro c hbit
      rw [compValue_eq hente harchT, compValue_eq hent hcur]
      exact hvalsur c hbit
    · intro e2 he2 c
      cases hl2 : w.entity_to_archetype_.lookup e2 with
      | none =>
        rw [compValue_not_ent c hl2,
          compValue_not_ent c (by rw [hento e2 he2]; exact hl2)]
      | some m =>
        have hl2b : (w1.entity_to_archetype_.insert e
            (current.mask_ &&& maskNot (maskOfList ids))).lookup e2 =
            some m := by
          rw [hento e2 he2]
          exact hl2
        by_cases hm : m = mkey
        · subst hm
          rw [compValue_eq hl2b harchmkey, compValue_eq hl2 hcur]
          exact Archetype.remove_entity_valueOf hcwf he2 c
        · by_cases hmT : m = current.mask_ &&& maskNot (maskOfList ids)
          · subst hmT
            rcases hwTorig with horig | horig
            · rw [compValue_eq hl2b harchT, compValue_eq hl2 horig]
              exact hval3o e2 he2 c
            · exfalso
              obtain ⟨Am, hAm, _⟩ := hS.went e2 _ hl2
              rw [horig] at hAm
              cases hAm
          · cases hAm : w.component_mask_to_archetypes_.lookup m with
            | none =>
              unfold World.compValue
              dsimp only
              rw [hl2b, hl2]
              show (match ((w1.component_mask_to_archetypes_.insert
                  (current.mask_ &&& maskNot (maskOfList ids))
                  target2).insert mkey
                  (current.remove_entity e)).lookup m with
                | none => none
                | some A => A.valueOf c e2) =
                (match w.component_mask_to_archetypes_.lookup m with
                | none => none
                | some A => A.valueOf c e2)
              rw [harcho m hm hmT, hAm]
            | some Am =>
              rw [compValue_eq hl2b (by rw [harcho m hm hmT]; exact hAm),
                compValue_eq hl2 hAm]



theorem reached_strongInv {w : World} (h : Reached w) : StrongInv w := by
  induction h with
  | init => exact strongInv_empty
  | create a b e hr heq ih => exact create_preserves_strong ih heq
  | add a b e cs hr hnodup hlt hdisj hsucc ih =>
    obtain ⟨mkey, current, hent, hcur, _⟩ := add_components_eq hsucc
    exact (add_preserves_strong ih hnodup hlt (hdisj _ _ hent hcur) hent hcur
      hsucc).1
  | remove a b e ids hr hlt hsucc ih =>
    obtain ⟨mkey, current, hent, hcur, _⟩ := remove_components_eq hsucc
    exact (remove_preserves_strong ih hent hcur hsucc).1

theorem worldWF_exw1 : WorldWF exw1 :=
  create_preserves_wf worldWF_empty rfl

theorem exw1_disj : ∀ mkey A,
    exw1.entity_to_archetype_.lookup 0 = some mkey →
    exw1.component_mask_to_archetypes_.lookup mkey = some A →
    maskOfList ([(0, 5)].map Prod.fst) &&& A.mask_ = 0 := by
  intro mkey A h1 h2
  rw [show AList.lookup 0 exw1.entity_to_archetype_ = some 0 from rfl] at h1
  have hmk : mkey = 0 := (Option.some.inj h1).symm
  subst hmk
  have hmask : A.mask_ = 0 := (worldWF_exw1.arch 0 A h2).1
  rw [hmask]
  rfl

theorem reached_exw2 : Reached exw2 :=
  Reached.add exw1 exw2 0 [(0, 5)]
    (Reached.create World.empty exw1 0 Reached.init rfl)
    (by decide) (by decide) exw1_disj rfl

theorem strongInv_exw2 : StrongInv exw2 :=
  reached_strongInv reached_exw2

/-- Claim C3 (modelled from the spec; the operation is absent from the
sources in this snapshot while the tests call it): `destroy_entity(e)` on an
unknown entity id returns `false` and leaves the world untouched; on a known
entity it removes the entity from its archetype (which then no longer
contains it), erases the entity-to-archetype mapping of `e` and only of `e`,
and returns `true`. -/
theorem claim_C3 :
    (∀ (w : World) (e : ℕ), w.entity_to_archetype_.lookup e = none →
      w.remove_entity e = (false, w)) ∧
    (∀ (w : World) (e m : ℕ) (A : Archetype),
      ArchWF A →
      w.entity_to_archetype_.lookup e = some m →
      w.component_mask_to_archetypes_.lookup m = some A →
      (w.remove_entity e).1 = true ∧
      (w.remove_entity e).2.entity_to_archetype_.lookup e = none ∧
      (w.remove_entity e).2.component_mask_to_archetypes_.lookup m =
        some (A.remove_entity e) ∧
      (A.remove_entity e).contains e = false ∧
      (∀ e2, e2 ≠ e →
        (w.remove_entity e).2.entity_to_archetype_.lookup e2 =
          w.entity_to_archetype_.lookup e2)) := by
  constructor
  · intro w e h
    unfold World.remove_entity
    rw [h]
  · intro w e m A hA hent harch
    have hrun : w.remove_entity e = (true,
        { w with
          component_mask_to_archetypes_ :=
            w.component_mask_to_archetypes_.insert m (A.remove_entity e)
          entity_to_archetype_ := w.entity_to_archetype_.erase e }) := by
      unfold World.remove_entity
      rw [hent]
      dsimp only
      rw [harch]
    rw [hrun]
    refine ⟨rfl, ?_, ?_, ?_, ?_⟩
    · exact AList.lookup_erase e _
    · exact AList.lookup_insert _
    · exact Archetype.remove_entity_contains_self hA e
    · intro e2 he2
      exact AList.lookup_erase_ne he2

/-- Witness for C3 at `exw2`: destroying the unknown id 5 returns false and
changes nothing; destroying the live entity 0 returns true, unmaps it and
removes it from the mask-1 archetype. -/
theorem claim_C3_witness :
    exw2.remove_entity 5 = (false, exw2) ∧
    ((exw2.remove_entity 0).1 = true ∧
      (exw2.remove_entity 0).2.entity_to_archetype_.lookup 0 = none ∧
      (exw2.remove_entity 0).2.component_mask_to_archetypes_.lookup 1 =
        some (exA.remove_entity 0)) := by
  constructor
  · exact claim_C3.1 exw2 5 rfl
  · have hwf : ArchWF exA := (strongInv_exw2.wf.arch 1 exA rfl).2.2
    obtain ⟨h1, h2, h3, _, _⟩ := claim_C3.2 exw2 0 1 exA hwf rfl rfl
    exact ⟨h1, h2, h3⟩



/-- Claim C9: `remove_components` computes
`target_mask = current_mask & ~bits(ids)`.  (1) If the target mask equals the
current mask the call is a complete no-op returning the unchanged world.
(2) The call depends on the id list only through the target mask, so listing
a component that is not present is a silent no-op on that bit: any two id
lists with the same target mask give identical results.  (3) A detach whose
target mask is empty migrates the entity to the empty-mask archetype and
keeps it alive (still mapped, still stored) rather than destroying it. -/
theorem claim_C9 :
    (∀ (w : World) (e : ℕ) (ids : List ℕ) (m : ℕ) (current : Archetype),
      StrongInv w →
      w.entity_to_archetype_.lookup e = some m →
      w.component_mask_to_archetypes_.lookup m = some current →
      current.mask_ &&& maskNot (maskOfList ids) = current.mask_ →
      w.remove_components e ids = some w) ∧
    (∀ (w : World) (e : ℕ) (ids ids2 : List ℕ) (m : ℕ)
      (current : Archetype),
      w.entity_to_archetype_.lookup e = some m →
      w.component_mask_to_archetypes_.lookup m = some current →
      current.mask_ &&& maskNot (maskOfList ids) =
        current.mask_ &&& maskNot (maskOfList ids2) →
      w.remove_components e ids = w.remove_components e ids2) ∧
    (∀ (w : World) (e : ℕ) (ids : List ℕ) (m : ℕ) (current : Archetype),
      StrongInv w →
      w.entity_to_archetype_.lookup e = some m →
      w.component_mask_to_archetypes_.lookup m = some current →
      current.mask_ &&& maskNot (maskOfList ids) = 0 →
      ∃ w2, w.remove_components e ids = some w2 ∧
        w2.entity_to_archetype_.lookup e = some 0 ∧
        ∃ A2, w2.component_mask_to_archetypes_.lookup 0 = some A2 ∧
          A2.contains e = true) := by
  have noop : ∀ (w : World) (e : ℕ) (ids : List ℕ) (m : ℕ)
      (current : Archetype),
      StrongInv w →
      w.entity_to_archetype_.lookup e = some m →
      w.component_mask_to_archetypes_.lookup m = some current →
      current.mask_ &&& maskNot (maskOfList ids) = current.mask_ →
      w.remove_components e ids = some w := by
    intro w e ids m current hS hent hcur heqm
    have hmkey : current.mask_ = m := (hS.wf.arch m current hcur).1
    unfold World.remove_components
    rw [hent]
    simp only [Option.bind_eq_bind, Option.some_bind]
    rw [hcur]
    simp only [Option.some_bind]
    rw [heqm, hmkey, goc_hit hcur]
    dsimp only
    rw [if_pos hmkey]
  refine ⟨noop, ?_, ?_⟩
  · intro w e ids ids2 m current hent hcur heqm
    unfold World.remove_components
    rw [hent]
    simp only [Option.bind_eq_bind, Option.some_bind]
    rw [hcur]
    simp only [Option.some_bind]
    rw [heqm]
  · intro w e ids m current hS hent hcur h0
    by_cases hm0 : current.mask_ = 0
    · have hmkey : current.mask_ = m := (hS.wf.arch m current hcur).1
      have hmz : m = 0 := by rw [← hmkey, hm0]
      have heqm : current.mask_ &&& maskNot (maskOfList ids) =
          current.mask_ := by rw [h0, hm0]
      refine ⟨w, noop w e ids m current hS hent hcur heqm, ?_, current,
        ?_, ?_⟩
      · rw [hent, hmz]
      · rw [← hmz]
        exact hcur
      · obtain ⟨A, hA, hc⟩ := hS.went e m hent
        rw [hcur] at hA
        obtain rfl : A = current := Option.some.inj hA.symm
        exact hc
    · obtain ⟨w2, hsucc⟩ := remove_components_isSome hS hent hcur
        (by rw [h0]; exact fun hc => hm0 hc.symm)
      obtain ⟨hS2, hnext, hente, hento, hlen, hex, hvals, hvalo⟩ :=
        remove_preserves_strong hS hent hcur hsucc
      rw [h0] at hente hex
      exact ⟨w2, hsucc, hente, hex⟩

/-- Witness for C9 at `exw2` (entity 0 carries exactly component 0, so the
mask is 1): removing the absent component 3 is a perfect no-op; removing the
absent component 5 gives the identical result; removing component 0 empties
the mask and moves the still-live entity to the empty-mask archetype. -/
theorem claim_C9_witness :
    exw2.remove_components 0 [3] = some exw2 ∧
    exw2.remove_components 0 [3] = exw2.remove_components 0 [5] ∧
    (∃ w2, exw2.remove_components 0 [0] = some w2 ∧
      w2.entity_to_archetype_.lookup 0 = some 0 ∧
      ∃ A2, w2.component_mask_to_archetypes_.lookup 0 = some A2 ∧
        A2.contains 0 = true) :=
  ⟨claim_C9.1 exw2 0 [3] 1 exA strongInv_exw2 rfl rfl (by decide),
    claim_C9.2.1 exw2 0 [3] [5] 1 exA rfl rfl (by decide),
    claim_C9.2.2 exw2 0 [0] 1 exA strongInv_exw2 rfl rfl (by decide)⟩



theorem or_and_maskNot {M a : ℕ} (hM : M < 2 ^ 32) (ha : a < 2 ^ 32)
    (hdisj : a &&& M = 0) : (M ||| a) &&& maskNot a = M := by
  apply Nat.eq_of_testBit_eq
  intro b
  rw [Nat.testBit_and, Nat.testBit_or, maskNot_testBit ha b]
  by_cases hb : b < 32
  · simp only [hb, decide_True, Bool.true_and]
    rcases land_eq_zero_testBit hdisj b with h1 | h1
    · rw [h1]
      simp
    · rw [h1]
      cases ha2 : a.testBit b <;> simp
  · have hMb : M.testBit b = false := Nat.testBit_lt_two_pow
      (lt_of_lt_of_le hM (Nat.pow_le_pow_right (by norm_num) (by omega)))
    have hab : a.testBit b = false := Nat.testBit_lt_two_pow
      (lt_of_lt_of_le ha (Nat.pow_le_pow_right (by norm_num) (by omega)))
    simp [hb, hMb, hab]

/-- Counterexample to C7 as stated: the empty component set is disjoint from
every current mask, yet `add_components` with it makes the target mask equal
the current mask and trips `assert(current_mask != target_mask)`
("Adding Components twice"), so the attach-then-detach round trip is
assertion-fatal instead of an identity. -/
theorem claim_C7_counterexample : exw2.add_components 0 [] = none := rfl

/-- Claim C7 (amended to a non-empty attached set): attaching a non-empty
component set disjoint from the live entity's current mask and then
detaching exactly those component types succeeds and returns the entity to
its original archetype (the archetype registered under its original mask
key, whose mask is the original mask) and preserves the values of all of the
entity's other components. -/
theorem claim_C7 {w : World} {e mkey : ℕ} {current : Archetype}
    {cs : List (ℕ × ℕ)}
    (hS : StrongInv w)
    (hent : w.entity_to_archetype_.lookup e = some mkey)
    (hcur : w.component_mask_to_archetypes_.lookup mkey = some current)
    (hnodup : (cs.map Prod.fst).Nodup)
    (hlt : ∀ c ∈ cs.map Prod.fst, c < 32)
    (hdisj : maskOfList (cs.map Prod.fst) &&& current.mask_ = 0)
    (hne : cs ≠ []) :
    ∃ w2 w3, w.add_components e cs = some w2 ∧
      w2.remove_components e (cs.map Prod.fst) = some w3 ∧
      w3.entity_to_archetype_.lookup e = some mkey ∧
      (∃ A3, w3.component_mask_to_archetypes_.lookup mkey = some A3 ∧
        A3.contains e = true ∧ A3.mask_ = current.mask_) ∧
      (∀ c, current.mask_.testBit c = true →
        w3.compValue e c = w.compValue e c) := by
  obtain ⟨hmkey, hmlt, hcwf⟩ := hS.wf.arch mkey current hcur
  obtain ⟨w2, hadd⟩ := add_components_isSome hS hent hcur hlt hdisj hne
  obtain ⟨hS2, hnext2, hente2, hento2, hlen2, hvalnew, hvalold, hvalo⟩ :=
    add_preserves_strong hS hnodup hlt hdisj hent hcur hadd
  obtain ⟨AT, hcurT, hcontT⟩ := hS2.went e _ hente2
  have hmaskT : AT.mask_ = current.mask_ ||| maskOfList (cs.map Prod.fst) :=
    (hS2.wf.arch _ _ hcurT).1
  have hback : (current.mask_ ||| maskOfList (cs.map Prod.fst)) &&&
      maskNot (maskOfList (cs.map Prod.fst)) = current.mask_ :=
    or_and_maskNot (hmkey ▸ hmlt) (maskOfList_lt32 hlt) hdisj
  have hneqT : AT.mask_ &&& maskNot (maskOfList (cs.map Prod.fst)) ≠
      AT.mask_ := by
    rw [hmaskT, hback]
    exact add_mask_changes hne hdisj
  obtain ⟨w3, hrem⟩ := remove_components_isSome hS2 hente2 hcurT hneqT
  obtain ⟨hS3, hnext3, hente3, hento3, hlen3, hex3, hvals3, hvalo3⟩ :=
    remove_preserves_strong hS2 hente2 hcurT hrem
  rw [hmaskT, hback] at hente3 hex3 hvals3
  refine ⟨w2, w3, hadd, hrem, ?_, ?_, ?_⟩
  · rw [hente3, hmkey]
  · obtain ⟨A3, hA3, hcont3⟩ := hex3
    refine ⟨A3, by rw [← hmkey]; exact hA3, hcont3, ?_⟩
    exact (hS3.wf.arch _ _ hA3).1
  · intro c hbit
    rw [hvals3 c hbit]
    exact hvalold c hbit

/-- Witness for C7 at `exw2`: attach component 1 (value 7) to entity 0 whose
mask is 1, then detach component type 1 again; the entity is back in the
mask-1 archetype with its component-0 value intact. -/
theorem claim_C7_witness :
    ∃ w2 w3, exw2.add_components 0 [(1, 7)] = some w2 ∧
      w2.remove_components 0 [1] = some w3 ∧
      w3.entity_to_archetype_.lookup 0 = some 1 ∧
      (∃ A3, w3.component_mask_to_archetypes_.lookup 1 = some A3 ∧
        A3.contains 0 = true ∧ A3.mask_ = exA.mask_) ∧
      (∀ c, exA.mask_.testBit c = true →
        w3.compValue 0 c = exw2.compValue 0 c) :=
  claim_C7 strongInv_exw2 rfl rfl (by decide) (by decide) (by decide)
    (by decide)



theorem foldl_count_filter {β : Type} (p : β → Bool) (f : β → ℕ) :
    ∀ (l : List β) (t0 : ℕ),
      l.foldl (fun t en => if p en then t + f en else t) t0 =
        t0 + ((l.filter p).map f).sum := by
  intro l
  induction l with
  | nil => intro t0; simp
  | cons x rest ih =>
    intro t0
    rw [List.foldl_cons]
    by_cases hx : p x = true
    · rw [if_pos hx, ih, List.filter_cons_of_pos hx, List.map_cons,
        List.sum_cons]
      omega
    · rw [if_neg hx, ih, List.filter_cons_of_neg (by simpa using hx)]

/-- Claim C6: `Query::size` is the sum of `entity_count` over exactly the
archetypes whose mask `M` satisfies `(M & include) == include` and
`(M & exclude) == 0`; the query built from an empty component list matches
every archetype, and on every world reachable through the public API its
size is the total number of live entities (the size of the entity map). -/
theorem claim_C6 :
    (∀ (q : Query) (w : World),
      q.size w = ((w.component_mask_to_archetypes_.entries.filter
        (fun en => decide ((en.1 &&& q.include_mask) = q.include_mask) &&
          decide ((en.1 &&& q.exclude_mask) = 0))).map
        (fun en => en.2.entity_count)).sum) ∧
    (∀ mask : ℕ, (Query.ofIds []).matchesMask mask = true) ∧
    (∀ w : World, Reached w →
      (Query.ofIds []).size w = w.entity_to_archetype_.entries.length) := by
  have hsize : ∀ (q : Query) (w : World),
      q.size w = ((w.component_mask_to_archetypes_.entries.filter
        (fun en => q.matchesMask en.1)).map
        (fun en => en.2.entity_count)).sum := by
    intro q w
    unfold Query.size
    rw [foldl_count_filter (fun en => q.matchesMask en.1)
      (fun en => en.2.entity_count) w.component_mask_to_archetypes_.entries 0]
    omega
  have hmatch : ∀ mask : ℕ, (Query.ofIds []).matchesMask mask = true := by
    intro mask
    show (decide ((mask &&& 0) = 0) && decide ((mask &&& 0) = 0)) = true
    simp [Nat.and_zero]
  refine ⟨fun q w => hsize q w, hmatch, ?_⟩
  intro w hr
  have hS := reached_strongInv hr
  rw [hsize]
  have hall : (w.component_mask_to_archetypes_.entries.filter
      (fun en => (Query.ofIds []).matchesMask en.1)) =
      w.component_mask_to_archetypes_.entries :=
    List.filter_eq_self.mpr (fun en _ => hmatch en.1)
  rw [hall]
  have hc := hS.wcount
  unfold World.totalCount at hc
  exact hc

/-- Witness for C6: on the reachable world `exw2` (one live entity) the
empty query counts exactly the entity map. -/
theorem claim_C6_witness :
    (Query.ofIds []).size exw2 = exw2.entity_to_archetype_.entries.length :=
  claim_C6.2.2 exw2 reached_exw2



theorem mapM_lookup_queryVals {A : Archetype} (hA : ArchWF A) :
    ∀ (ids : List ℕ) (arrays : List ComponentArray),
      ids.mapM (fun id => A.components.lookup id) = some arrays →
      ∀ {e i : ℕ}, A.entities_to_idx.lookup e = some i →
      arrays.map (fun col => col.getD i 0) = A.queryVals ids e := by
  intro ids
  induction ids with
  | nil =>
    intro arrays harr e i hic
    have harr2 : arrays = [] := by
      simp only [List.mapM_nil, pure, Option.some.injEq] at harr
      exact harr.symm
    subst harr2
    rfl
  | cons c rest ih =>
    intro arrays harr e i hic
    rw [List.mapM_cons] at harr
    cases hcol : A.components.lookup c with
    | none =>
      rw [hcol] at harr
      simp at harr
    | some col =>
      rw [hcol] at harr
      cases hrest : rest.mapM (fun id => A.components.lookup id) with
      | none =>
        rw [hrest] at harr
        simp at harr
      | some cols =>
        rw [hrest] at harr
        simp only [Option.bind_eq_bind, Option.some_bind, pure,
          Option.some.injEq] at harr
        subst harr
        show (col :: cols).map (fun col => col.getD i 0) =
          A.queryVals (c :: rest) e
        unfold Archetype.queryVals
        rw [List.map_cons, List.map_cons]
        congr 1
        · rw [valueOf_eq hic hcol, idx_of_lt_col hA hic hcol]
          rfl
        · exact ih cols hrest hic

theorem remove_if_toRemove_mem {A : Archetype} (hA : ArchWF A)
    {ids : List ℕ} {arrays : List ComponentArray}
    (harr : ids.mapM (fun id => A.components.lookup id) = some arrays)
    (p : ℕ → List ℕ → Bool) (e : ℕ) :
    (e ∈ (List.range A.entity_count).filterMap (fun i =>
      if p (A.idx_to_entity.getD i 0)
          (arrays.map (fun col => col.getD i 0)) then
        some (A.idx_to_entity.getD i 0) else none)) ↔
      (A.contains e = true ∧ p e (A.queryVals ids e) = true) := by
  rw [List.mem_filterMap]
  constructor
  · rintro ⟨i, hi, hf⟩
    rw [List.mem_range] at hi
    by_cases hp : p (A.idx_to_entity.getD i 0)
        (arrays.map (fun col => col.getD i 0)) = true
    · rw [if_pos hp] at hf
      have he : A.idx_to_entity.getD i 0 = e := Option.some.inj hf
      have hw : A.idx_to_entity[i]? = some (A.idx_to_entity.getD i 0) := by
        rw [List.getD_eq_getElem?_getD,
          List.getElem?_eq_getElem (show i < A.idx_to_entity.length from hi)]
        simp
      rw [he] at hw
      have hlook : A.entities_to_idx.lookup e = some i :=
        Archetype.wf_get_lookup hA hw
      have hcont : A.contains e = true := by
        unfold Archetype.contains
        rw [hlook]
        rfl
      refine ⟨hcont, ?_⟩
      rw [he, mapM_lookup_queryVals hA ids arrays harr hlook] at hp
      exact hp
    · rw [if_neg hp] at hf
      cases hf
  · rintro ⟨hcont, hp⟩
    have hlook : ∃ i, A.entities_to_idx.lookup e = some i := by
      unfold Archetype.contains at hcont
      exact Option.isSome_iff_exists.mp hcont
    obtain ⟨i, hlook⟩ := hlook
    have hi : i < A.idx_to_entity.length := hA.idx_lt hlook
    have hl : A.idx_to_entity[i]? = some e := (hA.lookup_iff e i).mp hlook
    refine ⟨i, List.mem_range.mpr hi, ?_⟩
    have hgd : A.idx_to_entity.getD i 0 = e := by
      rw [List.getD_eq_getElem?_getD, hl]
      rfl
    rw [hgd, mapM_lookup_queryVals hA ids arrays harr hlook, if_pos hp]

theorem remove_if_contains {A A2 : Archetype} {ids : List ℕ}
    {p : ℕ → List ℕ → Bool} (hA : ArchWF A)
    (h : A.remove_if ids p = some A2) (e : ℕ) :
    A2.contains e = (A.contains e && !(p e (A.queryVals ids e))) := by
  rcases remove_if_some_cases h with ⟨h0, heq⟩ | ⟨h0, arrays, harr, heq⟩
  · rw [heq]
    have hce : A.contains e = false := by
      cases hc : A.contains e
      · rfl
      · exfalso
        unfold Archetype.contains at hc
        obtain ⟨i, hlook⟩ := Option.isSome_iff_exists.mp hc
        have := hA.idx_lt hlook
        unfold Archetype.entity_count at h0
        omega
    rw [hce]
    rfl
  · rw [heq, rfold_contains hA _ e]
    by_cases hmem : e ∈ (List.range A.entity_count).filterMap (fun i =>
        if p (A.idx_to_entity.getD i 0)
            (arrays.map (fun col => col.getD i 0)) then
          some (A.idx_to_entity.getD i 0) else none)
    · rw [if_pos hmem]
      obtain ⟨hc, hp⟩ := (remove_if_toRemove_mem hA harr p e).mp hmem
      rw [hc, hp]
      rfl
    · rw [if_neg hmem]
      cases hc : A.contains e
      · rfl
      · have hp : p e (A.queryVals ids e) = false := by
          cases hp2 : p e (A.queryVals ids e)
          · rfl
          · exact absurd ((remove_if_toRemove_mem hA harr p e).mpr
              ⟨hc, hp2⟩) hmem
        rw [hp]
        rfl



/-- Counterexample to C1 as stated: running `Query<P>::remove_if` with an
always-true predicate on `exw2` succeeds and entity 0 is removed from its
(mask-1) archetype, yet the world's entity-to-archetype map still maps
entity 0 to mask 1 — the entity is not removed "from the World itself", and
`world.archetype_of(0).contains(0)` is now false, breaking the stated
invariant for a still-mapped entity. -/
theorem claim_C1_counterexample :
    exq0.remove_if exw2 (fun _ _ => true) = some exw3 ∧
    exw3.entity_to_archetype_.lookup 0 = some 1 ∧
    (exw3.component_mask_to_archetypes_.lookup 1).map
      (fun A => A.contains 0) = some false :=
  ⟨rfl, rfl, rfl⟩

/-- Claim C1 (corrected): `Query::remove_if` never touches the world's
entity-to-archetype map (removed entities stay mapped, dangling).  What it
does do: every non-matching archetype is left untouched, and in every
matching archetype exactly the entities whose `(entity, components...)`
tuple satisfies the predicate are removed — afterwards the archetype
contains an entity iff it contained it before and the predicate rejected
its tuple. -/
theorem claim_C1 {q : Query} {w w2 : World} {p : ℕ → List ℕ → Bool}
    (hW : WorldWF w) (hsucc : q.remove_if w p = some w2) :
    w2.entity_to_archetype_ = w.entity_to_archetype_ ∧
    (∀ m A, w.component_mask_to_archetypes_.lookup m = some A →
      ∃ A2, w2.component_mask_to_archetypes_.lookup m = some A2 ∧
        (q.matchesMask m = false → A2 = A) ∧
        (q.matchesMask m = true → ∀ e, A2.contains e =
          (A.contains e &&
            !(p e (A.queryVals q.component_type_ids e))))) := by
  unfold Query.remove_if at hsucc
  cases harch : mapValsM
      (fun m A =>
        if q.matchesMask m = true then A.remove_if q.component_type_ids p
        else some A)
      w.component_mask_to_archetypes_ with
  | none =>
    rw [harch] at hsucc
    cases hsucc
  | some arch2 =>
    rw [harch] at hsucc
    simp only [Option.bind_eq_bind, Option.some_bind,
      Option.some.injEq] at hsucc
    subst hsucc
    refine ⟨rfl, ?_⟩
    intro m A hA
    obtain ⟨A2, hf, hl2⟩ := mapValsM_lookup_fwd harch hA
    by_cases hm : q.matchesMask m = true
    · rw [if_pos hm] at hf
      refine ⟨A2, hl2, ?_, fun _ => ?_⟩
      · intro hc
        rw [hm] at hc
        cases hc
      · exact remove_if_contains (hW.arch m A hA).2.2 hf
    · rw [if_neg hm] at hf
      have hA2 : A2 = A := (Option.some.inj hf).symm
      subst hA2
      exact ⟨A2, hl2, fun _ => rfl, fun hc => absurd hc hm⟩

/-- Witness for C1 at `exw2`: the always-true `Query<P>::remove_if` leaves
the entity map of `exw2` unchanged while the matching mask-1 archetype no
longer contains entity 0. -/
theorem claim_C1_witness :
    exw3.entity_to_archetype_ = exw2.entity_to_archetype_ ∧
    (∃ A2, exw3.component_mask_to_archetypes_.lookup 1 = some A2 ∧
      A2.contains 0 = false) := by
  obtain ⟨h1, h2⟩ := claim_C1 strongInv_exw2.wf
    (show exq0.remove_if exw2 (fun _ _ => true) = some exw3 from rfl)
  refine ⟨h1, ?_⟩
  obtain ⟨A2, hl, hfalse, htrue⟩ := h2 1 exA rfl
  refine ⟨A2, hl, ?_⟩
  rw [htrue (by decide) 0]
  simp


end ecs
